import Mathlib

/-!
# QuickCurver network protocol: packet codec, framing and server broadcast

A shallow embedding of `src/network/network.cpp`, `src/network/server.cpp` and the
bit helpers of `src/util.cpp`.

Bytes are natural numbers below 256.  An output stream (`QDataStream` opened write-only on a
`QByteArray`) is the list of bytes written so far.  An input stream is the record `QDataStream`
below: the unread bytes of the device, the device's transaction mark, the stream status and the
transaction depth.  The operators `<<` and `>>` of the transport library on the primitive types
used by the packets (8/16/32/64-bit integers in big-endian order, `bool`, `QString`, `QColor`,
`QPointF`) are embedded with the wire layout of the library's default stream version.
-/

namespace QuickCurver

/-! ## Transport: the input stream and its transactions -/

/-- Stream status of the transport (`QDataStream::Status`). -/
inductive Status where
  | Ok
  | ReadPastEnd
  | ReadCorruptData
  | WriteFailed
  deriving DecidableEq, Repr

/-- Input stream over a sequential device.  `buffer` holds the unread bytes of the device,
`saved` is the device transaction mark (the unread bytes at the time the device transaction was
started), `status` the stream status and `transactionDepth` the stream's transaction depth. -/
structure QDataStream where
  buffer : List Nat
  saved : Option (List Nat)
  status : Status
  transactionDepth : Nat
  deriving DecidableEq, Repr

namespace QDataStream

/-- The stream `QDataStream in(device)` over a device holding the unread bytes `dev`. -/
def ofDevice (dev : List Nat) : QDataStream :=
  { buffer := dev, saved := none, status := Status.Ok, transactionDepth := 0 }

/-- The stream with its unread bytes replaced by `b`. -/
def withBuffer (s : QDataStream) (b : List Nat) : QDataStream := { s with buffer := b }

/-- The stream with the bytes `post` arriving behind its unread bytes. -/
def extend (s : QDataStream) (post : List Nat) : QDataStream :=
  { s with buffer := s.buffer ++ post }

/-- Number of unread bytes, `bytesAvailable()` of the device. -/
def bytesAvailable (s : QDataStream) : Nat := s.buffer.length

/-- `setStatus`: the first error sticks, later calls are ignored until the status is reset. -/
def setStatus (s : QDataStream) (st : Status) : QDataStream :=
  if s.status = Status.Ok then { s with status := st } else s

/-- `startTransaction`: on the outermost level the device transaction starts and the status
is reset. -/
def startTransaction (s : QDataStream) : QDataStream :=
  if s.transactionDepth = 0 then
    { s with saved := some s.buffer, status := Status.Ok, transactionDepth := 1 }
  else
    { s with transactionDepth := s.transactionDepth + 1 }

/-- Device side of a rollback: the unread bytes are restored to the mark. -/
def deviceRollback (s : QDataStream) : QDataStream :=
  match s.saved with
  | some b => { s with buffer := b, saved := none }
  | none => s

/-- Device side of a commit: the mark is dropped, the bytes read stay consumed. -/
def deviceCommit (s : QDataStream) : QDataStream :=
  { s with saved := none }

/-- `commitTransaction`: without a transaction in progress it only warns and returns `false`;
on the outermost level a `ReadPastEnd` status rolls the device back and returns `false`,
otherwise the device commits and the result is `status == Ok`. -/
def commitTransaction (s : QDataStream) : Bool × QDataStream :=
  if s.transactionDepth = 0 then (false, s)
  else
    let s1 := { s with transactionDepth := s.transactionDepth - 1 }
    if s1.transactionDepth = 0 then
      if s1.status = Status.ReadPastEnd then (false, s1.deviceRollback)
      else (decide (s1.status = Status.Ok), s1.deviceCommit)
    else (decide (s1.status = Status.Ok), s1)

/-- `rollbackTransaction`: the status becomes `ReadPastEnd`; without a transaction in progress
nothing else happens; on the outermost level the device is rolled back. -/
def rollbackTransaction (s : QDataStream) : QDataStream :=
  let s1 := s.setStatus Status.ReadPastEnd
  if s1.transactionDepth = 0 then s1
  else
    let s2 := { s1 with transactionDepth := s1.transactionDepth - 1 }
    if s2.transactionDepth ≠ 0 then s2
    else if s2.status = Status.ReadPastEnd then s2.deviceRollback
    else s2.deviceCommit

/-- `readBlock`: reads are disabled once a transacted stream has failed; otherwise up to `len`
bytes are taken from the device and a short read sets `ReadPastEnd`.  Returns the bytes read. -/
def readBlock (s : QDataStream) (len : Nat) : List Nat × QDataStream :=
  if s.status ≠ Status.Ok ∧ s.saved.isSome then ([], s)
  else
    let got := s.buffer.take len
    let s1 := { s with buffer := s.buffer.drop len }
    (got, if got.length = len then s1 else s1.setStatus Status.ReadPastEnd)

/-- Big-endian value of a byte sequence. -/
def beValue (bs : List Nat) : Nat := bs.foldl (fun acc b => acc * 256 + b) 0

/-- Reads an unsigned big-endian integer of `len` bytes; the result is 0 when the read fails. -/
def readUInt (s : QDataStream) (len : Nat) : Nat × QDataStream :=
  let r := s.readBlock len
  (if r.1.length = len then beValue r.1 else 0, r.2)

/-- `in >> quint8`. -/
def readU8 (s : QDataStream) : Nat × QDataStream := s.readUInt 1

/-- `in >> quint16`. -/
def readU16 (s : QDataStream) : Nat × QDataStream := s.readUInt 2

/-- `in >> quint32`. -/
def readU32 (s : QDataStream) : Nat × QDataStream := s.readUInt 4

/-- `in >> double`, the value kept as its 64-bit pattern. -/
def readDouble (s : QDataStream) : Nat × QDataStream := s.readUInt 8

/-- `in >> qint32`: the 32-bit pattern read as a two's complement number. -/
def readI32 (s : QDataStream) : Int × QDataStream :=
  let r := s.readU32
  (if r.1 < 2147483648 then (r.1 : Int) else (r.1 : Int) - 4294967296, r.2)

/-- `in >> bool`: one byte, true when it is not zero. -/
def readBool (s : QDataStream) : Bool × QDataStream :=
  let r := s.readU8
  (decide (r.1 ≠ 0), r.2)

end QDataStream

/-! ## Transport: writing primitives -/

/-- Big-endian bytes of `v`, `len` of them (the value is truncated to `len` bytes). -/
def beBytes : Nat → Nat → List Nat
  | 0, _ => []
  | len + 1, v => ((v / 256 ^ len) % 256) :: beBytes len v

/-- `out << quint8`. -/
def writeU8 (out : List Nat) (v : Nat) : List Nat := out ++ beBytes 1 v

/-- `out << quint16`. -/
def writeU16 (out : List Nat) (v : Nat) : List Nat := out ++ beBytes 2 v

/-- `out << quint32`. -/
def writeU32 (out : List Nat) (v : Nat) : List Nat := out ++ beBytes 4 v

/-- `out << double`, the value given as its 64-bit pattern. -/
def writeDouble (out : List Nat) (v : Nat) : List Nat := out ++ beBytes 8 v

/-- `out << qint32`: the two's complement pattern of the value. -/
def writeI32 (out : List Nat) (v : Int) : List Nat := writeU32 out (v % 4294967296).toNat

/-- `out << bool`: one byte, 1 or 0. -/
def writeBool (out : List Nat) (b : Bool) : List Nat := writeU8 out b.toNat

/-! ## Transport: strings, colours and points -/

/-- String of the transport (`QString`): `none` is the null string, `some cs` a string with the
UTF-16 code units `cs`. -/
abbrev QString := Option (List Nat)

/-- Bytes of a sequence of 16-bit code units, two bytes each, big-endian. -/
def utf16Bytes : List Nat → List Nat
  | [] => []
  | c :: cs => ((c / 256) % 256) :: (c % 256) :: utf16Bytes cs

/-- Code units of a byte sequence of even length, two bytes each, big-endian. -/
def utf16Units : List Nat → List Nat
  | hi :: lo :: bs => (hi * 256 + lo) :: utf16Units bs
  | _ => []

/-- `out << QString`: the null string is the marker `0xffffffff`; any other string is its byte
length as `quint32` followed by its code units. -/
def writeQString (out : List Nat) (str : QString) : List Nat :=
  match str with
  | none => writeU32 out 4294967295
  | some cs => writeU32 out (2 * cs.length) ++ utf16Bytes cs

/-- `in >> QString`: reads the byte length; the marker gives the null string, zero the empty
string, an odd length is corrupt data, and otherwise the code units are read (the library
fetches them in blocks of at most one MiB, which consumes the same bytes as one read); a short
read clears the string and sets `ReadPastEnd`. -/
def QDataStream.readQString (s : QDataStream) : QString × QDataStream :=
  let r := s.readU32
  let bytes := r.1
  if bytes = 4294967295 then (none, r.2)
  else if bytes > 0 then
    if bytes % 2 = 1 then (none, r.2.setStatus Status.ReadCorruptData)
    else
      let d := r.2.readBlock bytes
      if d.1.length = bytes then (some (utf16Units d.1), d.2)
      else (none, d.2.setStatus Status.ReadPastEnd)
  else (some [], r.2)

/-- Colour of the transport (`QColor`): the colour spec and the five 16-bit components. -/
structure QColor where
  cspec : Nat
  alpha : Nat
  red : Nat
  green : Nat
  blue : Nat
  pad : Nat
  deriving DecidableEq, Repr

/-- `out << QColor`: spec as one byte, then alpha, red, green, blue and pad as `quint16`. -/
def writeQColor (out : List Nat) (c : QColor) : List Nat :=
  writeU16 (writeU16 (writeU16 (writeU16 (writeU16 (writeU8 out c.cspec) c.alpha) c.red)
    c.green) c.blue) c.pad

/-- `in >> QColor`. -/
def QDataStream.readQColor (s : QDataStream) : QColor × QDataStream :=
  let r0 := s.readU8
  let r1 := r0.2.readU16
  let r2 := r1.2.readU16
  let r3 := r2.2.readU16
  let r4 := r3.2.readU16
  let r5 := r4.2.readU16
  ({ cspec := r0.1, alpha := r1.1, red := r2.1, green := r3.1, blue := r4.1, pad := r5.1 }, r5.2)

/-- Point of the transport (`QPointF`): the bit patterns of its two `double` coordinates. -/
structure QPointF where
  xp : Nat
  yp : Nat
  deriving DecidableEq, Repr

/-- `out << QPointF`: the two coordinates as `double`. -/
def writeQPointF (out : List Nat) (p : QPointF) : List Nat :=
  writeDouble (writeDouble out p.xp) p.yp

/-- `in >> QPointF`. -/
def QDataStream.readQPointF (s : QDataStream) : QPointF × QDataStream :=
  let r0 := s.readDouble
  let r1 := r0.2.readDouble
  ({ xp := r0.1, yp := r1.1 }, r1.2)

/-! ## Bit helpers and container helpers (`Util`) -/

namespace Util

/-- `Util::getBit`: `(byte >> pos) % 2`, converted to `bool`. -/
def getBit (byte : Nat) (pos : Nat) : Bool := decide ((byte >>> pos) % 2 ≠ 0)

/-- `Util::setBit`: `byte |= value << pos`, stored back into the 8-bit `byte`. -/
def setBit (byte : Nat) (pos : Nat) (value : Bool) : Nat := (byte ||| (value.toNat <<< pos)) % 256

/-- `resize` of a sequence container: truncates, or pads with value-initialised elements. -/
def resize {α : Type} (l : List α) (n : Nat) (d : α) : List α :=
  l.take n ++ List.replicate (n - l.length) d

/-- Modelled from the spec: `Util::serializeCnt` is declared in `util.h`, which is not part of
the sources at hand.  Following the specification (sequences use a length-prefixed encoding), it
writes the number of elements as `quint32` and then every element in order. -/
def serializeCnt {α : Type} (writeElem : List Nat → α → List Nat) (out : List Nat)
    (cnt : List α) : List Nat :=
  cnt.foldl writeElem (writeU32 out cnt.length)

/-- Reads `n` elements in order with `readElem`. -/
def readElems {α : Type} (readElem : QDataStream → α × QDataStream) :
    Nat → QDataStream → List α × QDataStream
  | 0, s => ([], s)
  | n + 1, s =>
    let r := readElem s
    let rest := readElems readElem n r.2
    (r.1 :: rest.1, rest.2)

/-- Modelled from the spec: `Util::parseCnt` is declared in `util.h`, which is not part of the
sources at hand.  Following the specification it is the inverse of `serializeCnt`: it reads the
number of elements as `quint32` and then that many elements in order. -/
def parseCnt {α : Type} (readElem : QDataStream → α × QDataStream) (s : QDataStream) :
    List α × QDataStream :=
  let r := s.readU32
  readElems readElem r.1 r.2

end Util

/-! ## Packet type model -/

/-- Which kind of instance sent a packet (`InstanceType`). -/
inductive InstanceType where
  | Server
  | Client
  deriving DecidableEq, Repr

namespace Packet

/-- Modelled from the spec: the enumeration `ServerTypes` is declared in `network.h`, which is
not part of the sources at hand; section 6 of the specification gives the ordinals. -/
def ServerTypes.Chat_Message : Nat := 0

/-- Modelled from the spec: ordinal of `ServerTypes::PlayerModelEdit` (see `Chat_Message`). -/
def ServerTypes.PlayerModelEdit : Nat := 1

/-- Modelled from the spec: ordinal of `ServerTypes::CurverData` (see `Chat_Message`). -/
def ServerTypes.CurverData : Nat := 2

/-- Modelled from the spec: ordinal of `ServerTypes::ItemData` (see `Chat_Message`). -/
def ServerTypes.ItemData : Nat := 3

/-- Modelled from the spec: the enumeration `ClientTypes` is declared in `network.h`, which is
not part of the sources at hand; section 6 of the specification gives the ordinals. -/
def ClientTypes.Chat_Message : Nat := 0

/-- Modelled from the spec: ordinal of `ClientTypes::PlayerModelEdit` (see `Chat_Message`). -/
def ClientTypes.PlayerModelEdit : Nat := 1

/-- Modelled from the spec: ordinal of `ClientTypes::CurverRotation` (see `Chat_Message`). -/
def ClientTypes.CurverRotation : Nat := 2

/-! ## Packet codec -/

/-- Fields of `ServerChatMsg`. -/
structure ServerChatMsg where
  username : QString
  message : QString
  deriving DecidableEq, Repr

/-- `ServerChatMsg::serialize`: `out << username << message`. -/
def ServerChatMsg.serialize (p : ServerChatMsg) (out : List Nat) : List Nat :=
  writeQString (writeQString out p.username) p.message

/-- `ServerChatMsg::parse`: `in >> username >> message`. -/
def ServerChatMsg.parse (_p : ServerChatMsg) (ins : QDataStream) : ServerChatMsg × QDataStream :=
  let r0 := ins.readQString
  let r1 := r0.2.readQString
  ({ username := r0.1, message := r1.1 }, r1.2)

/-- Fields of `ClientChatMsg`. -/
structure ClientChatMsg where
  message : QString
  deriving DecidableEq, Repr

/-- `ClientChatMsg::serialize`: `out << message`. -/
def ClientChatMsg.serialize (p : ClientChatMsg) (out : List Nat) : List Nat :=
  writeQString out p.message

/-- `ClientChatMsg::parse`: `in >> message`. -/
def ClientChatMsg.parse (_p : ClientChatMsg) (ins : QDataStream) : ClientChatMsg × QDataStream :=
  let r0 := ins.readQString
  ({ message := r0.1 }, r0.2)

/-- Wire projection of a player (`Packet::Player`); `controller` is the underlying value of the
enumeration `Curver::Controller`. -/
structure Player where
  userName : QString
  color : QColor
  roundScore : Int
  totalScore : Int
  controller : Nat
  deriving DecidableEq, Repr

/-- Stream output of a `Player`:
`out << userName << color << roundScore << totalScore << static_cast<uint8_t>(controller)`. -/
def Player.write (out : List Nat) (p : Player) : List Nat :=
  writeU8 (writeI32 (writeI32 (writeQColor (writeQString out p.userName) p.color) p.roundScore)
    p.totalScore) (p.controller % 256)

/-- Stream input of a `Player`:
`in >> userName >> color >> roundScore >> totalScore >> ctrl`, then the cast of `ctrl`. -/
def Player.read (ins : QDataStream) : Player × QDataStream :=
  let r0 := ins.readQString
  let r1 := r0.2.readQColor
  let r2 := r1.2.readI32
  let r3 := r2.2.readI32
  let r4 := r3.2.readU8
  ({ userName := r0.1, color := r1.1, roundScore := r2.1, totalScore := r3.1,
     controller := r4.1 }, r4.2)

/-- Fields of `ServerPlayerModel`. -/
structure ServerPlayerModel where
  data : List Player
  deriving DecidableEq, Repr

/-- `ServerPlayerModel::serialize`: `Util::serializeCnt(out, data)`. -/
def ServerPlayerModel.serialize (p : ServerPlayerModel) (out : List Nat) : List Nat :=
  Util.serializeCnt Player.write out p.data

/-- `ServerPlayerModel::parse`: `Util::parseCnt(in, data)`. -/
def ServerPlayerModel.parse (_p : ServerPlayerModel) (ins : QDataStream) :
    ServerPlayerModel × QDataStream :=
  let r := Util.parseCnt Player.read ins
  ({ data := r.1 }, r.2)

/-- Fields of `ClientPlayerModel`. -/
structure ClientPlayerModel where
  username : QString
  color : QColor
  deriving DecidableEq, Repr

/-- `ClientPlayerModel::serialize`: `out << username << color`. -/
def ClientPlayerModel.serialize (p : ClientPlayerModel) (out : List Nat) : List Nat :=
  writeQColor (writeQString out p.username) p.color

/-- `ClientPlayerModel::parse`: `in >> username >> color`. -/
def ClientPlayerModel.parse (_p : ClientPlayerModel) (ins : QDataStream) :
    ClientPlayerModel × QDataStream :=
  let r0 := ins.readQString
  let r1 := r0.2.readQColor
  ({ username := r0.1, color := r1.1 }, r1.2)

/-- Fields of `ServerCurverData`. -/
structure ServerCurverData where
  pos : List QPointF
  changingSegment : List Bool
  deriving DecidableEq, Repr

/-- State of the loop of `ServerCurverData::serialize`: the bytes written, `compressedByte`
and `lastPos`. -/
structure PackState where
  out : List Nat
  compressedByte : Nat
  lastPos : Nat
  deriving DecidableEq, Repr

/-- One iteration of the loop of `ServerCurverData::serialize`: a full byte is written and
the accumulator reset when `lastPos == 0`; then `compressedByte |= seg << --lastPos`. -/
def ServerCurverData.serializeStep (st : PackState) (seg : Bool) : PackState :=
  let st1 : PackState :=
    if st.lastPos = 0 then { out := writeU8 st.out st.compressedByte, compressedByte := 0, lastPos := 8 }
    else st
  let lastPos := st1.lastPos - 1
  { out := st1.out,
    compressedByte := (st1.compressedByte ||| (seg.toNat <<< lastPos)) % 256,
    lastPos := lastPos }

/-- The flag bytes written by `ServerCurverData::serialize` after the position sequence:
the loop over `changingSegment` started with `compressedByte = 0`, `lastPos = 8`, followed by
the final `out << compressedByte`. -/
def ServerCurverData.serializeFlags (out : List Nat) (changingSegment : List Bool) : List Nat :=
  let st := changingSegment.foldl ServerCurverData.serializeStep
    { out := out, compressedByte := 0, lastPos := 8 }
  writeU8 st.out st.compressedByte

/-- `ServerCurverData::serialize`: `Util::serializeCnt(out, pos)`, then the packed flags. -/
def ServerCurverData.serialize (p : ServerCurverData) (out : List Nat) : List Nat :=
  ServerCurverData.serializeFlags (Util.serializeCnt writeQPointF out p.pos) p.changingSegment

/-- State of the loop of `ServerCurverData::parse`: the stream, `compressedByte`, `lastPos`,
and the values assigned to the loop variable `seg` so far, in order. -/
structure UnpackState where
  ins : QDataStream
  compressedByte : Nat
  lastPos : Nat
  assigned : List Bool
  deriving DecidableEq, Repr

/-- One iteration of the loop of `ServerCurverData::parse`: a byte is read when
`lastPos == 0`; then `seg = Util::getBit(compressedByte, --lastPos)`. -/
def ServerCurverData.parseStep (st : UnpackState) (_seg : Bool) : UnpackState :=
  let st1 : UnpackState :=
    if st.lastPos = 0 then
      let r := st.ins.readU8
      { st with ins := r.2, compressedByte := r.1, lastPos := 8 }
    else st
  let lastPos := st1.lastPos - 1
  { st1 with lastPos := lastPos,
             assigned := st1.assigned ++ [Util.getBit st1.compressedByte lastPos] }

/-- The loop of `ServerCurverData::parse` over the elements of `changingSegment`, started with
`lastPos = 0` (the uninitialised `compressedByte` is read only after the first byte was
fetched). -/
def ServerCurverData.parseFlags (ins : QDataStream) (changingSegment : List Bool) : UnpackState :=
  changingSegment.foldl ServerCurverData.parseStep
    { ins := ins, compressedByte := 0, lastPos := 0, assigned := [] }

/-- `ServerCurverData::parse`: `Util::parseCnt(in, pos)`, `changingSegment.resize(pos.size())`,
then the loop over the elements of `changingSegment`, which reads the flag bytes and assigns
every decoded bit to its loop variable.  The sources use `changingSegment` as a `std::vector`
of `bool` (`resize` here, indexing in `fill` and `extract`, range-`for` in `serialize`); the
element `auto seg` of a range-`for` over such a sequence is a reference proxy, so
`seg = Util::getBit(...)` stores the bit in the element the loop is at ("the following
procedure parses every changingSegment bit by bit").  After the loop the sequence therefore
holds the assigned values, one per element, in order. -/
def ServerCurverData.parse (p : ServerCurverData) (ins : QDataStream) :
    ServerCurverData × QDataStream :=
  let r := Util.parseCnt QDataStream.readQPointF ins
  let changingSegment := Util.resize p.changingSegment r.1.length false
  let st := ServerCurverData.parseFlags r.2 changingSegment
  ({ pos := r.1, changingSegment := st.assigned }, st.ins)

/-- Fields of `ClientCurverRotation`; `rotation` is the underlying value of the enumeration
`Curver::Rotation`. -/
structure ClientCurverRotation where
  rotation : Nat
  deriving DecidableEq, Repr

/-- `ClientCurverRotation::serialize`: `out << static_cast<uint8_t>(rotation)`. -/
def ClientCurverRotation.serialize (p : ClientCurverRotation) (out : List Nat) : List Nat :=
  writeU8 out (p.rotation % 256)

/-- `ClientCurverRotation::parse`: `in >> rot`, then the cast of `rot`. -/
def ClientCurverRotation.parse (_p : ClientCurverRotation) (ins : QDataStream) :
    ClientCurverRotation × QDataStream :=
  let r0 := ins.readU8
  ({ rotation := r0.1 }, r0.2)

/-- Fields of `ServerItemData`; `allowedUsers` is the underlying value of the enumeration
`Item::AllowedUsers`. -/
structure ServerItemData where
  spawned : Bool
  sequenceNumber : Nat
  which : Int
  pos : QPointF
  allowedUsers : Nat
  collectorIndex : Int
  deriving DecidableEq, Repr

/-- `ServerItemData::serialize`: `out << spawned << sequenceNumber << which << pos
<< static_cast<uint8_t>(allowedUsers) << collectorIndex`. -/
def ServerItemData.serialize (p : ServerItemData) (out : List Nat) : List Nat :=
  writeI32 (writeU8 (writeQPointF (writeI32 (writeU32 (writeBool out p.spawned) p.sequenceNumber)
    p.which) p.pos) (p.allowedUsers % 256)) p.collectorIndex

/-- `ServerItemData::parse`: `in >> spawned >> sequenceNumber >> which >> pos >> allowed
>> collectorIndex`, then the cast of `allowed`. -/
def ServerItemData.parse (_p : ServerItemData) (ins : QDataStream) :
    ServerItemData × QDataStream :=
  let r0 := ins.readBool
  let r1 := r0.2.readU32
  let r2 := r1.2.readI32
  let r3 := r2.2.readQPointF
  let r4 := r3.2.readU8
  let r5 := r4.2.readI32
  ({ spawned := r0.1, sequenceNumber := r1.1, which := r2.1, pos := r3.1, allowedUsers := r4.1,
     collectorIndex := r5.1 }, r5.2)

/-- The concrete packet classes: the payload of an `AbstractPacket`. -/
inductive Body where
  | serverChatMsg (p : ServerChatMsg)
  | serverPlayerModel (p : ServerPlayerModel)
  | serverCurverData (p : ServerCurverData)
  | serverItemData (p : ServerItemData)
  | clientChatMsg (p : ClientChatMsg)
  | clientPlayerModel (p : ClientPlayerModel)
  | clientCurverRotation (p : ClientCurverRotation)
  deriving DecidableEq, Repr

/-- A packet: the type tag fixed by the constructor, the two header flags and the payload. -/
structure AbstractPacket where
  type : Nat
  start : Bool
  reset : Bool
  body : Body
  deriving DecidableEq, Repr

/-- Constructor `ServerChatMsg()`. -/
def ServerChatMsg.new : AbstractPacket :=
  { type := ServerTypes.Chat_Message, start := false, reset := false,
    body := Body.serverChatMsg { username := none, message := none } }

/-- Constructor `ServerPlayerModel()`. -/
def ServerPlayerModel.new : AbstractPacket :=
  { type := ServerTypes.PlayerModelEdit, start := false, reset := false,
    body := Body.serverPlayerModel { data := [] } }

/-- Constructor `ServerCurverData()`. -/
def ServerCurverData.new : AbstractPacket :=
  { type := ServerTypes.CurverData, start := false, reset := false,
    body := Body.serverCurverData { pos := [], changingSegment := [] } }

/-- Constructor `ServerItemData()`. -/
def ServerItemData.new : AbstractPacket :=
  { type := ServerTypes.ItemData, start := false, reset := false,
    body := Body.serverItemData
      { spawned := false, sequenceNumber := 0, which := 0, pos := { xp := 0, yp := 0 },
        allowedUsers := 0, collectorIndex := 0 } }

/-- Constructor `ClientChatMsg()`. -/
def ClientChatMsg.new : AbstractPacket :=
  { type := ClientTypes.Chat_Message, start := false, reset := false,
    body := Body.clientChatMsg { message := none } }

/-- Constructor `ClientPlayerModel()`. -/
def ClientPlayerModel.new : AbstractPacket :=
  { type := ClientTypes.PlayerModelEdit, start := false, reset := false,
    body := Body.clientPlayerModel
      { username := none,
        color := { cspec := 0, alpha := 65535, red := 0, green := 0, blue := 0, pad := 0 } } }

/-- Constructor `ClientCurverRotation()`. -/
def ClientCurverRotation.new : AbstractPacket :=
  { type := ClientTypes.CurverRotation, start := false, reset := false,
    body := Body.clientCurverRotation { rotation := 0 } }

namespace AbstractPacket

/-- Virtual `serialize` of the concrete class. -/
def serialize (p : AbstractPacket) (out : List Nat) : List Nat :=
  match p.body with
  | Body.serverChatMsg b => b.serialize out
  | Body.serverPlayerModel b => b.serialize out
  | Body.serverCurverData b => b.serialize out
  | Body.serverItemData b => b.serialize out
  | Body.clientChatMsg b => b.serialize out
  | Body.clientPlayerModel b => b.serialize out
  | Body.clientCurverRotation b => b.serialize out

/-- Virtual `parse` of the concrete class: the payload fields are overwritten. -/
def parse (p : AbstractPacket) (ins : QDataStream) : AbstractPacket × QDataStream :=
  match p.body with
  | Body.serverChatMsg b => let r := b.parse ins; ({ p with body := Body.serverChatMsg r.1 }, r.2)
  | Body.serverPlayerModel b =>
    let r := b.parse ins; ({ p with body := Body.serverPlayerModel r.1 }, r.2)
  | Body.serverCurverData b =>
    let r := b.parse ins; ({ p with body := Body.serverCurverData r.1 }, r.2)
  | Body.serverItemData b => let r := b.parse ins; ({ p with body := Body.serverItemData r.1 }, r.2)
  | Body.clientChatMsg b => let r := b.parse ins; ({ p with body := Body.clientChatMsg r.1 }, r.2)
  | Body.clientPlayerModel b =>
    let r := b.parse ins; ({ p with body := Body.clientPlayerModel r.1 }, r.2)
  | Body.clientCurverRotation b =>
    let r := b.parse ins; ({ p with body := Body.clientCurverRotation r.1 }, r.2)

/-- The header byte computed by `sendPacket`: `flags |= start << 5`, `flags |= reset << 4`,
`header = (type << 6) | flags`, each stored into a `uint8_t`. -/
def header (p : AbstractPacket) : Nat :=
  let flags := 0
  let flags := (flags ||| (p.start.toNat <<< 5)) % 256
  let flags := (flags ||| (p.reset.toNat <<< 4)) % 256
  ((p.type <<< 6) ||| flags) % 256

/-- `AbstractPacket::sendPacket`: the block handed to `s->write`, the header byte followed by
the serialized payload. -/
def sendPacket (p : AbstractPacket) : List Nat :=
  let block : List Nat := []
  let block := writeU8 block p.header
  p.serialize block

/-- The type ordinal `receivePacket` takes from a header byte: `header >> 6`. -/
def headerType (header : Nat) : Nat := header >>> 6

/-- The flag byte `receivePacket` takes from a header byte: `header << 2 >> 2` evaluated on
`int` and stored into a `uint8_t`. -/
def headerFlags (header : Nat) : Nat := ((header <<< 2) >>> 2) % 256

/-- The packet `receivePacket` constructs for a type ordinal, if a case of the `switch`
matches. -/
def construct (src : InstanceType) (type : Nat) : Option AbstractPacket :=
  match src with
  | InstanceType.Server =>
    if type = ServerTypes.Chat_Message then some ServerChatMsg.new
    else if type = ServerTypes.PlayerModelEdit then some ServerPlayerModel.new
    else if type = ServerTypes.CurverData then some ServerCurverData.new
    else if type = ServerTypes.ItemData then some ServerItemData.new
    else none
  | InstanceType.Client =>
    if type = ClientTypes.Chat_Message then some ClientChatMsg.new
    else if type = ClientTypes.PlayerModelEdit then some ClientPlayerModel.new
    else if type = ClientTypes.CurverRotation then some ClientCurverRotation.new
    else none

/-- `AbstractPacket::receivePacket`: reads the header byte, constructs the packet for the type
ordinal (the `default` cases roll the transaction back and leave the result null), then copies
the flags and runs `parse`.  Returns the packet, `none` for the null pointer, and the stream. -/
def receivePacket (ins : QDataStream) (src : InstanceType) : Option AbstractPacket × QDataStream :=
  let r := ins.readU8
  let header := r.1
  let type := headerType header
  let flags := headerFlags header
  match construct src type with
  | some result =>
    let result := { result with start := Util.getBit flags 5, reset := Util.getBit flags 4 }
    let q := result.parse r.2
    (some q.1, q.2)
  | none => (none, r.2.rollbackTransaction)

end AbstractPacket

end Packet

/-! ## Server session manager -/

open Packet

/-- A player entity (`Curver`), reduced to what the server and the packets read or write:
name, colour, rotation and controller (underlying enumeration values), the current position
(`getPos()`), whether the segment is changing (`isChangingSegment()`) and the two scores. -/
structure Curver where
  userName : QString
  color : QColor
  rotation : Nat
  controller : Nat
  pos : QPointF
  changingSegment : Bool
  roundScore : Int
  totalScore : Int
  deriving DecidableEq, Repr

/-- The server object together with the singletons and sockets it works on.
* `clients`: the session map, socket handle to player (index into `curvers`);
* `dataBroadcastIteration`, `resetDue`: the members of `Server` of these names;
* `curvers`: `PlayerModel::getSingleton().getCurvers()`;
* `networkCurverBlock`: `Settings::getSingleton().getNetworkCurverBlock()`;
* `adminName`: the constant `ADMIN_NAME`;
* `chat`: the messages appended to `ChatModel`;
* `rx`: the unread bytes of every socket;
* `written`: the blocks written to sockets, in order, each with its socket;
* `broadcasts`: the packets passed to `broadcastPacket`, in order (a trace, not program state);
* `peerAddress`: the code units of `peerAddress().toString()` of every socket. -/
structure World where
  clients : List (Nat × Nat)
  dataBroadcastIteration : Nat
  resetDue : Bool
  curvers : List Curver
  networkCurverBlock : Nat
  adminName : QString
  chat : List (QString × QString)
  rx : Nat → List Nat
  written : List (Nat × List Nat)
  broadcasts : List AbstractPacket
  peerAddress : Nat → List Nat

/-- A server without clients and players, block interval `n`. -/
def World.init (n : Nat) : World :=
  { clients := [], dataBroadcastIteration := 0, resetDue := false, curvers := [],
    networkCurverBlock := n, adminName := none, chat := [], rx := fun _ => [], written := [],
    broadcasts := [], peerAddress := fun _ => [] }

/-- `ServerCurverData::fill`: both sequences are resized to the number of curvers and every
entry is overwritten with the position and the changing-segment flag of the curver. -/
def Packet.ServerCurverData.fill (curvers : List Curver) : ServerCurverData :=
  { pos := curvers.map (fun c => c.pos), changingSegment := curvers.map (fun c => c.changingSegment) }

namespace Server

/-- `Server::broadcastPacket`: `sendPacket` on the socket of every client, in map order. -/
def broadcastPacket (p : AbstractPacket) (w : World) : World :=
  { w with
    written := w.written ++ w.clients.map (fun c => (c.1, p.sendPacket)),
    broadcasts := w.broadcasts ++ [p] }

/-- `Server::broadcastCurverData`: the counter is incremented; when it is a multiple of the
block interval a `ServerCurverData` packet is filled, gets `start = true` and
`reset = resetDue`, `resetDue` is cleared and the packet is broadcast.  A block interval of
zero is a division by zero, for which no result is defined (`none`).  The counter is taken as
unbounded. -/
def broadcastCurverData (w : World) : Option World :=
  if w.networkCurverBlock = 0 then none
  else
    let w1 := { w with dataBroadcastIteration := w.dataBroadcastIteration + 1 }
    if w1.dataBroadcastIteration % w1.networkCurverBlock = 0 then
      let p : AbstractPacket :=
        { ServerCurverData.new with body := Body.serverCurverData (ServerCurverData.fill w1.curvers) }
      let p := { p with start := true }
      let p := { p with reset := w1.resetDue }
      let w2 := { w1 with resetDue := false }
      some (broadcastPacket p w2)
    else some w1

/-- `Server::broadcastChatMessage(username, message)`. -/
def broadcastChatMessage (username message : QString) (w : World) : World :=
  let p : AbstractPacket :=
    { ServerChatMsg.new with body := Body.serverChatMsg { username := username, message := message } }
  broadcastPacket p { w with chat := w.chat ++ [(username, message)] }

/-- `Server::resetRound`. -/
def resetRound (w : World) : World := { w with resetDue := true }

/-- `Server::curverFromSocket`: the player of the first entry for the socket, or null. -/
def curverFromSocket (s : Nat) (w : World) : Option Nat :=
  (w.clients.find? (fun c => c.1 == s)).map (fun c => c.2)

/-- `Server::handlePacket`.  Dereferencing a null or dangling player, and using the packet as
a class it is not, have no defined result (`none`).  `Curver::setColor` is taken to store the
colour; `PlayerModel::forceRefresh` does not change the state kept here. -/
def handlePacket (p : AbstractPacket) (s : Nat) (w : World) : Option World :=
  let curver := curverFromSocket s w
  if p.type = ClientTypes.Chat_Message then
    match p.body, curver.bind (fun i => w.curvers[i]?) with
    | Body.clientChatMsg b, some c => some (broadcastChatMessage c.userName b.message w)
    | _, _ => none
  else if p.type = ClientTypes.PlayerModelEdit then
    match p.body, curver, curver.bind (fun i => w.curvers[i]?) with
    | Body.clientPlayerModel b, some i, some c =>
      some { w with curvers := w.curvers.set i { c with userName := b.username, color := b.color } }
    | _, _, _ => none
  else if p.type = ClientTypes.CurverRotation then
    match p.body, curver with
    | Body.clientCurverRotation b, some i =>
      match w.curvers[i]? with
      | some c => some { w with curvers := w.curvers.set i { c with rotation := b.rotation } }
      | none => none
    | Body.clientCurverRotation _, none => some w
    | _, _ => none
  else some w

/-- The `while` loop of `Server::socketReadyRead`, with the packet handler as a parameter:
while bytes are available and no ill-formed packet was seen, a transaction is started, a packet
is received, and the packet is handled if the transaction commits; otherwise the loop is left.
`fuel` bounds the number of iterations. -/
def readLoop {σ : Type} (handle : AbstractPacket → σ → Option σ) :
    Nat → QDataStream → Bool → σ → Option (QDataStream × σ)
  | 0, ins, _, x => some (ins, x)
  | fuel + 1, ins, illformedPacket, x =>
    if ins.bytesAvailable ≠ 0 ∧ illformedPacket = false then
      let r := AbstractPacket.receivePacket ins.startTransaction InstanceType.Client
      let c := r.2.commitTransaction
      if c.1 = true then
        match r.1 with
        | some packet => (handle packet x).bind (fun x1 => readLoop handle fuel c.2 illformedPacket x1)
        | none => none
      else readLoop handle fuel c.2 true x
    else some (ins, x)

/-- `Server::socketReadyRead` for the socket `s`: the loop runs on a stream over the socket
with `handlePacket` as the handler; every committed packet takes at least its header byte off
the socket, so one iteration per unread byte and one more are enough. -/
def socketReadyRead (s : Nat) (w : World) : Option World :=
  let ins := QDataStream.ofDevice (w.rx s)
  (readLoop (fun p x => handlePacket p s x) (ins.bytesAvailable + 1) ins false w).map
    (fun r => { r.2 with rx := fun t => if t = s then r.1.buffer else r.2.rx t })

/-- A number of consecutive calls of `Server::broadcastCurverData`. -/
def broadcastCurverDataTimes : Nat → World → Option World
  | 0, w => some w
  | k + 1, w => (broadcastCurverDataTimes k w).bind broadcastCurverData

end Server

/-! ## Server session manager: connections, teardown and the other broadcasts -/

/-- Modelled from the spec: the enumeration `Curver::Controller` is declared in `curver.h`,
which is not part of the sources at hand; the specification names the controller kind
"remote" of a player created for a connection.  The ordinal is not given anywhere; nothing
proved below depends on its value. -/
def Curver.CONTROLLER_REMOTE : Nat := 1

/-- Modelled from the spec: `Curver::appendPoint` is defined in `curver.cpp`, which is not
part of the sources at hand.  Following the specification ("extract" writes a packet's fields
back into the simulation) the point becomes the position of the curver and the flag its
changing-segment state. -/
def Curver.appendPoint (c : Curver) (pos : QPointF) (changingSegment : Bool) : Curver :=
  { c with pos := pos, changingSegment := changingSegment }

/-- Modelled from the spec: `PlayerModel::getNewPlayer` is defined in `playermodel.cpp`, which
is not part of the sources at hand.  Following the specification ("create player for new
connection") it adds one player, given here as `fresh`, behind the players of the registry
and returns it (as its index). -/
def PlayerModel.getNewPlayer (fresh : Curver) (w : World) : Nat × World :=
  (w.curvers.length, { w with curvers := w.curvers ++ [fresh] })

/-- Modelled from the spec: `PlayerModel::serialize` is defined in `playermodel.cpp`, which is
not part of the sources at hand.  Following section 6 of the specification it writes a
length-prefixed sequence of player tuples, one per player of the registry. -/
def PlayerModel.serialize (out : List Nat) (curvers : List Curver) : List Nat :=
  Util.serializeCnt Player.write out
    (curvers.map
      (fun c => Player.mk c.userName c.color c.roundScore c.totalScore c.controller))

/-- `ServerPlayerModel::fill`: the registry is serialized into a buffer and the packet parses
that buffer. -/
def Packet.ServerPlayerModel.fill (p : ServerPlayerModel) (curvers : List Curver) :
    ServerPlayerModel :=
  (p.parse (QDataStream.ofDevice (PlayerModel.serialize [] curvers))).1

/-- `ServerCurverData::extract`: for every index `i` below the number of curvers of the
registry, `curvers[i]->appendPoint(pos[i], changingSegment[i])`.  Reading `pos[i]` or
`changingSegment[i]` at an index beyond the sequence has no defined result (`none`). -/
def Packet.ServerCurverData.extract (p : ServerCurverData) (curvers : List Curver) :
    Option (List Curver) :=
  (List.range curvers.length).foldlM
    (fun cs i =>
      match p.pos[i]?, p.changingSegment[i]?, cs[i]? with
      | some a, some b, some c => some (cs.set i (c.appendPoint a b))
      | _, _, _ => none)
    curvers

namespace Server

/-- The code units of the text `" joined"`. -/
def joinedText : List Nat := [32, 106, 111, 105, 110, 101, 100]

/-- The code units of the text `" left the game"`. -/
def leftText : List Nat := [32, 108, 101, 102, 116, 32, 116, 104, 101, 32, 103, 97, 109, 101]

/-- `Server::broadcastChatMessage(msg)`, the overload for admin messages:
`broadcastChatMessage(ADMIN_NAME, msg)`. -/
def broadcastAdminChatMessage (msg : QString) (w : World) : World :=
  broadcastChatMessage w.adminName msg w

/-- `clients[key] = curver` on the session map: the entry of the key is overwritten, or a new
entry is added when the map has none for the key. -/
def assignClient (s curver : Nat) : List (Nat × Nat) → List (Nat × Nat)
  | [] => [(s, curver)]
  | c :: rest => if c.1 = s then (s, curver) :: rest else c :: assignClient s curver rest

/-- `Server::newConnection`: `pending` is the result of `nextPendingConnection()`, `none` for
the null pointer, and `fresh` the player `getNewPlayer` creates.  For a socket the player is
created, its controller set, the socket registered and the join notice broadcast.  The signal
connections leave the state kept here as it is. -/
def newConnection (pending : Option Nat) (fresh : Curver) (w : World) : Option World :=
  match pending with
  | none => some w
  | some s =>
    let r := PlayerModel.getNewPlayer fresh w
    let curver := r.1
    match r.2.curvers[curver]? with
    | none => none
    | some c =>
      let w1 := { r.2 with
        curvers := r.2.curvers.set curver { c with controller := Curver.CONTROLLER_REMOTE } }
      let w2 := { w1 with clients := assignClient s curver w1.clients }
      some (broadcastAdminChatMessage (some (w2.peerAddress s ++ joinedText)) w2)

/-- `Server::removePlayer`: the removal from the session map is commented out in the source;
what runs is the broadcast of the departure notice. -/
def removePlayer (s : Nat) (w : World) : World :=
  broadcastAdminChatMessage (some (w.peerAddress s ++ leftText)) w

/-- `Server::socketError` for the sending socket `s`: the error text is posted to the info bar
of the user interface (not part of the state kept here), then `removePlayer(s)`. -/
def socketError (s : Nat) (w : World) : World := removePlayer s w

/-- `Server::socketDisconnect` for the sending socket `s`: `removePlayer(s)`. -/
def socketDisconnect (s : Nat) (w : World) : World := removePlayer s w

/-- `Server::broadcastPlayerModel`. -/
def broadcastPlayerModel (w : World) : World :=
  let p : AbstractPacket :=
    { ServerPlayerModel.new with
      body := Body.serverPlayerModel (ServerPlayerModel.fill { data := [] } w.curvers) }
  broadcastPacket p w

/-- `Server::broadcastItemData`. -/
def broadcastItemData (spawned : Bool) (sequenceNumber : Nat) (which : Int) (pos : QPointF)
    (allowedUsers : Nat) (collectorIndex : Int) (w : World) : World :=
  let p : AbstractPacket :=
    { ServerItemData.new with
      body := Body.serverItemData
        { spawned := spawned, sequenceNumber := sequenceNumber, which := which, pos := pos,
          allowedUsers := allowedUsers, collectorIndex := collectorIndex } }
  broadcastPacket p w

end Server

/-- What happens to the server: the slots and operations of `Server`, and the arrival of
bytes on a socket. -/
inductive Event where
  | newConnection (pending : Option Nat) (fresh : Curver)
  | socketReadyRead (s : Nat)
  | socketError (s : Nat)
  | socketDisconnect (s : Nat)
  | broadcastCurverData
  | broadcastChatMessage (username message : QString)
  | broadcastAdminChatMessage (msg : QString)
  | broadcastPlayerModel
  | broadcastItemData (spawned : Bool) (sequenceNumber : Nat) (which : Int) (pos : QPointF)
      (allowedUsers : Nat) (collectorIndex : Int)
  | resetRound
  | bytesArrive (s : Nat) (bytes : List Nat)

/-- The effect of an event on the server; `none` when the operation has no defined result. -/
def Event.apply (e : Event) (w : World) : Option World :=
  match e with
  | Event.newConnection pending fresh => Server.newConnection pending fresh w
  | Event.socketReadyRead s => Server.socketReadyRead s w
  | Event.socketError s => some (Server.socketError s w)
  | Event.socketDisconnect s => some (Server.socketDisconnect s w)
  | Event.broadcastCurverData => Server.broadcastCurverData w
  | Event.broadcastChatMessage u m => some (Server.broadcastChatMessage u m w)
  | Event.broadcastAdminChatMessage m => some (Server.broadcastAdminChatMessage m w)
  | Event.broadcastPlayerModel => some (Server.broadcastPlayerModel w)
  | Event.broadcastItemData sp sq wh ps al ci =>
    some (Server.broadcastItemData sp sq wh ps al ci w)
  | Event.resetRound => some (Server.resetRound w)
  | Event.bytesArrive s bytes =>
    some { w with rx := fun t => if t = s then w.rx s ++ bytes else w.rx t }

/-! ## Auxiliary definitions for the proofs -/

/-- The bytes the loop of `ServerCurverData::serialize` and the final write add to the output
when started with accumulator `cb` and position `lp`, as a recursion over the flags. -/
def packFrom (cb lp : Nat) : List Bool → List Nat
  | [] => [cb % 256]
  | seg :: rest =>
    if lp = 0 then (cb % 256) :: packFrom ((0 ||| (seg.toNat <<< 7)) % 256) 7 rest
    else packFrom ((cb ||| (seg.toNat <<< (lp - 1))) % 256) (lp - 1) rest

/-- The eight bits of a byte, most significant bit first. -/
def byteBits (b : Nat) : List Bool :=
  [Util.getBit b 7, Util.getBit b 6, Util.getBit b 5, Util.getBit b 4,
   Util.getBit b 3, Util.getBit b 2, Util.getBit b 1, Util.getBit b 0]

/-- The bits of a byte sequence, byte after byte, most significant bit first. -/
def bitsOf : List Nat → List Bool
  | [] => []
  | b :: bs => byteBits b ++ bitsOf bs

/-! ## Valid field values -/

/-- A string the transport can carry: every code unit fits 16 bits and the byte length fits
the 32-bit length field without being the null marker. -/
def QStringValid (str : QString) : Prop :=
  match str with
  | none => True
  | some cs => (∀ c ∈ cs, c < 65536) ∧ 2 * cs.length < 4294967295

/-- A colour whose spec fits 8 bits and whose components fit 16 bits. -/
def QColorValid (c : QColor) : Prop :=
  c.cspec < 256 ∧ c.alpha < 65536 ∧ c.red < 65536 ∧ c.green < 65536 ∧ c.blue < 65536 ∧
    c.pad < 65536

/-- A point whose coordinates are 64-bit patterns. -/
def QPointFValid (p : QPointF) : Prop :=
  p.xp < 18446744073709551616 ∧ p.yp < 18446744073709551616

/-- A value of the 32-bit signed integer type. -/
def Int32Valid (v : Int) : Prop := -2147483648 ≤ v ∧ v < 2147483648

/-- Valid field values of a `ServerChatMsg`. -/
def ServerChatMsgValid (p : ServerChatMsg) : Prop :=
  QStringValid p.username ∧ QStringValid p.message

/-- Valid field values of a `ClientChatMsg`. -/
def ClientChatMsgValid (p : ClientChatMsg) : Prop := QStringValid p.message

/-- Valid field values of a `ClientPlayerModel`. -/
def ClientPlayerModelValid (p : ClientPlayerModel) : Prop :=
  QStringValid p.username ∧ QColorValid p.color

/-- Valid field values of a `ClientCurverRotation`: the enumeration value fits 8 bits. -/
def ClientCurverRotationValid (p : ClientCurverRotation) : Prop := p.rotation < 256

/-- Valid field values of a `ServerItemData`. -/
def ServerItemDataValid (p : ServerItemData) : Prop :=
  p.sequenceNumber < 4294967296 ∧ Int32Valid p.which ∧ QPointFValid p.pos ∧
    p.allowedUsers < 256 ∧ Int32Valid p.collectorIndex

/-- Valid client packets: the payload is one of the three client classes with valid field
values, and the type tag is the one the constructor of that class assigns. -/
def ClientPacketValid (p : AbstractPacket) : Prop :=
  match p.body with
  | Body.clientChatMsg b => p.type = ClientTypes.Chat_Message ∧ ClientChatMsgValid b
  | Body.clientPlayerModel b => p.type = ClientTypes.PlayerModelEdit ∧ ClientPlayerModelValid b
  | Body.clientCurverRotation b =>
    p.type = ClientTypes.CurverRotation ∧ ClientCurverRotationValid b
  | _ => False

/-- A reader is stable when, inside a device transaction, it keeps the transaction mark and
depth, keeps a `ReadPastEnd` status, never adds unread bytes, and, unless it ends in
`ReadPastEnd`, behaves the same when more bytes `post` stand behind the unread bytes, leaving
these bytes unread. -/
def Stable {α : Type} (R : QDataStream → α × QDataStream) : Prop :=
  ∀ s : QDataStream, s.saved.isSome = true →
    (R s).2.saved = s.saved ∧ (R s).2.transactionDepth = s.transactionDepth ∧
    (s.status = Status.ReadPastEnd → (R s).2.status = Status.ReadPastEnd) ∧
    (∀ post, (R s).2.status ≠ Status.ReadPastEnd →
      R (s.extend post) = ((R s).1, (R s).2.extend post)) ∧
    (R s).2.buffer.length ≤ s.buffer.length

/-! ## Snapshots broadcast by the server -/

/-- The `ServerCurverData` packet `broadcastCurverData` builds from the curvers: filled,
`start` set, and `reset` as given. -/
def curverSnapshot (curvers : List Curver) (reset : Bool) : AbstractPacket :=
  { type := ServerTypes.CurverData, start := true, reset := reset,
    body := Body.serverCurverData (ServerCurverData.fill curvers) }

/-- A run of `m` snapshots of which the first carries `reset = r` and the others
`reset = false`. -/
def snapshotRun (curvers : List Curver) (r : Bool) (m : Nat) : List AbstractPacket :=
  (List.range m).map (fun i => curverSnapshot curvers (r && decide (i = 0)))

/-- The blocks `broadcastPacket` writes for a list of packets: every packet to every client. -/
def blocksFor (clients : List (Nat × Nat)) (ps : List AbstractPacket) : List (Nat × List Nat) :=
  ps.flatMap (fun p => clients.map (fun c => (c.1, p.sendPacket)))

/-- The server after `k` further calls of `broadcastCurverData`, in closed form: the counter
advanced by `k`, one snapshot logged and written for every multiple of the block interval the
counter passed, and the pending reset cleared once a snapshot was sent. -/
def afterBroadcasts (w : World) (k : Nat) : World :=
  { w with
    dataBroadcastIteration := w.dataBroadcastIteration + k,
    resetDue := w.resetDue &&
      decide ((w.dataBroadcastIteration + k) / w.networkCurverBlock
        - w.dataBroadcastIteration / w.networkCurverBlock = 0),
    written := w.written ++ blocksFor w.clients (snapshotRun w.curvers w.resetDue
      ((w.dataBroadcastIteration + k) / w.networkCurverBlock
        - w.dataBroadcastIteration / w.networkCurverBlock)),
    broadcasts := w.broadcasts ++ snapshotRun w.curvers w.resetDue
      ((w.dataBroadcastIteration + k) / w.networkCurverBlock
        - w.dataBroadcastIteration / w.networkCurverBlock) }

/-! ## Notices and reachable server states -/

/-- The `ServerChatMsg` packet `broadcastChatMessage` builds. -/
def chatNotice (username message : QString) : AbstractPacket :=
  { ServerChatMsg.new with
    body := Body.serverChatMsg { username := username, message := message } }

/-- The server after `newConnection` accepted the socket `s`, in closed form. -/
def afterAccept (s : Nat) (fresh : Curver) (w : World) : World :=
  { w with
    clients := w.clients ++ [(s, w.curvers.length)],
    curvers := w.curvers ++ [{ fresh with controller := Curver.CONTROLLER_REMOTE }],
    chat := w.chat ++ [(w.adminName, some (w.peerAddress s ++ Server.joinedText))],
    written := w.written ++ (w.clients ++ [(s, w.curvers.length)]).map (fun c =>
      (c.1, (chatNotice w.adminName (some (w.peerAddress s ++ Server.joinedText))).sendPacket)),
    broadcasts := w.broadcasts
      ++ [chatNotice w.adminName (some (w.peerAddress s ++ Server.joinedText))] }

/-- The packets `receivePacket` can return for direction `Client`: the type tag and the class
of the payload agree. -/
def ClientShape (p : AbstractPacket) : Prop :=
  (p.type = ClientTypes.Chat_Message ∧ ∃ b, p.body = Body.clientChatMsg b) ∨
  (p.type = ClientTypes.PlayerModelEdit ∧ ∃ b, p.body = Body.clientPlayerModel b) ∨
  (p.type = ClientTypes.CurverRotation ∧ ∃ b, p.body = Body.clientCurverRotation b)

/-- When an event can happen: `nextPendingConnection()` returns a socket that is not in the
session map, and the signals `readyRead`, `error` and `disconnected` reach the server only
from sockets it accepted (`newConnection` connects them), which are in the session map. -/
def Event.Admissible (e : Event) (w : World) : Prop :=
  match e with
  | Event.newConnection (some s) _ => ∀ c ∈ w.clients, c.1 ≠ s
  | Event.socketReadyRead s => ∃ c ∈ w.clients, c.1 = s
  | Event.socketError s => ∃ c ∈ w.clients, c.1 = s
  | Event.socketDisconnect s => ∃ c ∈ w.clients, c.1 = s
  | _ => True

/-- The socket an event accepts, with the index of the player created for it. -/
def Event.accepts (e : Event) (w : World) : List (Nat × Nat) :=
  match e with
  | Event.newConnection (some s) _ => [(s, w.curvers.length)]
  | _ => []

/-- `Reachable acc w`: the server state `w` is reached from a state without clients by events
with a defined result, and `acc` lists the sockets accepted on the way, each with the player
created for it. -/
inductive Reachable : List (Nat × Nat) → World → Prop where
  | init (w : World) (h : w.clients = []) : Reachable [] w
  | step (acc : List (Nat × Nat)) (w w1 : World) (e : Event) (hr : Reachable acc w)
      (ha : e.Admissible w) (he : e.apply w = some w1) : Reachable (acc ++ e.accepts w) w1

/-- The session map has one entry per socket and every entry refers to a player of the
registry. -/
def SessionInv (w : World) : Prop :=
  (w.clients.map Prod.fst).Nodup ∧ ∀ c ∈ w.clients, c.2 < w.curvers.length

/-! ## Clean-install animation (`CleaninstallAnimation`) -/

/-- Modelled from the spec: `Segment` is declared in `segment.h`, which is not part of the
sources at hand.  The animation uses a segment through `getSegmentSize`, `clear` and
`popPoints` only, so a segment is represented by the number of points it holds; the
specification counts a segment of size 0 among the segments an animation can hold. -/
structure Segment where
  points : Nat
  deriving DecidableEq, Repr

/-- Modelled from the spec: `Segment::getSegmentSize`, the number of points of the segment. -/
def Segment.getSegmentSize (s : Segment) : Nat := s.points

/-- Modelled from the spec: `Segment::clear`, after which the segment holds no point. -/
def Segment.clear (_s : Segment) : Segment := { points := 0 }

/-- Modelled from the spec: `Segment::popPoints(n)`, which takes `n` points off the segment. -/
def Segment.popPoints (s : Segment) (n : Nat) : Segment := { points := s.points - n }

/-- Modelled from the spec: `Util::accumulate` is declared in `util.h`, which is not part of
the sources at hand.  `trigger` uses it to "calculate total amount of points" and the
specification calls the result the total size: the sum of the elements, starting from `init`. -/
def Util.accumulate (cnt : List Nat) (init : Nat) : Nat := cnt.foldl (fun acc x => acc + x) init

/-- The state of a `CleaninstallAnimation`: the segments it holds, the cached size and the
number of deleted points of every segment, the cached total size, and whether the timer runs.
Sizes are taken as unbounded. -/
structure CleaninstallAnimation where
  segments : List Segment
  sizeCache : List Nat
  pointsDeleted : List Nat
  totalSize : Nat
  timerActive : Bool
  deriving DecidableEq, Repr

namespace CleaninstallAnimation

/-- The macro `ANIMATION_DURATION`, in milliseconds. -/
def ANIMATION_DURATION : Nat := 300

/-- An animation that holds nothing, as the constructor leaves it. -/
def new : CleaninstallAnimation :=
  { segments := [], sizeCache := [], pointsDeleted := [], totalSize := 0, timerActive := false }

/-- `CleaninstallAnimation::trigger`: with no new segment nothing happens.  Otherwise the new
segments are moved behind the held ones (the argument is left empty), both caches are resized
to the number of held segments, every entry of `sizeCache` is overwritten with the size of its
segment and every entry of `pointsDeleted` with 0, the total size is accumulated and the timer
is started.  The result is the animation and what is left of `newSegments`. -/
def trigger (newSegments : List Segment) (a : CleaninstallAnimation) :
    CleaninstallAnimation × List Segment :=
  if newSegments.length = 0 then (a, newSegments)
  else
    let segments := a.segments ++ newSegments
    let sizeCache := segments.map (fun s => s.getSegmentSize)
    let pointsDeleted := segments.map (fun _ => 0)
    ({ segments := segments, sizeCache := sizeCache, pointsDeleted := pointsDeleted,
       totalSize := Util.accumulate sizeCache 0, timerActive := true }, [])

/-- The `for` loop of `CleaninstallAnimation::progress`.  `remaining` holds the entries
`sizeCache[segmentIndex]`, `sizeCache[segmentIndex + 1]`, ... that are still ahead, so the
loop condition `segmentIndex < sizeCache.size()` is that `remaining` is not empty.  While
`pointsToDelete >= sizeCache[segmentIndex]` the size is subtracted, the segment cleared and
`pointsDeleted[segmentIndex]` set to the size.  An access beyond `segments` or `pointsDeleted`
has no defined result (`none`).  The result is the index and the count the loop ends with,
and the animation. -/
def skipLoop : List Nat → Nat → Nat → CleaninstallAnimation →
    Option (Nat × Nat × CleaninstallAnimation)
  | [], segmentIndex, pointsToDelete, a => some (segmentIndex, pointsToDelete, a)
  | size :: remaining, segmentIndex, pointsToDelete, a =>
    if pointsToDelete ≥ size then
      match a.segments[segmentIndex]?, a.pointsDeleted[segmentIndex]? with
      | some seg, some _ =>
        skipLoop remaining (segmentIndex + 1) (pointsToDelete - size)
          { a with
            segments := a.segments.set segmentIndex seg.clear,
            pointsDeleted := a.pointsDeleted.set segmentIndex size }
      | _, _ => none
    else some (segmentIndex, pointsToDelete, a)

/-- The body of `CleaninstallAnimation::progress` for the elapsed-time factor `factor`, taken
as an exact rational: `pos` is `totalSize * factor` cut to an integer.  For `factor < 1` the
loop skips the segments that are deleted as a whole, then `segments[segmentIndex]` and
`pointsDeleted[segmentIndex]` are used without a check of the index; an access beyond the
sequences has no defined result (`none`).  The number of points popped is the difference
`pointsToDelete - pointsDeleted[segmentIndex]`, which is not negative as long as the time does
not run backwards.  Otherwise the timer is stopped and the segments are dropped. -/
def progressFactor (factor : ℚ) (a : CleaninstallAnimation) : Option CleaninstallAnimation :=
  let pos := Nat.floor ((a.totalSize : ℚ) * factor)
  if factor < 1 then
    match skipLoop a.sizeCache 0 pos a with
    | none => none
    | some (segmentIndex, pointsToDelete, a1) =>
      match a1.segments[segmentIndex]?, a1.pointsDeleted[segmentIndex]? with
      | some seg, some deleted =>
        some { a1 with
          segments := a1.segments.set segmentIndex (seg.popPoints (pointsToDelete - deleted)),
          pointsDeleted := a1.pointsDeleted.set segmentIndex pointsToDelete }
      | _, _ => none
  else some { a with timerActive := false, segments := [] }

/-- `CleaninstallAnimation::progress`, `timeSinceStart` milliseconds after the animation was
triggered: the factor is `timeSinceStart / ANIMATION_DURATION`. -/
def progress (timeSinceStart : Int) (a : CleaninstallAnimation) : Option CleaninstallAnimation :=
  progressFactor ((timeSinceStart : ℚ) / (ANIMATION_DURATION : ℚ)) a

/-- The segment index `progress` reaches after the skip loop for the factor `factor`. -/
def indexAfterSkip (factor : ℚ) (a : CleaninstallAnimation) : Option Nat :=
  (skipLoop a.sizeCache 0 (Nat.floor ((a.totalSize : ℚ) * factor)) a).map (fun r => r.1)

end CleaninstallAnimation

/-! ## Basic facts about the transport -/

theorem beBytes_one (v : Nat) : beBytes 1 v = [v % 256] := by
  simp [beBytes]

theorem readBlock_ok (s : QDataStream) (len : Nat) (hs : s.status = Status.Ok)
    (hl : len ≤ s.buffer.length) :
    s.readBlock len = (s.buffer.take len, s.withBuffer (s.buffer.drop len)) := by
  simp [QDataStream.readBlock, hs, QDataStream.withBuffer, List.length_take, hl]

theorem readU8_cons (s : QDataStream) (b : Nat) (rest : List Nat) (hs : s.status = Status.Ok)
    (hb : s.buffer = b :: rest) : s.readU8 = (b, s.withBuffer rest) := by
  have h := readBlock_ok s 1 hs (by simp [hb])
  simp [QDataStream.readU8, QDataStream.readUInt, h, hb, QDataStream.beValue]

theorem parse_type (p : AbstractPacket) (ins : QDataStream) :
    (p.parse ins).1.type = p.type ∧ (p.parse ins).1.start = p.start ∧
      (p.parse ins).1.reset = p.reset := by
  rcases p with ⟨t, st, rs, body⟩
  cases body <;> simp [AbstractPacket.parse]

/-! ## Writers append to the output -/

theorem foldl_write_append {α : Type} (w : List Nat → α → List Nat)
    (hw : ∀ acc x, w acc x = acc ++ w [] x) (l : List α) (acc : List Nat) :
    l.foldl w acc = acc ++ l.foldl w [] := by
  induction l generalizing acc with
  | nil => simp
  | cons x l ih =>
    simp only [List.foldl_cons]
    rw [ih (w acc x), ih (w [] x), hw acc x, List.append_assoc]

theorem writeQString_append (out : List Nat) (str : QString) :
    writeQString out str = out ++ writeQString [] str := by
  cases str <;> simp [writeQString, writeU32]

theorem writeQColor_append (out : List Nat) (c : QColor) :
    writeQColor out c = out ++ writeQColor [] c := by
  simp [writeQColor, writeU16, writeU8]

theorem writeQPointF_append (out : List Nat) (c : QPointF) :
    writeQPointF out c = out ++ writeQPointF [] c := by
  simp [writeQPointF, writeDouble]

theorem Player_write_append (out : List Nat) (c : Player) :
    Player.write out c = out ++ Player.write [] c := by
  cases h : c.userName <;>
    simp [Player.write, writeU8, writeI32, writeU32, writeQColor, writeU16, writeQString, h]

theorem serializeCnt_append {α : Type} (w : List Nat → α → List Nat)
    (hw : ∀ acc x, w acc x = acc ++ w [] x) (out : List Nat) (l : List α) :
    Util.serializeCnt w out l = out ++ Util.serializeCnt w [] l := by
  simp only [Util.serializeCnt, writeU32]
  rw [foldl_write_append w hw l (out ++ _), foldl_write_append w hw l ([] ++ _)]
  simp

theorem serializeStep_fold (l : List Bool) (st : PackState) :
    writeU8 (l.foldl ServerCurverData.serializeStep st).out
      (l.foldl ServerCurverData.serializeStep st).compressedByte
      = st.out ++ packFrom st.compressedByte st.lastPos l := by
  induction l generalizing st with
  | nil => simp [writeU8, packFrom, beBytes_one]
  | cons seg l ih =>
    simp only [List.foldl_cons]
    rw [ih]
    by_cases h : st.lastPos = 0
    · simp [ServerCurverData.serializeStep, h, packFrom, writeU8, beBytes_one]
    · simp [ServerCurverData.serializeStep, h, packFrom]

theorem serializeFlags_eq (out : List Nat) (l : List Bool) :
    ServerCurverData.serializeFlags out l = out ++ packFrom 0 8 l := by
  simp [ServerCurverData.serializeFlags, serializeStep_fold]

theorem serialize_append (p : AbstractPacket) (out : List Nat) :
    p.serialize out = out ++ p.serialize [] := by
  rcases p with ⟨t, st, rs, body⟩
  cases body with
  | serverChatMsg b =>
    simp only [AbstractPacket.serialize, ServerChatMsg.serialize]
    rw [writeQString_append, writeQString_append out, writeQString_append (writeQString _ _)]
    simp
  | serverPlayerModel b =>
    simp only [AbstractPacket.serialize, ServerPlayerModel.serialize]
    exact serializeCnt_append _ Player_write_append _ _
  | serverCurverData b =>
    simp only [AbstractPacket.serialize, ServerCurverData.serialize, serializeFlags_eq]
    rw [serializeCnt_append _ writeQPointF_append]
    simp
  | serverItemData b =>
    simp [AbstractPacket.serialize, ServerItemData.serialize, writeI32, writeU8, writeU32,
      writeBool, writeQPointF, writeDouble]
  | clientChatMsg b =>
    simp only [AbstractPacket.serialize, ClientChatMsg.serialize]
    exact writeQString_append _ _
  | clientPlayerModel b =>
    simp only [AbstractPacket.serialize, ClientPlayerModel.serialize]
    rw [writeQColor_append, writeQString_append, writeQColor_append (writeQString _ _)]
    simp
  | clientCurverRotation b =>
    simp [AbstractPacket.serialize, ClientCurverRotation.serialize, writeU8]

theorem sendPacket_eq (p : AbstractPacket) :
    p.sendPacket = p.header :: p.serialize [] := by
  have hh : p.header % 256 = p.header := by
    simp [AbstractPacket.header]
  simp only [AbstractPacket.sendPacket, writeU8, beBytes_one, List.nil_append]
  rw [serialize_append, hh]
  rfl

theorem header_value (t : Nat) (st rs : Bool) (body : Body) (ht : t < 4) :
    AbstractPacket.header { type := t, start := st, reset := rs, body := body }
      = 64 * t + 32 * st.toNat + 16 * rs.toNat := by
  simp only [AbstractPacket.header]
  interval_cases t <;> cases st <;> cases rs <;> decide

/-- C8. Header layout: for a packet with type ordinal below 4, the first byte of the block
written by `sendPacket` is `64 * type + 32 * start + 16 * reset`; its two top bits are the
type, bit 5 is `start`, bit 4 is `reset` and the four low bits are zero. -/
theorem sendPacket_header_layout (p : AbstractPacket) (ht : p.type < 4) :
    p.sendPacket.head? = some (64 * p.type + 32 * p.start.toNat + 16 * p.reset.toNat) ∧
    p.header / 64 = p.type ∧
    Util.getBit p.header 5 = p.start ∧
    Util.getBit p.header 4 = p.reset ∧
    p.header % 16 = 0 := by
  rcases p with ⟨t, st, rs, body⟩
  simp only at ht
  rw [sendPacket_eq, header_value t st rs body ht]
  refine ⟨by simp, ?_, ?_, ?_, ?_⟩ <;>
    interval_cases t <;> cases st <;> cases rs <;> rfl

/-- Witness for C8: a `ServerCurverData` packet with `start` set has the header byte 160. -/
theorem sendPacket_header_layout_witness :
    ({ ServerCurverData.new with start := true } : AbstractPacket).sendPacket.head? = some 160 :=
  (sendPacket_header_layout { ServerCurverData.new with start := true } (by decide)).1

theorem construct_isSome (src : InstanceType) (t : Nat) (ht : t < 4) :
    AbstractPacket.construct src t = none ↔ (src = InstanceType.Client ∧ t = 3) := by
  interval_cases t <;> cases src <;> decide

theorem construct_type (src : InstanceType) (t : Nat) (q : AbstractPacket)
    (h : AbstractPacket.construct src t = some q) : q.type = t := by
  cases src <;> simp only [AbstractPacket.construct] at h <;> split_ifs at h <;>
    (cases h; simp_all [ServerChatMsg.new, ServerPlayerModel.new, ServerCurverData.new,
        ServerItemData.new, ClientChatMsg.new, ClientPlayerModel.new, ClientCurverRotation.new])

theorem header_decode (p : AbstractPacket) (ht : p.type < 4) :
    AbstractPacket.headerType p.header = p.type ∧
    Util.getBit (AbstractPacket.headerFlags p.header) 5 = p.start ∧
    Util.getBit (AbstractPacket.headerFlags p.header) 4 = p.reset := by
  rcases p with ⟨t, st, rs, body⟩
  simp only at ht
  rw [header_value t st rs body ht]
  refine ⟨?_, ?_, ?_⟩ <;> interval_cases t <;> cases st <;> cases rs <;> rfl

/-- C1. Header fidelity: for a packet with type ordinal below 4 and any flags, the header byte
`sendPacket` writes decodes to the same type ordinal (`header >> 6`), and `receivePacket`,
reading that byte from a stream in good state (followed by any bytes, for either direction),
returns a packet with the same type, `start` and `reset`; the result is null only when the
direction is `Client` and the ordinal is 3, for which no class is registered. -/
theorem header_fidelity (p : AbstractPacket) (src : InstanceType) (ins : QDataStream)
    (rest : List Nat) (ht : p.type < 4) (hs : ins.status = Status.Ok)
    (hb : ins.buffer = p.header :: rest) :
    AbstractPacket.headerType p.header = p.type ∧
    (∀ q, (AbstractPacket.receivePacket ins src).1 = some q →
      q.type = p.type ∧ q.start = p.start ∧ q.reset = p.reset) ∧
    ((AbstractPacket.receivePacket ins src).1 = none ↔
      (src = InstanceType.Client ∧ p.type = 3)) := by
  obtain ⟨hty, hst, hrs⟩ := header_decode p ht
  have hrd := readU8_cons ins p.header rest hs hb
  refine ⟨hty, ?_, ?_⟩
  · intro q hq
    simp only [AbstractPacket.receivePacket, hrd, hty, hst, hrs] at hq
    cases hc : AbstractPacket.construct src p.type with
    | none => simp [hc] at hq
    | some r =>
      simp only [hc, Option.some.injEq] at hq
      have ht := construct_type src p.type r hc
      subst hq
      obtain ⟨h1, h2, h3⟩ := parse_type { r with start := p.start, reset := p.reset } (ins.withBuffer rest)
      exact ⟨by rw [h1]; exact ht, by rw [h2], by rw [h3]⟩
  · rw [← construct_isSome src p.type ht]
    simp only [AbstractPacket.receivePacket, hrd, hty]
    cases hc : AbstractPacket.construct src p.type <;> simp

/-- Witness for C1: a `ClientChatMsg` packet with both flags set and a null message is sent as
five bytes; read back on the server it has type 0 and both flags set. -/
theorem header_fidelity_witness :
    ({ ClientChatMsg.new with start := true, reset := true } : AbstractPacket).sendPacket
      = [48, 255, 255, 255, 255] ∧
    (AbstractPacket.receivePacket
        (QDataStream.ofDevice [48, 255, 255, 255, 255]) InstanceType.Client).1
      = some { ClientChatMsg.new with start := true, reset := true } ∧
    (({ ClientChatMsg.new with start := true, reset := true } : AbstractPacket).type
        = ({ ClientChatMsg.new with start := true, reset := true } : AbstractPacket).type ∧
      ({ ClientChatMsg.new with start := true, reset := true } : AbstractPacket).start = true ∧
      ({ ClientChatMsg.new with start := true, reset := true } : AbstractPacket).reset = true) :=
  ⟨by decide, by decide,
   (header_fidelity { ClientChatMsg.new with start := true, reset := true } InstanceType.Client
      (QDataStream.ofDevice [48, 255, 255, 255, 255]) [255, 255, 255, 255]
      (by decide) rfl rfl).2.1 { ClientChatMsg.new with start := true, reset := true }
      (by decide)⟩

/-! ## Bit packing of the changing-segment flags -/

theorem getBit_eq_testBit (b p : Nat) : Util.getBit b p = b.testBit p := by
  simp only [Util.getBit, Nat.testBit_to_div_mod, Nat.shiftRight_eq_div_pow]
  rcases Nat.mod_two_eq_zero_or_one (b / 2 ^ p) with h | h <;> simp [h]

theorem getBit_mod (cb p : Nat) (hp : p < 8) : Util.getBit (cb % 256) p = Util.getBit cb p := by
  have h := Nat.testBit_mod_two_pow cb 8 p
  simp only [getBit_eq_testBit]
  simpa [hp] using h

theorem getBit_or_shift (cb k p : Nat) (seg : Bool) :
    Util.getBit ((cb ||| (seg.toNat <<< k)) % 256) p
      = (decide (p < 8) && (Util.getBit cb p || (decide (p = k) && seg))) := by
  have h := Nat.testBit_mod_two_pow (cb ||| (seg.toNat <<< k)) 8 p
  simp only [getBit_eq_testBit]
  rw [show (256 : Nat) = 2 ^ 8 from rfl, h, Nat.testBit_lor,
    Nat.testBit_shiftLeft, Nat.testBit_bool_to_nat]
  cases seg
  · simp
  · by_cases h2 : p = k
    · simp [h2]
    · by_cases h3 : k ≤ p
      · have h4 : ¬ (p - k = 0) := by omega
        simp [h2, h3, h4]
      · simp [h2, h3]

theorem getBit_zero (p : Nat) : Util.getBit 0 p = false := by
  simp [getBit_eq_testBit]

theorem byteBits_mod (cb : Nat) : byteBits (cb % 256) = byteBits cb := by
  simp [byteBits, getBit_mod]

theorem bitsOf_packFrom (l : List Bool) (cb lp : Nat) (hlp : lp ≤ 8)
    (hlow : ∀ p, p < lp → Util.getBit cb p = false) :
    ∃ pad, bitsOf (packFrom cb lp l)
      = (byteBits cb).take (8 - lp) ++ l ++ List.replicate pad false := by
  induction l generalizing cb lp with
  | nil =>
    refine ⟨lp, ?_⟩
    simp only [packFrom, bitsOf, byteBits_mod, List.append_nil]
    have h0 := hlow 0
    have h1 := hlow 1
    have h2 := hlow 2
    have h3 := hlow 3
    have h4 := hlow 4
    have h5 := hlow 5
    have h6 := hlow 6
    have h7 := hlow 7
    interval_cases lp <;> simp_all [byteBits, List.replicate]
  | cons seg l ih =>
    by_cases h : lp = 0
    · subst h
      obtain ⟨pad, hpad⟩ := ih ((0 ||| (seg.toNat <<< 7)) % 256) 7 (by omega) (by
        intro p hp
        rw [getBit_or_shift]
        simp [getBit_zero]
        omega)
      refine ⟨pad, ?_⟩
      simp only [packFrom, if_true, bitsOf, hpad]
      rw [byteBits_mod cb]
      simp only [byteBits, getBit_or_shift, getBit_zero]
      simp
    · obtain ⟨pad, hpad⟩ := ih ((cb ||| (seg.toNat <<< (lp - 1))) % 256) (lp - 1) (by omega) (by
        intro p hp
        rw [getBit_or_shift, hlow p (by omega)]
        simp
        omega)
      refine ⟨pad, ?_⟩
      simp only [packFrom, if_neg h, hpad]
      simp only [byteBits, getBit_or_shift]
      have h0 := hlow 0
      have h1 := hlow 1
      have h2 := hlow 2
      have h3 := hlow 3
      have h4 := hlow 4
      have h5 := hlow 5
      have h6 := hlow 6
      have h7 := hlow 7
      interval_cases lp <;> simp_all
theorem length_packFrom (l : List Bool) (cb lp : Nat) (hlp : lp ≤ 8) :
    (packFrom cb lp l).length = 1 + (l.length + 7 - lp) / 8 := by
  induction l generalizing cb lp with
  | nil =>
    simp only [packFrom, List.length_cons, List.length_nil]
    omega
  | cons seg l ih =>
    by_cases h : lp = 0
    · subst h
      simp only [packFrom, if_true, List.length_cons, ih _ 7 (by omega)]
      omega
    · simp only [packFrom, if_neg h, List.length_cons, ih _ (lp - 1) (by omega)]
      omega

theorem mem_packFrom_lt (l : List Bool) (cb lp : Nat) :
    ∀ b ∈ packFrom cb lp l, b < 256 := by
  induction l generalizing cb lp with
  | nil =>
    intro b hb
    simp only [packFrom, List.mem_singleton] at hb
    omega
  | cons seg l ih =>
    intro b hb
    by_cases h : lp = 0
    · simp only [packFrom, h, if_true, List.mem_cons] at hb
      rcases hb with hb | hb
      · omega
      · exact ih _ _ b hb
    · simp only [packFrom, if_neg h] at hb
      exact ih _ _ b hb

theorem bitsOf_getElem (bs : List Nat) (j k b : Nat) (hb : bs[j]? = some b) (hk : k < 8) :
    (bitsOf bs)[8 * j + k]? = some (Util.getBit b (7 - k)) := by
  induction bs generalizing j with
  | nil => simp at hb
  | cons b0 bs ih =>
    cases j with
    | zero =>
      simp only [List.getElem?_cons_zero, Option.some.injEq] at hb
      subst hb
      simp only [bitsOf, Nat.mul_zero, Nat.zero_add]
      rw [List.getElem?_append_left (by simp [byteBits]; omega)]
      interval_cases k <;> simp [byteBits]
    | succ j =>
      simp only [List.getElem?_cons_succ] at hb
      simp only [bitsOf]
      rw [List.getElem?_append_right (by simp [byteBits]; omega)]
      have h8 : 8 * (j + 1) + k - (byteBits b0).length = 8 * j + k := by
        simp [byteBits]; omega
      rw [h8]
      exact ih j hb

theorem serializeFlags_bits (flags : List Bool) :
    ∃ pad, bitsOf (ServerCurverData.serializeFlags [] flags)
      = flags ++ List.replicate pad false := by
  obtain ⟨pad, h⟩ := bitsOf_packFrom flags 0 8 (by omega) (by
    intro p _
    exact getBit_zero p)
  exact ⟨pad, by simpa [serializeFlags_eq] using h⟩

/-- C6. Bit-packing encode: `ServerCurverData::serialize` writes the position sequence and
then the flag bytes; bit `7 - (i mod 8)` of flag byte `i / 8` equals `flags[i]` for every
index `i`, every bit of a flag byte that is assigned to no flag is zero, the eight flags
`[true,false,true,true,false,false,false,true]` give the single byte `0b10110001` and the
three flags `[true,false,true]` give the single byte `0b10100000`. -/
theorem serialize_flag_bits (p : ServerCurverData) (out : List Nat) :
    p.serialize out = Util.serializeCnt writeQPointF out p.pos
        ++ ServerCurverData.serializeFlags [] p.changingSegment ∧
    (∀ i (hi : i < p.changingSegment.length),
      ∃ b, (ServerCurverData.serializeFlags [] p.changingSegment)[i / 8]? = some b ∧
        Util.getBit b (7 - i % 8) = p.changingSegment[i]) ∧
    (∀ j k b, (ServerCurverData.serializeFlags [] p.changingSegment)[j]? = some b → k < 8 →
      p.changingSegment.length ≤ 8 * j + (7 - k) → Util.getBit b k = false) ∧
    (∀ b ∈ ServerCurverData.serializeFlags [] p.changingSegment, b < 256) ∧
    ServerCurverData.serializeFlags [] [true, false, true, true, false, false, false, true]
      = [177] ∧
    ServerCurverData.serializeFlags [] [true, false, true] = [160] := by
  obtain ⟨pad, hbits⟩ := serializeFlags_bits p.changingSegment
  have hlen : (bitsOf (ServerCurverData.serializeFlags [] p.changingSegment)).length
      = p.changingSegment.length + pad := by
    rw [hbits]; simp
  refine ⟨?_, ?_, ?_, ?_, by decide, by decide⟩
  · simp only [ServerCurverData.serialize]
    rw [serializeFlags_eq, serializeFlags_eq]
    simp
  · intro i hi
    have hlt : i / 8 < (ServerCurverData.serializeFlags [] p.changingSegment).length := by
      rw [serializeFlags_eq, List.nil_append, length_packFrom _ 0 8 (by omega)]
      omega
    refine ⟨(ServerCurverData.serializeFlags [] p.changingSegment)[i / 8], ?_, ?_⟩
    · exact List.getElem?_eq_getElem hlt
    · have h := bitsOf_getElem _ (i / 8) (i % 8) _ (List.getElem?_eq_getElem hlt)
        (Nat.mod_lt _ (by omega))
      rw [Nat.div_add_mod, hbits, List.getElem?_append_left hi,
        List.getElem?_eq_getElem hi] at h
      exact (Option.some.inj h).symm
  · intro j k b hb hk hn
    have h := bitsOf_getElem _ j (7 - k) b hb (by omega)
    rw [hbits, List.getElem?_append_right hn] at h
    have h7 : 7 - (7 - k) = k := by omega
    rw [h7, List.getElem?_replicate] at h
    split_ifs at h
    exact (Option.some.inj h).symm
  · intro b hb
    rw [serializeFlags_eq, List.nil_append] at hb
    exact mem_packFrom_lt _ _ _ b hb

/-- Witness for C6: the second flag of nine flags is bit 6 of the first flag byte. -/
theorem serialize_flag_bits_witness :
    ∃ b, (ServerCurverData.serializeFlags []
        [false, true, false, false, false, false, false, false, true])[1 / 8]? = some b ∧
      Util.getBit b (7 - 1 % 8) = true :=
  (serialize_flag_bits
    { pos := [], changingSegment := [false, true, false, false, false, false, false, false, true] }
    []).2.1 1 (by decide)

/-- Number of flag bytes: `ServerCurverData::serialize` writes one flag byte when there are no
flags and `ceil(count / 8)` flag bytes for `count > 0` flags. -/
theorem serialize_flag_length (flags : List Bool) :
    (ServerCurverData.serializeFlags [] flags).length
      = if flags.length = 0 then 1 else (flags.length + 7) / 8 := by
  rw [serializeFlags_eq, List.nil_append, length_packFrom _ 0 8 (by omega)]
  split_ifs with h
  · rw [h]
  · omega

/-- C7, evaluated at `count = 0`. Flag field length: a `ServerCurverData` packet without
positions and flags is serialized to the four bytes of the empty position sequence followed by
one flag byte, where `ceil(0 / 8) = 0` flag bytes are specified; `parse` reads no flag byte
there and leaves that byte unread. -/
theorem serialize_no_flags_writes_a_byte :
    ServerCurverData.serialize { pos := [], changingSegment := [] } [] = [0, 0, 0, 0, 0] ∧
    (ServerCurverData.serializeFlags [] []).length = 1 ∧
    (0 + 7) / 8 = 0 ∧
    (ServerCurverData.parse { pos := [], changingSegment := [] }
      (QDataStream.ofDevice [0, 0, 0, 0, 0])).2.buffer = [0] := by
  decide

/-! ## Reading back what was written -/

@[simp] theorem withBuffer_status (s : QDataStream) (b : List Nat) :
    (s.withBuffer b).status = s.status := rfl

@[simp] theorem withBuffer_buffer (s : QDataStream) (b : List Nat) :
    (s.withBuffer b).buffer = b := rfl

@[simp] theorem withBuffer_withBuffer (s : QDataStream) (b c : List Nat) :
    (s.withBuffer b).withBuffer c = s.withBuffer c := rfl

theorem readBlock_append (s : QDataStream) (bs rest : List Nat) (hs : s.status = Status.Ok) :
    (s.withBuffer (bs ++ rest)).readBlock bs.length = (bs, s.withBuffer rest) := by
  rw [readBlock_ok _ _ (by simpa using hs) (by simp)]
  simp

theorem length_beBytes (n v : Nat) : (beBytes n v).length = n := by
  induction n with
  | zero => simp [beBytes]
  | succ n ih => simp [beBytes, ih]

theorem readUInt_beBytes (s : QDataStream) (n v w : Nat) (rest : List Nat)
    (hs : s.status = Status.Ok) (hv : QDataStream.beValue (beBytes n v) = w) :
    (s.withBuffer (beBytes n v ++ rest)).readUInt n = (w, s.withBuffer rest) := by
  have h := readBlock_append s (beBytes n v) rest hs
  rw [length_beBytes] at h
  simp [QDataStream.readUInt, h, length_beBytes, hv]

theorem readU8_write (s : QDataStream) (v : Nat) (rest : List Nat)
    (hs : s.status = Status.Ok) (hv : v < 256) :
    (s.withBuffer (beBytes 1 v ++ rest)).readU8 = (v, s.withBuffer rest) := by
  apply readUInt_beBytes _ _ _ _ _ hs
  simp [beBytes, QDataStream.beValue]
  omega

theorem readU16_write (s : QDataStream) (v : Nat) (rest : List Nat)
    (hs : s.status = Status.Ok) (hv : v < 65536) :
    (s.withBuffer (beBytes 2 v ++ rest)).readU16 = (v, s.withBuffer rest) := by
  apply readUInt_beBytes _ _ _ _ _ hs
  simp [beBytes, QDataStream.beValue]
  omega

theorem readU32_write (s : QDataStream) (v : Nat) (rest : List Nat)
    (hs : s.status = Status.Ok) (hv : v < 4294967296) :
    (s.withBuffer (beBytes 4 v ++ rest)).readU32 = (v, s.withBuffer rest) := by
  apply readUInt_beBytes _ _ _ _ _ hs
  simp [beBytes, QDataStream.beValue]
  omega

theorem readDouble_write (s : QDataStream) (v : Nat) (rest : List Nat)
    (hs : s.status = Status.Ok) (hv : v < 18446744073709551616) :
    (s.withBuffer (beBytes 8 v ++ rest)).readDouble = (v, s.withBuffer rest) := by
  apply readUInt_beBytes _ _ _ _ _ hs
  simp [beBytes, QDataStream.beValue]
  omega

theorem readI32_write (s : QDataStream) (v : Int) (rest : List Nat)
    (hs : s.status = Status.Ok) (hv : Int32Valid v) :
    (s.withBuffer (beBytes 4 (v % 4294967296).toNat ++ rest)).readI32 = (v, s.withBuffer rest) := by
  obtain ⟨h1, h2⟩ := hv
  simp only [QDataStream.readI32]
  rw [readU32_write s _ rest hs (by omega)]
  simp only [Prod.mk.injEq, and_true]
  split_ifs <;> omega

theorem readBool_write (s : QDataStream) (b : Bool) (rest : List Nat)
    (hs : s.status = Status.Ok) :
    (s.withBuffer (beBytes 1 b.toNat ++ rest)).readBool = (b, s.withBuffer rest) := by
  simp only [QDataStream.readBool]
  rw [readU8_write s _ rest hs (by cases b <;> simp)]
  cases b <;> simp
theorem length_utf16Bytes (cs : List Nat) : (utf16Bytes cs).length = 2 * cs.length := by
  induction cs with
  | nil => simp [utf16Bytes]
  | cons c cs ih => simp [utf16Bytes, ih]; omega

theorem utf16Units_utf16Bytes (cs : List Nat) (h : ∀ c ∈ cs, c < 65536) :
    utf16Units (utf16Bytes cs) = cs := by
  induction cs with
  | nil => simp [utf16Bytes, utf16Units]
  | cons c cs ih =>
    have hc := h c (by simp)
    simp only [utf16Bytes, utf16Units, ih (fun d hd => h d (by simp [hd]))]
    congr 1
    omega

theorem readQString_write (s : QDataStream) (str : QString) (rest : List Nat)
    (hs : s.status = Status.Ok) (hv : QStringValid str) :
    (s.withBuffer (writeQString [] str ++ rest)).readQString = (str, s.withBuffer rest) := by
  cases str with
  | none =>
    simp only [writeQString, writeU32, List.nil_append, QDataStream.readQString]
    rw [readU32_write s _ rest hs (by omega)]
    simp
  | some cs =>
    obtain ⟨h1, h2⟩ := hv
    simp only [writeQString, writeU32, List.nil_append, QDataStream.readQString,
      List.append_assoc]
    rw [readU32_write s _ _ hs (by omega)]
    have hb := readBlock_append s (utf16Bytes cs) rest hs
    rw [length_utf16Bytes] at hb
    by_cases h0 : cs = []
    · subst h0
      simp [utf16Bytes]
    · have hpos : 0 < cs.length := List.length_pos.mpr h0
      simp only [hb, length_utf16Bytes, utf16Units_utf16Bytes cs h1]
      have hne : 2 * cs.length ≠ 4294967295 := by omega
      have hgt : 2 * cs.length > 0 := by omega
      have hev : ¬ (2 * cs.length % 2 = 1) := by omega
      simp [hne, hgt, hev]

theorem readQColor_write (s : QDataStream) (c : QColor) (rest : List Nat)
    (hs : s.status = Status.Ok) (hv : QColorValid c) :
    (s.withBuffer (writeQColor [] c ++ rest)).readQColor = (c, s.withBuffer rest) := by
  obtain ⟨h0, h1, h2, h3, h4, h5⟩ := hv
  simp only [writeQColor, writeU8, writeU16, List.nil_append, List.append_assoc,
    QDataStream.readQColor]
  rw [readU8_write s _ _ hs h0]
  simp only []
  rw [readU16_write s _ _ hs h1]
  simp only []
  rw [readU16_write s _ _ hs h2]
  simp only []
  rw [readU16_write s _ _ hs h3]
  simp only []
  rw [readU16_write s _ _ hs h4]
  simp only []
  rw [readU16_write s _ _ hs h5]

theorem readQPointF_write (s : QDataStream) (p : QPointF) (rest : List Nat)
    (hs : s.status = Status.Ok) (hv : QPointFValid p) :
    (s.withBuffer (writeQPointF [] p ++ rest)).readQPointF = (p, s.withBuffer rest) := by
  obtain ⟨h0, h1⟩ := hv
  simp only [writeQPointF, writeDouble, List.nil_append, List.append_assoc,
    QDataStream.readQPointF]
  rw [readDouble_write s _ _ hs h0]
  simp only []
  rw [readDouble_write s _ _ hs h1]

/-! ## Round trip of the packet payloads -/

theorem ServerChatMsg_roundtrip (x q : ServerChatMsg) (s : QDataStream) (rest : List Nat)
    (hs : s.status = Status.Ok) (hv : ServerChatMsgValid x) :
    q.parse (s.withBuffer (x.serialize [] ++ rest)) = (x, s.withBuffer rest) := by
  obtain ⟨h0, h1⟩ := hv
  simp only [ServerChatMsg.serialize, ServerChatMsg.parse]
  rw [writeQString_append (writeQString [] x.username), List.append_assoc,
    readQString_write s _ _ hs h0]
  simp only []
  rw [readQString_write s _ _ hs h1]

theorem ClientChatMsg_roundtrip (x q : ClientChatMsg) (s : QDataStream) (rest : List Nat)
    (hs : s.status = Status.Ok) (hv : ClientChatMsgValid x) :
    q.parse (s.withBuffer (x.serialize [] ++ rest)) = (x, s.withBuffer rest) := by
  simp only [ClientChatMsg.serialize, ClientChatMsg.parse]
  rw [readQString_write s _ _ hs hv]

theorem ClientPlayerModel_roundtrip (x q : ClientPlayerModel) (s : QDataStream)
    (rest : List Nat) (hs : s.status = Status.Ok) (hv : ClientPlayerModelValid x) :
    q.parse (s.withBuffer (x.serialize [] ++ rest)) = (x, s.withBuffer rest) := by
  obtain ⟨h0, h1⟩ := hv
  simp only [ClientPlayerModel.serialize, ClientPlayerModel.parse]
  rw [writeQColor_append (writeQString [] x.username), List.append_assoc,
    readQString_write s _ _ hs h0]
  simp only []
  rw [readQColor_write s _ _ hs h1]

theorem ClientCurverRotation_roundtrip (x q : ClientCurverRotation) (s : QDataStream)
    (rest : List Nat) (hs : s.status = Status.Ok) (hv : ClientCurverRotationValid x) :
    q.parse (s.withBuffer (x.serialize [] ++ rest)) = (x, s.withBuffer rest) := by
  have hv' : x.rotation < 256 := hv
  simp only [ClientCurverRotation.serialize, ClientCurverRotation.parse, writeU8,
    List.nil_append, Nat.mod_eq_of_lt hv']
  rw [readU8_write s _ _ hs hv']

theorem ServerItemData_roundtrip (x q : ServerItemData) (s : QDataStream) (rest : List Nat)
    (hs : s.status = Status.Ok) (hv : ServerItemDataValid x) :
    q.parse (s.withBuffer (x.serialize [] ++ rest)) = (x, s.withBuffer rest) := by
  obtain ⟨h0, h1, h2, h3, h4⟩ := hv
  simp only [ServerItemData.serialize, ServerItemData.parse, writeI32, writeU32, writeU8,
    writeBool, Nat.mod_eq_of_lt h3]
  rw [writeQPointF_append]
  simp only [List.nil_append, List.append_assoc]
  rw [readBool_write s _ _ hs]
  simp only []
  rw [readU32_write s _ _ hs h0]
  simp only []
  rw [readI32_write s _ _ hs h1]
  simp only []
  rw [readQPointF_write s _ _ hs h2]
  simp only []
  rw [readU8_write s _ _ hs h3]
  simp only []
  rw [readI32_write s _ _ hs h4]

/-- C2. Body round trip: for each of `ServerChatMsg`, `ClientChatMsg`, `ClientPlayerModel`,
`ClientCurverRotation` and `ServerItemData`, with valid field values (null and empty strings
included), `parse` on a stream in good state whose unread bytes are the bytes written by
`serialize` followed by any bytes `rest` yields the original fields and leaves exactly `rest`
unread, the stream still in good state. -/
theorem body_roundtrip (s : QDataStream) (rest : List Nat) (hs : s.status = Status.Ok) :
    (∀ x q : ServerChatMsg, ServerChatMsgValid x →
      q.parse (s.withBuffer (x.serialize [] ++ rest)) = (x, s.withBuffer rest)) ∧
    (∀ x q : ClientChatMsg, ClientChatMsgValid x →
      q.parse (s.withBuffer (x.serialize [] ++ rest)) = (x, s.withBuffer rest)) ∧
    (∀ x q : ClientPlayerModel, ClientPlayerModelValid x →
      q.parse (s.withBuffer (x.serialize [] ++ rest)) = (x, s.withBuffer rest)) ∧
    (∀ x q : ClientCurverRotation, ClientCurverRotationValid x →
      q.parse (s.withBuffer (x.serialize [] ++ rest)) = (x, s.withBuffer rest)) ∧
    (∀ x q : ServerItemData, ServerItemDataValid x →
      q.parse (s.withBuffer (x.serialize [] ++ rest)) = (x, s.withBuffer rest)) :=
  ⟨fun x q hv => ServerChatMsg_roundtrip x q s rest hs hv,
   fun x q hv => ClientChatMsg_roundtrip x q s rest hs hv,
   fun x q hv => ClientPlayerModel_roundtrip x q s rest hs hv,
   fun x q hv => ClientCurverRotation_roundtrip x q s rest hs hv,
   fun x q hv => ServerItemData_roundtrip x q s rest hs hv⟩

/-- Witness for C2: one packet of each of the five classes, read back in front of a byte 7. -/
theorem body_roundtrip_witness :
    ServerChatMsg.parse { username := none, message := none }
        ((QDataStream.ofDevice []).withBuffer
          (ServerChatMsg.serialize { username := some [72, 105], message := some [] } [] ++ [7]))
      = ({ username := some [72, 105], message := some [] },
          (QDataStream.ofDevice []).withBuffer [7]) ∧
    ClientChatMsg.parse { message := some [1] }
        ((QDataStream.ofDevice []).withBuffer (ClientChatMsg.serialize { message := none } [] ++ [7]))
      = ({ message := none }, (QDataStream.ofDevice []).withBuffer [7]) ∧
    ClientPlayerModel.parse { username := none, color := ⟨0, 0, 0, 0, 0, 0⟩ }
        ((QDataStream.ofDevice []).withBuffer
          (ClientPlayerModel.serialize
            { username := some [65], color := ⟨1, 65535, 257, 2, 3, 0⟩ } [] ++ [7]))
      = ({ username := some [65], color := ⟨1, 65535, 257, 2, 3, 0⟩ },
          (QDataStream.ofDevice []).withBuffer [7]) ∧
    ClientCurverRotation.parse { rotation := 0 }
        ((QDataStream.ofDevice []).withBuffer
          (ClientCurverRotation.serialize { rotation := 2 } [] ++ [7]))
      = ({ rotation := 2 }, (QDataStream.ofDevice []).withBuffer [7]) ∧
    ServerItemData.parse
        { spawned := false, sequenceNumber := 0, which := 0, pos := ⟨0, 0⟩, allowedUsers := 0,
          collectorIndex := 0 }
        ((QDataStream.ofDevice []).withBuffer
          (ServerItemData.serialize
            { spawned := true, sequenceNumber := 70000, which := -3, pos := ⟨5, 6⟩,
              allowedUsers := 2, collectorIndex := -1 } [] ++ [7]))
      = ({ spawned := true, sequenceNumber := 70000, which := -3, pos := ⟨5, 6⟩,
           allowedUsers := 2, collectorIndex := -1 },
          (QDataStream.ofDevice []).withBuffer [7]) :=
  ⟨(body_roundtrip (QDataStream.ofDevice []) [7] rfl).1 _ _
      (by simp [ServerChatMsgValid, QStringValid]),
   (body_roundtrip (QDataStream.ofDevice []) [7] rfl).2.1 _ _
      (by simp [ClientChatMsgValid, QStringValid]),
   (body_roundtrip (QDataStream.ofDevice []) [7] rfl).2.2.1 _ _
      (by simp [ClientPlayerModelValid, QStringValid, QColorValid]),
   (body_roundtrip (QDataStream.ofDevice []) [7] rfl).2.2.2.1 _ _
      (by simp [ClientCurverRotationValid]),
   (body_roundtrip (QDataStream.ofDevice []) [7] rfl).2.2.2.2 _ _
      (by simp [ServerItemDataValid, Int32Valid, QPointFValid])⟩

/-! ## What the loop of `parse` decodes -/

theorem bitsOf_append (a b : List Nat) : bitsOf (a ++ b) = bitsOf a ++ bitsOf b := by
  induction a with
  | nil => simp [bitsOf]
  | cons x a ih => simp [bitsOf, ih]

theorem length_bitsOf (a : List Nat) : (bitsOf a).length = 8 * a.length := by
  induction a with
  | nil => simp [bitsOf]
  | cons x a ih => simp [bitsOf, byteBits, ih]; omega

theorem parseStep_fold (segs : List Bool) (s : QDataStream) (hs : s.status = Status.Ok) :
    ∀ (buf : List Nat) (cb lp : Nat) (acc : List Bool), lp ≤ 8 →
      segs.length ≤ lp + 8 * buf.length →
      (segs.foldl ServerCurverData.parseStep
          { ins := s.withBuffer buf, compressedByte := cb, lastPos := lp, assigned := acc }).assigned
        = acc ++ ((byteBits cb).drop (8 - lp) ++ bitsOf buf).take segs.length ∧
      (segs.foldl ServerCurverData.parseStep
          { ins := s.withBuffer buf, compressedByte := cb, lastPos := lp, assigned := acc }).ins
        = s.withBuffer (buf.drop ((segs.length + 7 - lp) / 8)) := by
  induction segs with
  | nil =>
    intro buf cb lp acc hlp _
    have h0 : (0 + 7 - lp) / 8 = 0 := by omega
    simp [h0]
  | cons seg segs ih =>
    intro buf cb lp acc hlp hlen
    simp only [List.length_cons] at hlen
    simp only [List.foldl_cons, List.length_cons]
    by_cases h : lp = 0
    · subst h
      cases buf with
      | nil => simp at hlen
      | cons b buf =>
        have hrd := readU8_cons (s.withBuffer (b :: buf)) b buf (by simpa using hs) rfl
        simp only [ServerCurverData.parseStep, if_true, hrd, withBuffer_withBuffer]
        obtain ⟨h1, h2⟩ := ih buf b 7 (acc ++ [Util.getBit b 7]) (by omega)
          (by simp only [List.length_cons] at hlen; omega)
        refine ⟨?_, ?_⟩
        · rw [h1]
          simp [byteBits, bitsOf]
        · rw [h2]
          have hd : (segs.length + 1 + 7 - 0) / 8 = (segs.length + 7 - 7) / 8 + 1 := by omega
          rw [hd, List.drop_succ_cons]
    · simp only [ServerCurverData.parseStep, if_neg h]
      obtain ⟨h1, h2⟩ := ih buf cb (lp - 1) (acc ++ [Util.getBit cb (lp - 1)]) (by omega)
        (by omega)
      refine ⟨?_, ?_⟩
      · rw [h1]
        have hd : (byteBits cb).drop (8 - lp)
            = Util.getBit cb (lp - 1) :: (byteBits cb).drop (8 - (lp - 1)) := by
          interval_cases lp <;> simp [byteBits] at h ⊢
        rw [hd]
        simp
      · rw [h2]
        have hd : (segs.length + 1 + 7 - lp) = (segs.length + 7 - (lp - 1)) := by omega
        rw [hd]
theorem serializeCnt_eq {α : Type} (w : List Nat → α → List Nat)
    (hw : ∀ acc x, w acc x = acc ++ w [] x) (l : List α) :
    Util.serializeCnt w [] l = beBytes 4 l.length ++ l.flatMap (w []) := by
  simp only [Util.serializeCnt, writeU32, List.nil_append]
  generalize beBytes 4 l.length = acc
  induction l generalizing acc with
  | nil => simp
  | cons x l ih =>
    simp only [List.foldl_cons, List.flatMap_cons]
    rw [ih, hw acc x, List.append_assoc]

theorem readElems_points (pos : List QPointF) (s : QDataStream) (rest : List Nat)
    (hs : s.status = Status.Ok) (hv : ∀ p ∈ pos, QPointFValid p) :
    Util.readElems QDataStream.readQPointF pos.length
        (s.withBuffer (pos.flatMap (writeQPointF []) ++ rest))
      = (pos, s.withBuffer rest) := by
  induction pos with
  | nil => simp [Util.readElems]
  | cons p pos ih =>
    simp only [List.length_cons, Util.readElems, List.flatMap_cons, List.append_assoc]
    rw [readQPointF_write s p _ hs (hv p (by simp))]
    simp only []
    rw [ih (fun q hq => hv q (by simp [hq]))]

theorem parseCnt_points (pos : List QPointF) (s : QDataStream) (rest : List Nat)
    (hs : s.status = Status.Ok) (hv : ∀ p ∈ pos, QPointFValid p)
    (hl : pos.length < 4294967296) :
    Util.parseCnt QDataStream.readQPointF
        (s.withBuffer (Util.serializeCnt writeQPointF [] pos ++ rest))
      = (pos, s.withBuffer rest) := by
  rw [serializeCnt_eq _ writeQPointF_append, List.append_assoc]
  simp only [Util.parseCnt]
  rw [readU32_write s _ _ hs hl]
  exact readElems_points pos s rest hs hv

theorem length_resize {α : Type} (l : List α) (n : Nat) (d : α) :
    (Util.resize l n d).length = n := by
  simp [Util.resize, List.length_take]
  omega

/-- What the loop of `ServerCurverData::parse` decodes.  For a packet with as many flags as
positions (valid coordinates), parsed from the bytes `serialize` wrote followed by any bytes
`rest`: the position sequence comes back, the values the loop assigns to its loop variable are
exactly the original flags, in order, and the bytes left unread are `rest`, preceded by the
one flag byte `serialize` writes when there are no flags at all. -/
theorem parse_assigns_original_flags (x q : ServerCurverData) (s : QDataStream)
    (rest : List Nat) (hs : s.status = Status.Ok) (hv : ∀ p ∈ x.pos, QPointFValid p)
    (hl : x.pos.length < 4294967296) (hn : x.pos.length = x.changingSegment.length) :
    (q.parse (s.withBuffer (x.serialize [] ++ rest))).1.pos = x.pos ∧
    (ServerCurverData.parseFlags
        (Util.parseCnt QDataStream.readQPointF (s.withBuffer (x.serialize [] ++ rest))).2
        (Util.resize q.changingSegment x.pos.length false)).assigned = x.changingSegment ∧
    (q.parse (s.withBuffer (x.serialize [] ++ rest))).2
      = s.withBuffer ((if x.changingSegment.length = 0 then [0] else []) ++ rest) := by
  have hser : x.serialize [] ++ rest
      = Util.serializeCnt writeQPointF [] x.pos ++ (packFrom 0 8 x.changingSegment ++ rest) := by
    simp only [ServerCurverData.serialize, serializeFlags_eq, List.append_assoc]
  have hcnt := parseCnt_points x.pos s (packFrom 0 8 x.changingSegment ++ rest) hs hv hl
  obtain ⟨pad, hbits⟩ := bitsOf_packFrom x.changingSegment 0 8 (by omega)
    (fun p _ => getBit_zero p)
  have hplen := length_packFrom x.changingSegment 0 8 (by omega)
  obtain ⟨h1, h2⟩ := parseStep_fold (Util.resize q.changingSegment x.pos.length false) s hs
    (packFrom 0 8 x.changingSegment ++ rest) 0 0 [] (by omega) (by
      rw [length_resize, List.length_append, hplen, hn]
      omega)
  rw [length_resize] at h1 h2
  have hassigned : (ServerCurverData.parseFlags (s.withBuffer
      (packFrom 0 8 x.changingSegment ++ rest))
      (Util.resize q.changingSegment x.pos.length false)).assigned = x.changingSegment := by
    simp only [ServerCurverData.parseFlags]
    rw [h1, bitsOf_append, hbits, hn]
    simp [byteBits]
  have hins : (ServerCurverData.parseFlags (s.withBuffer
      (packFrom 0 8 x.changingSegment ++ rest))
      (Util.resize q.changingSegment x.pos.length false)).ins
      = s.withBuffer ((if x.changingSegment.length = 0 then [0] else []) ++ rest) := by
    simp only [ServerCurverData.parseFlags]
    rw [h2, hn]
    by_cases h0 : x.changingSegment.length = 0
    · have hnil : x.changingSegment = [] := List.length_eq_zero.mp h0
      rw [hnil]
      simp [packFrom]
    · have hd : (x.changingSegment.length + 7 - 0) / 8
          = (packFrom 0 8 x.changingSegment).length := by
        rw [hplen]; omega
      rw [hd, List.drop_left, if_neg h0, List.nil_append]
  refine ⟨?_, ?_, ?_⟩
  · simp only [ServerCurverData.parse, hser, hcnt]
  · rw [hser, hcnt]
    exact hassigned
  · simp only [ServerCurverData.parse, hser, hcnt]
    exact hins

theorem parseFlags_assigned_length (segs : List Bool) :
    ∀ st : UnpackState,
      (segs.foldl ServerCurverData.parseStep st).assigned.length
        = st.assigned.length + segs.length := by
  induction segs with
  | nil => intro st; rfl
  | cons seg segs ih =>
    intro st
    rw [List.foldl_cons, ih]
    simp only [ServerCurverData.parseStep, List.length_cons]
    split_ifs <;> simp only [List.length_append, List.length_singleton] <;> omega

/-- C3. Snapshot flag round trip: for every `ServerCurverData` packet `x` with as many flags
as positions (valid coordinates, a count that fits the 32-bit length field), `parse`, run by
any packet object `q` on the bytes `serialize` wrote for `x` followed by any bytes `rest`,
yields the position sequence and the flag sequence of `x`, element by element; the bytes left
unread are `rest`, preceded by the one flag byte `serialize` writes when there are no flags at
all. -/
theorem snapshot_flag_roundtrip (x q : ServerCurverData) (s : QDataStream) (rest : List Nat)
    (hs : s.status = Status.Ok) (hv : ∀ p ∈ x.pos, QPointFValid p)
    (hl : x.pos.length < 4294967296) (hn : x.pos.length = x.changingSegment.length) :
    (q.parse (s.withBuffer (x.serialize [] ++ rest))).1.pos = x.pos ∧
    (q.parse (s.withBuffer (x.serialize [] ++ rest))).1.changingSegment = x.changingSegment ∧
    (q.parse (s.withBuffer (x.serialize [] ++ rest))).1 = x ∧
    (q.parse (s.withBuffer (x.serialize [] ++ rest))).2
      = s.withBuffer ((if x.changingSegment.length = 0 then [0] else []) ++ rest) := by
  obtain ⟨h1, h2, h3⟩ := parse_assigns_original_flags x q s rest hs hv hl hn
  have hpos : (Util.parseCnt QDataStream.readQPointF
      (s.withBuffer (x.serialize [] ++ rest))).1 = x.pos := h1
  have hseg : (q.parse (s.withBuffer (x.serialize [] ++ rest))).1.changingSegment
      = x.changingSegment := by
    simp only [ServerCurverData.parse, hpos]
    exact h2
  refine ⟨h1, hseg, ?_, h3⟩
  rcases x with ⟨xp, xc⟩
  generalize q.parse (s.withBuffer (ServerCurverData.serialize ⟨xp, xc⟩ [] ++ rest)) = r
    at h1 hseg
  rcases r with ⟨⟨rp, rc⟩, rs⟩
  simp only at h1 hseg
  rw [h1, hseg]

/-- Witness for C3: nine positions with nine flags, parsed by a freshly constructed packet
from the bytes `serialize` wrote. -/
theorem snapshot_flag_roundtrip_witness :
    (ServerCurverData.parse { pos := [], changingSegment := [] }
      ((QDataStream.ofDevice []).withBuffer
        (ServerCurverData.serialize
          { pos := List.replicate 9 ⟨1, 2⟩,
            changingSegment := [true, false, true, true, false, false, false, true, true] } []
          ++ []))).1
      = { pos := List.replicate 9 ⟨1, 2⟩,
          changingSegment := [true, false, true, true, false, false, false, true, true] } :=
  (snapshot_flag_roundtrip
    { pos := List.replicate 9 ⟨1, 2⟩,
      changingSegment := [true, false, true, true, false, false, false, true, true] }
    { pos := [], changingSegment := [] } (QDataStream.ofDevice []) [] rfl
    (by intro p hp; rw [List.eq_of_mem_replicate hp]; simp [QPointFValid]) (by decide)
    (by decide)).2.2.1

/-! ## Readers on a truncated stream -/

theorem stable_pure {α : Type} (a : α) : Stable (fun s => (a, s)) := by
  intro s _
  exact ⟨rfl, rfl, fun h => h, fun _ _ => rfl, Nat.le_refl _⟩

theorem stable_setStatus {α : Type} (a : α) (st : Status) :
    Stable (fun s => (a, s.setStatus st)) := by
  intro s _
  refine ⟨?_, ?_, ?_, ?_, ?_⟩
  · simp only [QDataStream.setStatus]; split_ifs <;> rfl
  · simp only [QDataStream.setStatus]; split_ifs <;> rfl
  · intro h
    simp [QDataStream.setStatus, h]
  · intro post _
    simp only [QDataStream.setStatus, QDataStream.extend]
    split_ifs <;> rfl
  · simp only [QDataStream.setStatus]; split_ifs <;> exact Nat.le_refl _

theorem stable_bind {α β : Type} (R1 : QDataStream → α × QDataStream)
    (R2 : α → QDataStream → β × QDataStream) (h1 : Stable R1) (h2 : ∀ a, Stable (R2 a)) :
    Stable (fun s => R2 (R1 s).1 (R1 s).2) := by
  intro s hs
  obtain ⟨a1, a2, a3, a4, a5⟩ := h1 s hs
  have hs1 : (R1 s).2.saved.isSome = true := by rw [a1]; exact hs
  obtain ⟨b1, b2, b3, b4, b5⟩ := h2 (R1 s).1 (R1 s).2 hs1
  refine ⟨?_, ?_, ?_, ?_, ?_⟩
  · simp only [b1, a1]
  · simp only [b2, a2]
  · intro h
    exact b3 (a3 h)
  · intro post hne
    have hne1 : (R1 s).2.status ≠ Status.ReadPastEnd := fun h => hne (b3 h)
    simp only [a4 post hne1]
    exact b4 post hne
  · exact Nat.le_trans b5 a5

theorem stable_map {α β : Type} (R : QDataStream → α × QDataStream) (f : α → β)
    (h : Stable R) : Stable (fun s => (f (R s).1, (R s).2)) :=
  stable_bind R (fun a s => (f a, s)) h (fun a => stable_pure (f a))

theorem stable_readBlock (len : Nat) : Stable (fun s => s.readBlock len) := by
  intro s hs
  beta_reduce
  by_cases hok : s.status = Status.Ok
  · by_cases hl : len ≤ s.buffer.length
    · have h1 := readBlock_ok s len hok hl
      refine ⟨by simp [h1, QDataStream.withBuffer], by simp [h1, QDataStream.withBuffer],
        fun h => by simp [hok] at h, ?_, by simp [h1]⟩
      intro post _
      have h2 := readBlock_ok (s.extend post) len hok (by simp [QDataStream.extend]; omega)
      simp only [h1, h2]
      simp [QDataStream.extend, QDataStream.withBuffer, List.take_append_of_le_length hl,
        List.drop_append_of_le_length hl]
    · have h1 : (s.readBlock len).2.status = Status.ReadPastEnd := by
        simp [QDataStream.readBlock, hok, hl, QDataStream.setStatus]
      refine ⟨?_, ?_, fun h => by simp [hok] at h, ?_, ?_⟩
      · simp [QDataStream.readBlock, hok, hl, QDataStream.setStatus]
      · simp [QDataStream.readBlock, hok, hl, QDataStream.setStatus]
      · intro post hne
        exact absurd h1 hne
      · simp [QDataStream.readBlock, hok, hl, QDataStream.setStatus]
  · have h1 : s.readBlock len = ([], s) := by
      simp [QDataStream.readBlock, hok, hs]
    refine ⟨by rw [h1], by rw [h1], fun h => by rw [h1]; exact h, ?_, by rw [h1]⟩
    intro post _
    have h2 : (s.extend post).readBlock len = ([], s.extend post) := by
      have : (s.extend post).status = s.status := rfl
      have hsv : (s.extend post).saved = s.saved := rfl
      simp [QDataStream.readBlock, this, hsv, hok, hs]
    rw [h1, h2]

theorem stable_readUInt (len : Nat) : Stable (fun s => s.readUInt len) :=
  stable_map (fun s => s.readBlock len)
    (fun got => if got.length = len then QDataStream.beValue got else 0) (stable_readBlock len)

theorem stable_readU8 : Stable QDataStream.readU8 := stable_readUInt 1

theorem stable_readU16 : Stable QDataStream.readU16 := stable_readUInt 2

theorem stable_readU32 : Stable QDataStream.readU32 := stable_readUInt 4

theorem stable_readQString : Stable QDataStream.readQString := by
  have hblock : ∀ bytes : Nat, Stable (fun s : QDataStream =>
      if (s.readBlock bytes).1.length = bytes
      then ((some (utf16Units (s.readBlock bytes).1) : QString), (s.readBlock bytes).2)
      else (none, (s.readBlock bytes).2.setStatus Status.ReadPastEnd)) := by
    intro bytes
    exact stable_bind (fun s => s.readBlock bytes)
      (fun got s1 => if got.length = bytes then ((some (utf16Units got) : QString), s1)
        else (none, s1.setStatus Status.ReadPastEnd))
      (stable_readBlock bytes) (by
        intro got
        by_cases h4 : got.length = bytes
        · simp only [h4, if_true]; exact stable_pure _
        · simp only [h4, if_false]; exact stable_setStatus _ _)
  exact stable_bind QDataStream.readU32
    (fun bytes s =>
      if bytes = 4294967295 then ((none : QString), s)
      else if bytes > 0 then
        if bytes % 2 = 1 then (none, s.setStatus Status.ReadCorruptData)
        else
          if (s.readBlock bytes).1.length = bytes
          then ((some (utf16Units (s.readBlock bytes).1) : QString), (s.readBlock bytes).2)
          else (none, (s.readBlock bytes).2.setStatus Status.ReadPastEnd)
      else (some [], s))
    stable_readU32 (by
      intro bytes
      by_cases h1 : bytes = 4294967295
      · simp only [h1, if_true]; exact stable_pure _
      · by_cases h2 : bytes > 0
        · by_cases h3 : bytes % 2 = 1
          · simp only [h1, h2, h3, if_true, if_false]; exact stable_setStatus _ _
          · simp only [h1, h2, h3, if_true, if_false]
            exact hblock bytes
        · simp only [h1, h2, if_false]; exact stable_pure _)

theorem stable_readQColor : Stable QDataStream.readQColor := by
  have h5 : ∀ a0 a1 a2 a3 a4 : Nat, Stable (fun s : QDataStream =>
      (QColor.mk a0 a1 a2 a3 a4 s.readU16.1, s.readU16.2)) :=
    fun a0 a1 a2 a3 a4 => stable_map QDataStream.readU16
      (fun a5 => QColor.mk a0 a1 a2 a3 a4 a5) stable_readU16
  have h4 : ∀ a0 a1 a2 a3 : Nat, Stable (fun s : QDataStream =>
      (QColor.mk a0 a1 a2 a3 s.readU16.1 s.readU16.2.readU16.1, s.readU16.2.readU16.2)) :=
    fun a0 a1 a2 a3 => stable_bind QDataStream.readU16
      (fun a4 s => (QColor.mk a0 a1 a2 a3 a4 s.readU16.1, s.readU16.2))
      stable_readU16 (h5 a0 a1 a2 a3)
  have h3 : ∀ a0 a1 a2 : Nat, Stable (fun s : QDataStream =>
      (QColor.mk a0 a1 a2 s.readU16.1 s.readU16.2.readU16.1 s.readU16.2.readU16.2.readU16.1,
        s.readU16.2.readU16.2.readU16.2)) :=
    fun a0 a1 a2 => stable_bind QDataStream.readU16
      (fun a3 s => (QColor.mk a0 a1 a2 a3 s.readU16.1 s.readU16.2.readU16.1,
        s.readU16.2.readU16.2))
      stable_readU16 (h4 a0 a1 a2)
  have h2 : ∀ a0 a1 : Nat, Stable (fun s : QDataStream =>
      (QColor.mk a0 a1 s.readU16.1 s.readU16.2.readU16.1 s.readU16.2.readU16.2.readU16.1
          s.readU16.2.readU16.2.readU16.2.readU16.1,
        s.readU16.2.readU16.2.readU16.2.readU16.2)) :=
    fun a0 a1 => stable_bind QDataStream.readU16
      (fun a2 s => (QColor.mk a0 a1 a2 s.readU16.1 s.readU16.2.readU16.1
          s.readU16.2.readU16.2.readU16.1,
        s.readU16.2.readU16.2.readU16.2))
      stable_readU16 (h3 a0 a1)
  have h1 : ∀ a0 : Nat, Stable (fun s : QDataStream =>
      (QColor.mk a0 s.readU16.1 s.readU16.2.readU16.1 s.readU16.2.readU16.2.readU16.1
          s.readU16.2.readU16.2.readU16.2.readU16.1
          s.readU16.2.readU16.2.readU16.2.readU16.2.readU16.1,
        s.readU16.2.readU16.2.readU16.2.readU16.2.readU16.2)) :=
    fun a0 => stable_bind QDataStream.readU16
      (fun a1 s => (QColor.mk a0 a1 s.readU16.1 s.readU16.2.readU16.1
          s.readU16.2.readU16.2.readU16.1 s.readU16.2.readU16.2.readU16.2.readU16.1,
        s.readU16.2.readU16.2.readU16.2.readU16.2))
      stable_readU16 (h2 a0)
  exact stable_bind QDataStream.readU8
    (fun a0 s => (QColor.mk a0 s.readU16.1 s.readU16.2.readU16.1
          s.readU16.2.readU16.2.readU16.1 s.readU16.2.readU16.2.readU16.2.readU16.1
          s.readU16.2.readU16.2.readU16.2.readU16.2.readU16.1,
        s.readU16.2.readU16.2.readU16.2.readU16.2.readU16.2))
    stable_readU8 h1

/-! ## Framing: receiving client packets -/

theorem stable_parse_client (r : AbstractPacket)
    (hr : (∃ b, r.body = Body.clientChatMsg b) ∨ (∃ b, r.body = Body.clientPlayerModel b) ∨
      (∃ b, r.body = Body.clientCurverRotation b)) :
    Stable (fun s => r.parse s) := by
  rcases r with ⟨t, st, rs, body⟩
  rcases hr with ⟨b, hb⟩ | ⟨b, hb⟩ | ⟨b, hb⟩ <;> simp only at hb <;> subst hb
  · have h := stable_map QDataStream.readQString
      (fun m => AbstractPacket.mk t st rs (Body.clientChatMsg (ClientChatMsg.mk m)))
      stable_readQString
    have he : (fun s => AbstractPacket.parse ⟨t, st, rs, Body.clientChatMsg b⟩ s)
        = (fun s => (AbstractPacket.mk t st rs (Body.clientChatMsg
            (ClientChatMsg.mk s.readQString.1)), s.readQString.2)) := by
      funext s
      simp only [AbstractPacket.parse, ClientChatMsg.parse]
    rw [he]
    exact h
  · have h := stable_bind QDataStream.readQString
      (fun u s => (AbstractPacket.mk t st rs
        (Body.clientPlayerModel (ClientPlayerModel.mk u s.readQColor.1)), s.readQColor.2))
      stable_readQString
      (fun u => stable_map QDataStream.readQColor
        (fun c => AbstractPacket.mk t st rs (Body.clientPlayerModel (ClientPlayerModel.mk u c)))
        stable_readQColor)
    have he : (fun s => AbstractPacket.parse ⟨t, st, rs, Body.clientPlayerModel b⟩ s)
        = (fun s => (AbstractPacket.mk t st rs (Body.clientPlayerModel
            (ClientPlayerModel.mk s.readQString.1 s.readQString.2.readQColor.1)),
              s.readQString.2.readQColor.2)) := by
      funext s
      simp only [AbstractPacket.parse, ClientPlayerModel.parse]
    rw [he]
    exact h
  · have h := stable_map QDataStream.readU8
      (fun v => AbstractPacket.mk t st rs (Body.clientCurverRotation (ClientCurverRotation.mk v)))
      stable_readU8
    have he : (fun s => AbstractPacket.parse ⟨t, st, rs, Body.clientCurverRotation b⟩ s)
        = (fun s => (AbstractPacket.mk t st rs (Body.clientCurverRotation
            (ClientCurverRotation.mk s.readU8.1)), s.readU8.2)) := by
      funext s
      simp only [AbstractPacket.parse, ClientCurverRotation.parse]
    rw [he]
    exact h

theorem clientPacket_type_lt (p : AbstractPacket) (hp : ClientPacketValid p) : p.type < 4 := by
  rcases p with ⟨t, st, rs, body⟩
  cases body <;>
    simp only [ClientPacketValid, ClientTypes.Chat_Message, ClientTypes.PlayerModelEdit,
      ClientTypes.CurverRotation] at hp ⊢ <;>
    omega

/-- What `receivePacket` constructs for a valid client packet `p` before it runs `parse`:
a packet whose parse, on a stream holding the payload of `p`, gives `p` back. -/
theorem clientPacket_construct (p : AbstractPacket) (hp : ClientPacketValid p) :
    ∃ r, AbstractPacket.construct InstanceType.Client p.type = some r ∧
      ((∃ b, r.body = Body.clientChatMsg b) ∨ (∃ b, r.body = Body.clientPlayerModel b) ∨
        (∃ b, r.body = Body.clientCurverRotation b)) ∧
      ∀ (s : QDataStream) (rest : List Nat), s.status = Status.Ok →
        AbstractPacket.parse { r with start := p.start, reset := p.reset }
          (s.withBuffer (p.serialize [] ++ rest)) = (p, s.withBuffer rest) := by
  rcases p with ⟨t, st, rs, body⟩
  cases body with
  | clientChatMsg b =>
    obtain ⟨h, hv⟩ := hp
    simp only at h
    subst h
    refine ⟨ClientChatMsg.new, rfl, Or.inl ⟨_, rfl⟩, ?_⟩
    intro s rest hs
    simp only [AbstractPacket.parse, AbstractPacket.serialize, ClientChatMsg.new]
    rw [ClientChatMsg_roundtrip b _ s rest hs hv]
  | clientPlayerModel b =>
    obtain ⟨h, hv⟩ := hp
    simp only at h
    subst h
    refine ⟨ClientPlayerModel.new, rfl, Or.inr (Or.inl ⟨_, rfl⟩), ?_⟩
    intro s rest hs
    simp only [AbstractPacket.parse, AbstractPacket.serialize, ClientPlayerModel.new]
    rw [ClientPlayerModel_roundtrip b _ s rest hs hv]
  | clientCurverRotation b =>
    obtain ⟨h, hv⟩ := hp
    simp only at h
    subst h
    refine ⟨ClientCurverRotation.new, rfl, Or.inr (Or.inr ⟨_, rfl⟩), ?_⟩
    intro s rest hs
    simp only [AbstractPacket.parse, AbstractPacket.serialize, ClientCurverRotation.new]
    rw [ClientCurverRotation_roundtrip b _ s rest hs hv]
  | serverChatMsg b => exact hp.elim
  | serverPlayerModel b => exact hp.elim
  | serverCurverData b => exact hp.elim
  | serverItemData b => exact hp.elim

theorem receivePacket_client_full (p : AbstractPacket) (hp : ClientPacketValid p)
    (s : QDataStream) (rest : List Nat) (hs : s.status = Status.Ok) :
    AbstractPacket.receivePacket (s.withBuffer (p.sendPacket ++ rest)) InstanceType.Client
      = (some p, s.withBuffer rest) := by
  obtain ⟨hty, hst, hrs⟩ := header_decode p (clientPacket_type_lt p hp)
  obtain ⟨r, hc, _, hparse⟩ := clientPacket_construct p hp
  have hrd := readU8_cons (s.withBuffer (p.sendPacket ++ rest)) p.header
    (p.serialize [] ++ rest) (by simpa using hs) (by simp [sendPacket_eq])
  simp only [AbstractPacket.receivePacket, hrd, hty, hst, hrs, hc, withBuffer_withBuffer]
  rw [hparse s rest hs]

theorem receivePacket_client_truncated (p : AbstractPacket) (hp : ClientPacketValid p)
    (pre post : List Nat) (hsplit : pre ++ post = p.sendPacket) (hpre : pre ≠ [])
    (hpost : post ≠ []) :
    (AbstractPacket.receivePacket (QDataStream.ofDevice pre).startTransaction
        InstanceType.Client).2.status = Status.ReadPastEnd ∧
    (AbstractPacket.receivePacket (QDataStream.ofDevice pre).startTransaction
        InstanceType.Client).2.saved = some pre ∧
    (AbstractPacket.receivePacket (QDataStream.ofDevice pre).startTransaction
        InstanceType.Client).2.transactionDepth = 1 := by
  obtain ⟨hty, hst, hrs⟩ := header_decode p (clientPacket_type_lt p hp)
  obtain ⟨r, hc, hbody, hparse⟩ := clientPacket_construct p hp
  cases pre with
  | nil => exact absurd rfl hpre
  | cons h pre' =>
    rw [sendPacket_eq] at hsplit
    simp only [List.cons_append, List.cons.injEq] at hsplit
    obtain ⟨hh, hrest⟩ := hsplit
    subst hh
    have hrd := readU8_cons (QDataStream.ofDevice (p.header :: pre')).startTransaction
      p.header pre' rfl rfl
    have hstable := stable_parse_client { r with start := p.start, reset := p.reset } hbody
      ((QDataStream.ofDevice (p.header :: pre')).startTransaction.withBuffer pre') rfl
    obtain ⟨h1, h2, _, h4, _⟩ := hstable
    simp only [AbstractPacket.receivePacket, hrd, hty, hst, hrs, hc]
    refine ⟨?_, by rw [h1]; rfl, by rw [h2]; rfl⟩
    by_contra hne
    have hext := h4 post hne
    have hfull := hparse (QDataStream.ofDevice (p.header :: pre')).startTransaction [] rfl
    rw [List.append_nil, ← hrest] at hfull
    have heq : ((QDataStream.ofDevice (p.header :: pre')).startTransaction.withBuffer pre').extend
        post = (QDataStream.ofDevice (p.header :: pre')).startTransaction.withBuffer
          (pre' ++ post) := rfl
    rw [heq] at hext
    have hbuf := congrArg (fun x => x.2.buffer) (hext.symm.trans hfull)
    simp only [QDataStream.extend, withBuffer_buffer, List.append_eq_nil] at hbuf
    exact hpost hbuf.2

theorem readLoop_stop {σ : Type} (handle : AbstractPacket → σ → Option σ) (fuel : Nat)
    (ins : QDataStream) (x : σ) : Server.readLoop handle fuel ins true x = some (ins, x) := by
  cases fuel <;> simp [Server.readLoop]

theorem commit_truncated (p : AbstractPacket) (hp : ClientPacketValid p)
    (pre post : List Nat) (hsplit : pre ++ post = p.sendPacket) (hpre : pre ≠ [])
    (hpost : post ≠ []) :
    (AbstractPacket.receivePacket (QDataStream.ofDevice pre).startTransaction
        InstanceType.Client).2.commitTransaction
      = (false, { buffer := pre, saved := none, status := Status.ReadPastEnd,
                  transactionDepth := 0 }) := by
  obtain ⟨h1, h2, h3⟩ := receivePacket_client_truncated p hp pre post hsplit hpre hpost
  generalize (AbstractPacket.receivePacket (QDataStream.ofDevice pre).startTransaction
    InstanceType.Client).2 = s at h1 h2 h3
  rcases s with ⟨b, sv, st, d⟩
  simp only at h1 h2 h3
  subst h1 h2 h3
  rfl

theorem readLoop_truncated {σ : Type} (handle : AbstractPacket → σ → Option σ) (x : σ)
    (p : AbstractPacket) (hp : ClientPacketValid p)
    (pre post : List Nat) (hsplit : pre ++ post = p.sendPacket) (hpre : pre ≠ [])
    (hpost : post ≠ []) (fuel : Nat) :
    Server.readLoop handle (fuel + 1) (QDataStream.ofDevice pre) false x
      = some ({ buffer := pre, saved := none, status := Status.ReadPastEnd,
                transactionDepth := 0 }, x) := by
  have hc := commit_truncated p hp pre post hsplit hpre hpost
  have hav : (QDataStream.ofDevice pre).bytesAvailable ≠ 0 := by
    simp [QDataStream.bytesAvailable, QDataStream.ofDevice, hpre]
  rw [Server.readLoop, if_pos ⟨hav, rfl⟩]
  simp only [hc]
  simp [readLoop_stop]

theorem commit_full (p : AbstractPacket) (hp : ClientPacketValid p) (full : List Nat)
    (hfull : full = p.sendPacket) :
    AbstractPacket.receivePacket (QDataStream.ofDevice full).startTransaction
        InstanceType.Client
      = (some p, { buffer := [], saved := some full, status := Status.Ok,
                   transactionDepth := 1 }) := by
  have h := receivePacket_client_full p hp (QDataStream.ofDevice full).startTransaction [] rfl
  rw [List.append_nil, ← hfull] at h
  exact h

theorem readLoop_full {σ : Type} (handle : AbstractPacket → σ → Option σ) (x : σ)
    (p : AbstractPacket) (hp : ClientPacketValid p) (full : List Nat)
    (hfull : full = p.sendPacket) (fuel : Nat) :
    Server.readLoop handle (fuel + 2) (QDataStream.ofDevice full) false x
      = (handle p x).map (fun x1 =>
          (({ buffer := [], saved := none, status := Status.Ok, transactionDepth := 0 }
            : QDataStream), x1)) := by
  have hc := commit_full p hp full hfull
  have hav : (QDataStream.ofDevice full).bytesAvailable ≠ 0 := by
    simp [QDataStream.bytesAvailable, QDataStream.ofDevice, hfull, sendPacket_eq]
  have hcm : QDataStream.commitTransaction
      { buffer := [], saved := some full, status := Status.Ok, transactionDepth := 1 }
      = (true, { buffer := [], saved := none, status := Status.Ok, transactionDepth := 0 }) := rfl
  rw [Server.readLoop, if_pos ⟨hav, rfl⟩]
  simp only [hc, hcm]
  cases handle p x with
  | none => simp
  | some x1 => simp [Server.readLoop, QDataStream.bytesAvailable]

theorem world_rx_same (w : World) (s : Nat) (b : List Nat) (h : w.rx s = b) :
    ({ w with rx := fun t => if t = s then b else w.rx t } : World) = w := by
  have hf : (fun t => if t = s then b else w.rx t) = w.rx := by
    funext t
    split_ifs with ht
    · rw [ht, h]
    · rfl
  rw [hf]

/-- C4. Transactional framing: let `pre` be a non-empty strict part of the block `sendPacket`
writes for a valid client packet `p`, and `post` the remaining bytes.  With only `pre`
buffered, the transaction around `receivePacket` does not commit and the unread bytes are
`pre` again; the loop of `socketReadyRead` leaves `pre` unread and does not run the handler
(the handler state is returned unchanged, for every handler); `socketReadyRead` leaves the
server as it was.  With `pre ++ post` buffered, the loop runs the handler once, on `p`, and
leaves no byte unread: the packets handled are exactly `[p]`, and `socketReadyRead` is one
call of `handlePacket` on `p`. -/
theorem transactional_framing (p : AbstractPacket) (pre post : List Nat)
    (hp : ClientPacketValid p) (hsplit : pre ++ post = p.sendPacket) (hpre : pre ≠ [])
    (hpost : post ≠ []) :
    (AbstractPacket.receivePacket (QDataStream.ofDevice pre).startTransaction
        InstanceType.Client).2.commitTransaction
      = (false, { buffer := pre, saved := none, status := Status.ReadPastEnd,
                  transactionDepth := 0 }) ∧
    (∀ (σ : Type) (handle : AbstractPacket → σ → Option σ) (x : σ),
      Server.readLoop handle (pre.length + 1) (QDataStream.ofDevice pre) false x
        = some ({ buffer := pre, saved := none, status := Status.ReadPastEnd,
                  transactionDepth := 0 }, x)) ∧
    (∀ (s : Nat) (w : World), w.rx s = pre → Server.socketReadyRead s w = some w) ∧
    (∀ (σ : Type) (handle : AbstractPacket → σ → Option σ) (x : σ),
      Server.readLoop handle ((pre ++ post).length + 1) (QDataStream.ofDevice (pre ++ post))
          false x
        = (handle p x).map (fun x1 =>
            (({ buffer := [], saved := none, status := Status.Ok, transactionDepth := 0 }
              : QDataStream), x1))) ∧
    Server.readLoop (fun q (l : List AbstractPacket) => some (l ++ [q]))
        ((pre ++ post).length + 1) (QDataStream.ofDevice (pre ++ post)) false []
      = some ({ buffer := [], saved := none, status := Status.Ok, transactionDepth := 0 }, [p]) ∧
    (∀ (s : Nat) (w : World), w.rx s = pre ++ post →
      Server.socketReadyRead s w
        = (Server.handlePacket p s w).map
            (fun w1 => { w1 with rx := fun t => if t = s then [] else w1.rx t })) := by
  have hlen : ∃ k, (pre ++ post).length = k + 1 := by
    cases pre with
    | nil => exact absurd rfl hpre
    | cons a l => exact ⟨(l ++ post).length, by simp⟩
  obtain ⟨k, hk⟩ := hlen
  have hfull : ∀ (σ : Type) (handle : AbstractPacket → σ → Option σ) (x : σ),
      Server.readLoop handle ((pre ++ post).length + 1) (QDataStream.ofDevice (pre ++ post))
          false x
        = (handle p x).map (fun x1 =>
            (({ buffer := [], saved := none, status := Status.Ok, transactionDepth := 0 }
              : QDataStream), x1)) := by
    intro σ handle x
    rw [hk]
    exact readLoop_full handle x p hp (pre ++ post) hsplit k
  refine ⟨commit_truncated p hp pre post hsplit hpre hpost, ?_, ?_, hfull, ?_, ?_⟩
  · intro σ handle x
    exact readLoop_truncated handle x p hp pre post hsplit hpre hpost pre.length
  · intro s w hw
    simp only [Server.socketReadyRead, hw, QDataStream.bytesAvailable]
    have h := readLoop_truncated (fun q x => Server.handlePacket q s x) w p hp pre post hsplit
      hpre hpost (QDataStream.ofDevice pre).buffer.length
    rw [h]
    simp only [Option.map_some']
    rw [world_rx_same w s pre hw]
  · rw [hfull]
    rfl
  · intro s w hw
    simp only [Server.socketReadyRead, hw, QDataStream.bytesAvailable]
    have h := hfull World (fun q x => Server.handlePacket q s x) w
    have hl : (QDataStream.ofDevice (pre ++ post)).buffer.length = (pre ++ post).length := rfl
    rw [hl, h]
    cases Server.handlePacket p s w <;> simp

/-- Witness for C4: a rotation packet is the two bytes `[128, 1]`; with the header byte alone
nothing is consumed, with both bytes the packet is handled once. -/
theorem transactional_framing_witness :
    Server.readLoop (fun q (l : List AbstractPacket) => some (l ++ [q])) ([128].length + 1)
        (QDataStream.ofDevice [128]) false []
      = some ({ buffer := [128], saved := none, status := Status.ReadPastEnd,
                transactionDepth := 0 }, []) ∧
    Server.readLoop (fun q (l : List AbstractPacket) => some (l ++ [q]))
        (([128] ++ [1]).length + 1) (QDataStream.ofDevice ([128] ++ [1])) false []
      = some ({ buffer := [], saved := none, status := Status.Ok, transactionDepth := 0 },
          [{ ClientCurverRotation.new with body := Body.clientCurverRotation { rotation := 1 } }]) :=
  ⟨(transactional_framing
      { ClientCurverRotation.new with body := Body.clientCurverRotation { rotation := 1 } }
      [128] [1] (by simp [ClientPacketValid, ClientCurverRotation.new, ClientCurverRotationValid])
      (by decide) (by simp) (by simp)).2.1 _ _ _,
   (transactional_framing
      { ClientCurverRotation.new with body := Body.clientCurverRotation { rotation := 1 } }
      [128] [1] (by simp [ClientPacketValid, ClientCurverRotation.new, ClientCurverRotationValid])
      (by decide) (by simp) (by simp)).2.2.2.2.1⟩

/-! ## Framing: unknown type ordinal -/

theorem construct_client_body (t : Nat) (r : AbstractPacket)
    (h : AbstractPacket.construct InstanceType.Client t = some r) :
    (∃ b, r.body = Body.clientChatMsg b) ∨ (∃ b, r.body = Body.clientPlayerModel b) ∨
      (∃ b, r.body = Body.clientCurverRotation b) := by
  simp only [AbstractPacket.construct] at h
  split_ifs at h <;> cases h
  · exact Or.inl ⟨_, rfl⟩
  · exact Or.inr (Or.inl ⟨_, rfl⟩)
  · exact Or.inr (Or.inr ⟨_, rfl⟩)

theorem commit_consumes (ins c : QDataStream) (hd : ins.transactionDepth = 0)
    (hne : ins.buffer ≠ [])
    (hc : (AbstractPacket.receivePacket ins.startTransaction
      InstanceType.Client).2.commitTransaction = (true, c)) :
    c.buffer.length < ins.buffer.length ∧ c.transactionDepth = 0 := by
  rcases ins with ⟨buf, sv, st, d⟩
  simp only at hd hne
  subst hd
  cases buf with
  | nil => exact absurd rfl hne
  | cons h rest =>
    have hrd := readU8_cons
      (QDataStream.startTransaction ⟨h :: rest, sv, st, 0⟩) h rest rfl rfl
    simp only [AbstractPacket.receivePacket, hrd] at hc
    cases hcon : AbstractPacket.construct InstanceType.Client (AbstractPacket.headerType h) with
    | none =>
      simp only [hcon] at hc
      have : (QDataStream.rollbackTransaction
          ((QDataStream.startTransaction ⟨h :: rest, sv, st, 0⟩).withBuffer rest)).commitTransaction.1
          = false := rfl
      rw [hc] at this
      exact absurd this (by simp)
    | some r =>
      simp only [hcon] at hc
      obtain ⟨h1, h2, _, _, h5⟩ := stable_parse_client
        { r with start := Util.getBit (AbstractPacket.headerFlags h) 5,
                 reset := Util.getBit (AbstractPacket.headerFlags h) 4 }
        (construct_client_body _ r hcon)
        ((QDataStream.startTransaction ⟨h :: rest, sv, st, 0⟩).withBuffer rest) rfl
      generalize (AbstractPacket.parse
        { r with start := Util.getBit (AbstractPacket.headerFlags h) 5,
                 reset := Util.getBit (AbstractPacket.headerFlags h) 4 }
        ((QDataStream.startTransaction ⟨h :: rest, sv, st, 0⟩).withBuffer rest)).2 = q at *
      rcases q with ⟨qb, qs, qst, qd⟩
      simp only [withBuffer_buffer] at h1 h2 h5
      have hqd : qd = 1 := h2
      subst hqd
      by_cases hq : qst = Status.ReadPastEnd
      · have hf : (QDataStream.commitTransaction ⟨qb, qs, qst, 1⟩).1 = false := by
          simp [QDataStream.commitTransaction, hq]
        rw [hc] at hf
        exact absurd hf (by simp)
      · have hf : (QDataStream.commitTransaction ⟨qb, qs, qst, 1⟩).2 = ⟨qb, none, qst, 0⟩ := by
          simp [QDataStream.commitTransaction, hq, QDataStream.deviceCommit]
        rw [hc] at hf
        simp only at hf
        subst hf
        simp only [List.length_cons]
        exact ⟨by omega, trivial⟩

theorem readLoop_fuel {σ : Type} (handle : AbstractPacket → σ → Option σ) (n : Nat) :
    ∀ (ins : QDataStream) (ill : Bool) (x : σ) (f1 f2 : Nat), ins.buffer.length ≤ n →
      ins.transactionDepth = 0 → n < f1 → n < f2 →
      Server.readLoop handle f1 ins ill x = Server.readLoop handle f2 ins ill x := by
  induction n with
  | zero =>
    intro ins ill x f1 f2 hlen _ h1 h2
    obtain ⟨a, rfl⟩ : ∃ a, f1 = a + 1 := ⟨f1 - 1, by omega⟩
    obtain ⟨b, rfl⟩ : ∃ b, f2 = b + 1 := ⟨f2 - 1, by omega⟩
    have hav : ¬ (ins.bytesAvailable ≠ 0 ∧ ill = false) := by
      simp only [QDataStream.bytesAvailable]
      intro h
      omega
    rw [Server.readLoop, Server.readLoop, if_neg hav, if_neg hav]
  | succ n ih =>
    intro ins ill x f1 f2 hlen hd h1 h2
    obtain ⟨a, rfl⟩ : ∃ a, f1 = a + 1 := ⟨f1 - 1, by omega⟩
    obtain ⟨b, rfl⟩ : ∃ b, f2 = b + 1 := ⟨f2 - 1, by omega⟩
    rw [Server.readLoop, Server.readLoop]
    by_cases hav : ins.bytesAvailable ≠ 0 ∧ ill = false
    · rw [if_pos hav, if_pos hav]
      have hne : ins.buffer ≠ [] := by
        intro h
        apply hav.1
        simp [QDataStream.bytesAvailable, h]
      obtain ⟨ok, c, hcm⟩ : ∃ ok c, (AbstractPacket.receivePacket ins.startTransaction
          InstanceType.Client).2.commitTransaction = (ok, c) := ⟨_, _, rfl⟩
      simp only [hcm]
      cases ok with
      | false => simp [readLoop_stop]
      | true =>
        obtain ⟨hlt, hcd⟩ := commit_consumes ins c hd hne hcm
        simp only [if_true]
        cases (AbstractPacket.receivePacket ins.startTransaction InstanceType.Client).1 with
        | none => rfl
        | some packet =>
          simp only []
          cases handle packet x with
          | none => rfl
          | some x1 =>
            simp only [Option.bind]
            exact ih c ill x1 a b (by omega) hcd (by omega) (by omega)
    · rw [if_neg hav, if_neg hav]

/-- More iterations than `bytesAvailable() + 1` never change the result of the read loop. -/
theorem readLoop_fuel_enough {σ : Type} (handle : AbstractPacket → σ → Option σ)
    (dev : List Nat) (x : σ) (extra : Nat) :
    Server.readLoop handle (dev.length + 1 + extra) (QDataStream.ofDevice dev) false x
      = Server.readLoop handle (dev.length + 1) (QDataStream.ofDevice dev) false x :=
  readLoop_fuel handle dev.length (QDataStream.ofDevice dev) false x _ _
    (Nat.le_refl _) rfl (by omega) (by omega)

/-! ## Periodic snapshots -/

theorem broadcastCurverData_eq (w : World) (hN : 0 < w.networkCurverBlock) :
    Server.broadcastCurverData w
      = some (if (w.dataBroadcastIteration + 1) % w.networkCurverBlock = 0 then
          Server.broadcastPacket (curverSnapshot w.curvers w.resetDue)
            { w with dataBroadcastIteration := w.dataBroadcastIteration + 1, resetDue := false }
        else { w with dataBroadcastIteration := w.dataBroadcastIteration + 1 }) := by
  have h : w.networkCurverBlock ≠ 0 := by omega
  simp only [Server.broadcastCurverData, h, if_false]
  split_ifs <;> rfl

theorem snapshotRun_succ (curvers : List Curver) (r : Bool) (m : Nat) :
    snapshotRun curvers r (m + 1)
      = snapshotRun curvers r m ++ [curverSnapshot curvers (r && decide (m = 0))] := by
  simp [snapshotRun, List.range_succ]

theorem blocksFor_append (clients : List (Nat × Nat)) (ps qs : List AbstractPacket) :
    blocksFor clients (ps ++ qs) = blocksFor clients ps ++ blocksFor clients qs := by
  simp [blocksFor]

theorem div_succ_step (c n : Nat) :
    (c + 1) / n = c / n + (if (c + 1) % n = 0 then 1 else 0) := by
  rw [Nat.succ_div]
  simp [Nat.dvd_iff_mod_eq_zero]

theorem broadcastCurverDataTimes_eq (w : World) (hN : 0 < w.networkCurverBlock) (k : Nat) :
    Server.broadcastCurverDataTimes k w = some (afterBroadcasts w k) := by
  induction k with
  | zero =>
    simp only [Server.broadcastCurverDataTimes, afterBroadcasts, Nat.add_zero, Nat.sub_self]
    simp [snapshotRun, blocksFor]
  | succ k ih =>
    have hN' : 0 < (afterBroadcasts w k).networkCurverBlock := hN
    simp only [Server.broadcastCurverDataTimes, ih, Option.bind, broadcastCurverData_eq _ hN']
    have hstep := div_succ_step (w.dataBroadcastIteration + k) w.networkCurverBlock
    have hmono : w.dataBroadcastIteration / w.networkCurverBlock
        ≤ (w.dataBroadcastIteration + k) / w.networkCurverBlock :=
      Nat.div_le_div_right (Nat.le_add_right _ _)
    congr 1
    by_cases hm : (w.dataBroadcastIteration + k + 1) % w.networkCurverBlock = 0
    · have hq : (w.dataBroadcastIteration + (k + 1)) / w.networkCurverBlock
          - w.dataBroadcastIteration / w.networkCurverBlock
          = ((w.dataBroadcastIteration + k) / w.networkCurverBlock
            - w.dataBroadcastIteration / w.networkCurverBlock) + 1 := by
        rw [← Nat.add_assoc, hstep, if_pos hm]
        omega
      have hm' : ((afterBroadcasts w k).dataBroadcastIteration + 1)
          % (afterBroadcasts w k).networkCurverBlock = 0 := hm
      rw [if_pos hm']
      simp only [afterBroadcasts, hq, snapshotRun_succ, blocksFor_append, Server.broadcastPacket]
      simp [blocksFor, Nat.add_assoc]
    · have hq : (w.dataBroadcastIteration + (k + 1)) / w.networkCurverBlock
          - w.dataBroadcastIteration / w.networkCurverBlock
          = (w.dataBroadcastIteration + k) / w.networkCurverBlock
            - w.dataBroadcastIteration / w.networkCurverBlock := by
        rw [← Nat.add_assoc, hstep, if_neg hm]
        omega
      have hm' : ¬ ((afterBroadcasts w k).dataBroadcastIteration + 1)
          % (afterBroadcasts w k).networkCurverBlock = 0 := hm
      rw [if_neg hm']
      simp only [afterBroadcasts, hq]
      simp [Nat.add_assoc]

/-- C9. Reset edge-triggering: after `resetRound`, any number `k` of consecutive calls of
`broadcastCurverData` (block interval not zero) broadcast a run of snapshots of which exactly
the first has `reset = true` and all later ones `reset = false`, each written to every client,
and the pending flag is still set exactly when no snapshot was sent; a call that sends no
snapshot leaves the pending flag unchanged, and a call that sends one sends it with
`reset` equal to the pending flag and clears the flag. -/
theorem reset_edge_triggering (w : World) (k : Nat) (hN : 0 < w.networkCurverBlock) :
    (∃ w1 m, Server.broadcastCurverDataTimes k (Server.resetRound w) = some w1 ∧
      w1.broadcasts = w.broadcasts
        ++ (List.range m).map (fun i => curverSnapshot w.curvers (decide (i = 0))) ∧
      w1.written = w.written ++ blocksFor w.clients
        ((List.range m).map (fun i => curverSnapshot w.curvers (decide (i = 0)))) ∧
      w1.resetDue = decide (m = 0)) ∧
    (∀ v v1, Server.broadcastCurverData v = some v1 → v1.broadcasts = v.broadcasts →
      v1.resetDue = v.resetDue) ∧
    (∀ v v1, Server.broadcastCurverData v = some v1 → v1.broadcasts ≠ v.broadcasts →
      v1.broadcasts = v.broadcasts ++ [curverSnapshot v.curvers v.resetDue] ∧
        v1.resetDue = false) := by
  refine ⟨?_, ?_, ?_⟩
  · refine ⟨afterBroadcasts (Server.resetRound w) k,
      (w.dataBroadcastIteration + k) / w.networkCurverBlock
        - w.dataBroadcastIteration / w.networkCurverBlock,
      broadcastCurverDataTimes_eq (Server.resetRound w) hN k, ?_, ?_, ?_⟩
    · simp [afterBroadcasts, Server.resetRound, snapshotRun]
    · simp [afterBroadcasts, Server.resetRound, snapshotRun]
    · simp [afterBroadcasts, Server.resetRound]
  · intro v v1 hv hb
    by_cases hz : v.networkCurverBlock = 0
    · simp [Server.broadcastCurverData, hz] at hv
    · rw [broadcastCurverData_eq v (by omega)] at hv
      simp only [Option.some.injEq] at hv
      subst hv
      split_ifs at hb ⊢ with hm
      · simp [Server.broadcastPacket] at hb
      · rfl
  · intro v v1 hv hb
    by_cases hz : v.networkCurverBlock = 0
    · simp [Server.broadcastCurverData, hz] at hv
    · rw [broadcastCurverData_eq v (by omega)] at hv
      simp only [Option.some.injEq] at hv
      subst hv
      split_ifs at hb ⊢ with hm
      · exact ⟨rfl, rfl⟩
      · exact absurd rfl hb

/-- Witness for C9: block interval 2, one client on socket 7, no players; after a reset, five
calls broadcast two snapshots, the first with `reset` set, the second without. -/
theorem reset_edge_triggering_witness :
    ∃ w1 m, Server.broadcastCurverDataTimes 5
        (Server.resetRound { World.init 2 with clients := [(7, 0)] }) = some w1 ∧
      w1.broadcasts = (World.init 2).broadcasts
        ++ (List.range m).map (fun i => curverSnapshot [] (decide (i = 0))) ∧
      w1.written = (World.init 2).written ++ blocksFor [(7, 0)]
        ((List.range m).map (fun i => curverSnapshot [] (decide (i = 0)))) ∧
      w1.resetDue = decide (m = 0) :=
  (reset_edge_triggering { World.init 2 with clients := [(7, 0)] } 5 (by decide)).1

/-- C10. Broadcast cadence: with a block interval `N > 0` and the counter at 0, call number
`k + 1` of `broadcastCurverData` broadcasts a snapshot (to every client) exactly when `k + 1`
is a multiple of `N` and sends nothing otherwise; any `N` consecutive calls broadcast exactly
one snapshot; after `k` calls `k / N` snapshots were broadcast, all of type `CurverData` with
`start = true`. -/
theorem broadcast_cadence (w : World) (hN : 0 < w.networkCurverBlock)
    (h0 : w.dataBroadcastIteration = 0) :
    (∀ k, ∃ w1 w2, Server.broadcastCurverDataTimes k w = some w1 ∧
      Server.broadcastCurverData w1 = some w2 ∧
      ((k + 1) % w.networkCurverBlock = 0 →
        w2.broadcasts = w1.broadcasts ++ [curverSnapshot w.curvers w1.resetDue] ∧
        w2.written = w1.written
          ++ w.clients.map (fun c => (c.1, (curverSnapshot w.curvers w1.resetDue).sendPacket))) ∧
      ((k + 1) % w.networkCurverBlock ≠ 0 →
        w2.broadcasts = w1.broadcasts ∧ w2.written = w1.written)) ∧
    (∀ a, ∃ w1 w2, Server.broadcastCurverDataTimes a w = some w1 ∧
      Server.broadcastCurverDataTimes (a + w.networkCurverBlock) w = some w2 ∧
      ∃ p, w2.broadcasts = w1.broadcasts ++ [p]) ∧
    (∀ k, ∃ w1 l, Server.broadcastCurverDataTimes k w = some w1 ∧
      w1.broadcasts = w.broadcasts ++ l ∧ l.length = k / w.networkCurverBlock ∧
      ∀ p ∈ l, p.start = true ∧ p.type = ServerTypes.CurverData) := by
  refine ⟨?_, ?_, ?_⟩
  · intro k
    have hN1 : 0 < (afterBroadcasts w k).networkCurverBlock := hN
    refine ⟨afterBroadcasts w k, _, broadcastCurverDataTimes_eq w hN k,
      broadcastCurverData_eq _ hN1, ?_, ?_⟩
    · intro hm
      have hm' : ((afterBroadcasts w k).dataBroadcastIteration + 1)
          % (afterBroadcasts w k).networkCurverBlock = 0 := by
        show (w.dataBroadcastIteration + k + 1) % w.networkCurverBlock = 0
        rw [h0, Nat.zero_add]
        exact hm
      rw [if_pos hm']
      exact ⟨rfl, rfl⟩
    · intro hm
      have hm' : ¬ ((afterBroadcasts w k).dataBroadcastIteration + 1)
          % (afterBroadcasts w k).networkCurverBlock = 0 := by
        show ¬ (w.dataBroadcastIteration + k + 1) % w.networkCurverBlock = 0
        rw [h0, Nat.zero_add]
        exact hm
      rw [if_neg hm']
      exact ⟨rfl, rfl⟩
  · intro a
    refine ⟨afterBroadcasts w a, afterBroadcasts w (a + w.networkCurverBlock),
      broadcastCurverDataTimes_eq w hN a, broadcastCurverDataTimes_eq w hN _, ?_⟩
    have hq : (a + w.networkCurverBlock) / w.networkCurverBlock = a / w.networkCurverBlock + 1 :=
      Nat.add_div_right a hN
    simp only [afterBroadcasts, h0, Nat.zero_add, Nat.zero_div, Nat.sub_zero, hq,
      snapshotRun_succ]
    exact ⟨_, (List.append_assoc _ _ _).symm⟩
  · intro k
    refine ⟨afterBroadcasts w k, _, broadcastCurverDataTimes_eq w hN k, rfl, ?_, ?_⟩
    · simp [snapshotRun, h0]
    · intro p hp
      simp only [snapshotRun, List.mem_map] at hp
      obtain ⟨i, _, rfl⟩ := hp
      exact ⟨rfl, rfl⟩

/-- Witness for C10: block interval 3, one client on socket 7; the third call broadcasts. -/
theorem broadcast_cadence_witness :
    ∃ w1 w2, Server.broadcastCurverDataTimes 2 { World.init 3 with clients := [(7, 0)] }
        = some w1 ∧
      Server.broadcastCurverData w1 = some w2 ∧
      ((2 + 1) % 3 = 0 →
        w2.broadcasts = w1.broadcasts ++ [curverSnapshot [] w1.resetDue] ∧
        w2.written = w1.written
          ++ [(7, 0)].map (fun c => (c.1, (curverSnapshot [] w1.resetDue).sendPacket))) ∧
      ((2 + 1) % 3 ≠ 0 → w2.broadcasts = w1.broadcasts ∧ w2.written = w1.written) :=
  (broadcast_cadence { World.init 3 with clients := [(7, 0)] } (by decide) rfl).1 2

/-! ## The bit helpers -/

/-- C15. `Util::getBit`: for every value `byte` and position `pos` (in particular for every
8-bit value and every position from 0 to 7), `getBit(byte, pos)` is true exactly when bit
`pos` of `byte`, counted from the least significant bit, is 1, that is when
`byte / 2 ^ pos` is odd. -/
theorem getBit_spec (byte pos : Nat) :
    (Util.getBit byte pos = true ↔ byte / 2 ^ pos % 2 = 1) ∧
    Util.getBit byte pos = byte.testBit pos := by
  refine ⟨?_, getBit_eq_testBit byte pos⟩
  simp only [Util.getBit, Nat.shiftRight_eq_div_pow, decide_eq_true_eq]
  omega

/-- `Util::setBit` on 8-bit values: the bit at `pos` becomes the OR of its old value and
`value`; the other bits keep their value. -/
theorem getBit_setBit (byte pos q : Nat) (value : Bool) (hq : q < 8) :
    Util.getBit (Util.setBit byte pos value) q
      = (Util.getBit byte q || (decide (q = pos) && value)) := by
  simp only [Util.setBit]
  rw [getBit_or_shift]
  simp [hq]

/-- C16, evaluated on the code. `Util::setBit` with `value = false` on a byte whose bit 0 is
set leaves the byte as it is, so the bit read back is `true`, not `value`; with
`value = true` the bit is set, and in both cases the other bits are unchanged. -/
theorem setBit_false_keeps_bit :
    Util.setBit 1 0 false = 1 ∧
    Util.getBit (Util.setBit 1 0 false) 0 = true ∧
    Util.setBit 0 3 true = 8 ∧
    Util.getBit (Util.setBit 0 3 true) 3 = true := by
  decide

/-! ## Dispatch on the header byte -/

theorem headerType_lt (h : Nat) (hh : h < 256) :
    AbstractPacket.headerType h = h / 64 ∧ AbstractPacket.headerType h < 4 := by
  have h64 : h >>> 6 = h / 64 := by
    rw [Nat.shiftRight_eq_div_pow]
  simp only [AbstractPacket.headerType, h64]
  exact ⟨trivial, by omega⟩

/-- C18. Dispatch totality: `receivePacket`, reading a header byte `h` (any of the 256 values)
from a stream in good state, returns the null packet exactly when the direction is `Client`
and the type ordinal `h >> 6` is 3; for direction `Server` the result is never null; and a
packet that is returned has the type ordinal of the header, its top two bits, as type tag. -/
theorem dispatch_totality (h : Nat) (rest : List Nat) (ins : QDataStream) (src : InstanceType)
    (hh : h < 256) (hs : ins.status = Status.Ok) (hb : ins.buffer = h :: rest) :
    ((AbstractPacket.receivePacket ins src).1 = none ↔
      (src = InstanceType.Client ∧ AbstractPacket.headerType h = 3)) ∧
    (src = InstanceType.Server → (AbstractPacket.receivePacket ins src).1 ≠ none) ∧
    (∀ q, (AbstractPacket.receivePacket ins src).1 = some q →
      q.type = AbstractPacket.headerType h ∧ q.type = h / 64) := by
  obtain ⟨hdiv, hlt⟩ := headerType_lt h hh
  have hrd := readU8_cons ins h rest hs hb
  have hnone : (AbstractPacket.receivePacket ins src).1 = none ↔
      (src = InstanceType.Client ∧ AbstractPacket.headerType h = 3) := by
    rw [← construct_isSome src _ hlt]
    simp only [AbstractPacket.receivePacket, hrd]
    cases hc : AbstractPacket.construct src (AbstractPacket.headerType h) <;> simp
  refine ⟨hnone, ?_, ?_⟩
  · intro hsrc hn
    rw [hnone] at hn
    rw [hsrc] at hn
    exact absurd hn.1 (by decide)
  · intro q hq
    simp only [AbstractPacket.receivePacket, hrd] at hq
    cases hc : AbstractPacket.construct src (AbstractPacket.headerType h) with
    | none => simp [hc] at hq
    | some r =>
      simp only [hc, Option.some.injEq] at hq
      have ht := construct_type src _ r hc
      subst hq
      obtain ⟨h1, _, _⟩ := parse_type
        { r with start := Util.getBit (AbstractPacket.headerFlags h) 5,
                 reset := Util.getBit (AbstractPacket.headerFlags h) 4 } (ins.withBuffer rest)
      rw [h1]
      exact ⟨ht, by rw [← hdiv]; exact ht⟩

/-- Witness for C18: the header byte 255 read for direction `Server` gives a packet of
type 3, and read for direction `Client` the null packet. -/
theorem dispatch_totality_witness :
    ((AbstractPacket.receivePacket (QDataStream.ofDevice [255]) InstanceType.Client).1 = none ↔
      (InstanceType.Client = InstanceType.Client ∧ AbstractPacket.headerType 255 = 3)) ∧
    (InstanceType.Server = InstanceType.Server →
      (AbstractPacket.receivePacket (QDataStream.ofDevice [255]) InstanceType.Server).1 ≠ none) :=
  ⟨(dispatch_totality 255 [] (QDataStream.ofDevice [255]) InstanceType.Client
      (by decide) rfl rfl).1,
   (dispatch_totality 255 [] (QDataStream.ofDevice [255]) InstanceType.Server
      (by decide) rfl rfl).2.1⟩

/-! ## Length of the parsed flag sequence and the bounds of `extract` -/

/-- C17. Snapshot flag parse length: on a stream in good state that holds `n` positions (valid
coordinates, as `serializeCnt` writes them) followed by `ceil(n / 8)` bytes `fb` and any
further bytes `rest`, `ServerCurverData::parse` returns the `n` positions, leaves
`changingSegment` with exactly `n` entries and leaves exactly `rest` unread: it consumes the
`ceil(n / 8)` bytes after the position sequence, none at all when `n = 0`. -/
theorem parse_flag_length (pos : List QPointF) (fb rest : List Nat) (q : ServerCurverData)
    (s : QDataStream) (hs : s.status = Status.Ok) (hv : ∀ p ∈ pos, QPointFValid p)
    (hl : pos.length < 4294967296) (hfb : fb.length = (pos.length + 7) / 8) :
    (q.parse (s.withBuffer (Util.serializeCnt writeQPointF [] pos ++ fb ++ rest))).1.pos = pos ∧
    (q.parse (s.withBuffer
      (Util.serializeCnt writeQPointF [] pos ++ fb ++ rest))).1.changingSegment.length
        = pos.length ∧
    (q.parse (s.withBuffer (Util.serializeCnt writeQPointF [] pos ++ fb ++ rest))).2
      = s.withBuffer rest ∧
    (pos.length = 0 → fb = []) := by
  have hcnt := parseCnt_points pos s (fb ++ rest) hs hv hl
  rw [← List.append_assoc] at hcnt
  obtain ⟨_, h2⟩ := parseStep_fold (Util.resize q.changingSegment pos.length false) s hs
    (fb ++ rest) 0 0 [] (by omega) (by
      rw [length_resize, List.length_append, hfb]
      omega)
  rw [length_resize] at h2
  refine ⟨?_, ?_, ?_, ?_⟩
  · simp only [ServerCurverData.parse, hcnt]
  · simp only [ServerCurverData.parse, hcnt, ServerCurverData.parseFlags]
    rw [parseFlags_assigned_length, length_resize]
    simp
  · simp only [ServerCurverData.parse, hcnt, ServerCurverData.parseFlags]
    rw [h2]
    have hd : (pos.length + 7 - 0) / 8 = fb.length := by rw [hfb]; rfl
    rw [hd, List.drop_left]
  · intro h0
    rw [h0] at hfb
    exact List.length_eq_zero.mp hfb

/-- Witness for C17: nine positions, two flag bytes and a byte 5 behind them. -/
theorem parse_flag_length_witness :
    (ServerCurverData.parse { pos := [], changingSegment := [] }
      ((QDataStream.ofDevice []).withBuffer
        (Util.serializeCnt writeQPointF [] (List.replicate 9 ⟨1, 2⟩) ++ [177, 128]
          ++ [5]))).1.changingSegment.length = (List.replicate 9 (⟨1, 2⟩ : QPointF)).length ∧
    (ServerCurverData.parse { pos := [], changingSegment := [] }
      ((QDataStream.ofDevice []).withBuffer
        (Util.serializeCnt writeQPointF [] (List.replicate 9 ⟨1, 2⟩) ++ [177, 128]
          ++ [5]))).2 = (QDataStream.ofDevice []).withBuffer [5] :=
  ⟨(parse_flag_length (List.replicate 9 ⟨1, 2⟩) [177, 128] [5]
      { pos := [], changingSegment := [] } (QDataStream.ofDevice []) rfl
      (by intro p hp; rw [List.eq_of_mem_replicate hp]; simp [QPointFValid]) (by decide)
      (by decide)).2.1,
   (parse_flag_length (List.replicate 9 ⟨1, 2⟩) [177, 128] [5]
      { pos := [], changingSegment := [] } (QDataStream.ofDevice []) rfl
      (by intro p hp; rw [List.eq_of_mem_replicate hp]; simp [QPointFValid]) (by decide)
      (by decide)).2.2.1⟩

theorem foldlM_none_of_mem {α β : Type} (f : β → α → Option β) (l : List α) (i : α)
    (hi : i ∈ l) (hf : ∀ b, f b i = none) (b : β) : l.foldlM f b = none := by
  induction l generalizing b with
  | nil => simp at hi
  | cons a l ih =>
    simp only [List.foldlM_cons]
    rcases List.mem_cons.mp hi with h | h
    · subst h
      rw [hf b]
      rfl
    · cases hfa : f b a with
      | none => rfl
      | some b1 => exact ih h b1

theorem extract_none (p : ServerCurverData) (curvers : List Curver)
    (h : p.pos.length < curvers.length ∨ p.changingSegment.length < curvers.length) :
    p.extract curvers = none := by
  rcases h with h | h
  · apply foldlM_none_of_mem _ _ p.pos.length (List.mem_range.mpr h)
    intro cs
    rw [List.getElem?_eq_none (Nat.le_refl _)]
  · apply foldlM_none_of_mem _ _ p.changingSegment.length (List.mem_range.mpr h)
    intro cs
    rw [List.getElem?_eq_none (Nat.le_refl p.changingSegment.length)]
    cases p.pos[p.changingSegment.length]? <;> rfl

theorem extract_prefix (p : ServerCurverData) (curvers : List Curver) (k : Nat)
    (hk : k ≤ curvers.length) (hp : k ≤ p.pos.length) (hc : k ≤ p.changingSegment.length) :
    ∃ r, (List.range k).foldlM
        (fun cs i =>
          match p.pos[i]?, p.changingSegment[i]?, cs[i]? with
          | some a, some b, some c => some (List.set cs i (Curver.appendPoint c a b))
          | _, _, _ => none)
        curvers = some r ∧ r.length = curvers.length := by
  induction k with
  | zero => exact ⟨curvers, rfl, rfl⟩
  | succ k ih =>
    obtain ⟨r, hr, hlen⟩ := ih (by omega) (by omega) (by omega)
    rw [List.range_succ, List.foldlM_append, hr]
    have hk1 : k < p.pos.length := by omega
    have hk2 : k < p.changingSegment.length := by omega
    have hk3 : k < r.length := by omega
    have h1 : p.pos[k]? = some p.pos[k] := List.getElem?_eq_getElem hk1
    have h2 : p.changingSegment[k]? = some p.changingSegment[k] :=
      List.getElem?_eq_getElem hk2
    have h3 : r[k]? = some r[k] := List.getElem?_eq_getElem hk3
    refine ⟨r.set k (Curver.appendPoint r[k] p.pos[k] p.changingSegment[k]), ?_,
      by simp [hlen]⟩
    simp [h1, h2, h3]

/-- C20, evaluated on the code. Snapshot extract bounds: `ServerCurverData::extract` reads
`pos[i]` and `changingSegment[i]` for every index below the number of curvers of the registry,
so it reads beyond the sequences (no defined result) whenever the registry holds more curvers
than the packet holds positions or flags, and stays in bounds otherwise; the packet `parse`
produces from the four bytes of an empty position sequence, extracted into a registry of one
curver, reads `pos[0]` of an empty sequence. -/
theorem extract_reads_out_of_range :
    (∀ (p : ServerCurverData) (curvers : List Curver),
      p.pos.length < curvers.length ∨ p.changingSegment.length < curvers.length →
        p.extract curvers = none) ∧
    (∀ (p : ServerCurverData) (curvers : List Curver),
      curvers.length ≤ p.pos.length → curvers.length ≤ p.changingSegment.length →
        ∃ r, p.extract curvers = some r ∧ r.length = curvers.length) ∧
    (ServerCurverData.parse { pos := [], changingSegment := [] }
      (QDataStream.ofDevice [0, 0, 0, 0])).1 = { pos := [], changingSegment := [] } ∧
    ServerCurverData.extract
      (ServerCurverData.parse { pos := [], changingSegment := [] }
        (QDataStream.ofDevice [0, 0, 0, 0])).1
      [{ userName := none, color := ⟨0, 0, 0, 0, 0, 0⟩, rotation := 0, controller := 0,
         pos := ⟨0, 0⟩, changingSegment := false, roundScore := 0, totalScore := 0 }]
      = none := by
  refine ⟨extract_none, ?_, by decide, by decide⟩
  intro p curvers hp hc
  exact extract_prefix p curvers curvers.length (Nat.le_refl _) hp hc

/-! ## Accepting and dropping connections -/

theorem assignClient_fresh (s i : Nat) (clients : List (Nat × Nat))
    (hnew : ∀ c ∈ clients, c.1 ≠ s) :
    Server.assignClient s i clients = clients ++ [(s, i)] := by
  induction clients with
  | nil => rfl
  | cons c rest ih =>
    have hc : c.1 ≠ s := hnew c (by simp)
    simp only [Server.assignClient, if_neg hc, List.cons_append]
    rw [ih (fun d hd => hnew d (by simp [hd]))]

theorem find_append_fresh (s i : Nat) (clients : List (Nat × Nat))
    (hnew : ∀ c ∈ clients, c.1 ≠ s) :
    (clients ++ [(s, i)]).find? (fun c => c.1 == s) = some (s, i) := by
  induction clients with
  | nil => simp
  | cons c rest ih =>
    have hc : c.1 ≠ s := hnew c (by simp)
    simp only [List.cons_append, List.find?_cons]
    have hb : (c.1 == s) = false := by simpa using hc
    rw [hb]
    exact ih (fun d hd => hnew d (by simp [hd]))

theorem find_append_other (s t i : Nat) (clients : List (Nat × Nat)) (ht : t ≠ s) :
    (clients ++ [(s, i)]).find? (fun c => c.1 == t) = clients.find? (fun c => c.1 == t) := by
  induction clients with
  | nil =>
    have hb : (s == t) = false := by simpa using (Ne.symm ht)
    simp [hb]
  | cons c rest ih =>
    simp only [List.cons_append, List.find?_cons]
    cases (c.1 == t) <;> simp [ih]

theorem broadcastChatMessage_eq (u m : QString) (w : World) :
    Server.broadcastChatMessage u m w
      = { w with
          chat := w.chat ++ [(u, m)],
          written := w.written ++ w.clients.map (fun c => (c.1, (chatNotice u m).sendPacket)),
          broadcasts := w.broadcasts ++ [chatNotice u m] } := rfl

theorem newConnection_eq (s : Nat) (fresh : Curver) (w : World)
    (hnew : ∀ c ∈ w.clients, c.1 ≠ s) :
    Server.newConnection (some s) fresh w = some (afterAccept s fresh w) := by
  have hget : (w.curvers ++ [fresh])[w.curvers.length]? = some fresh := by
    simp
  have hset : (w.curvers ++ [fresh]).set w.curvers.length
      { fresh with controller := Curver.CONTROLLER_REMOTE }
      = w.curvers ++ [{ fresh with controller := Curver.CONTROLLER_REMOTE }] := by
    simp
  simp only [Server.newConnection, PlayerModel.getNewPlayer, hget,
    Server.broadcastAdminChatMessage, broadcastChatMessage_eq, hset,
    assignClient_fresh s _ w.clients hnew]
  rfl

/-- C11. Accept: `newConnection` with a pending socket `s` that is not in the session map yet
adds the one entry for `s` behind the existing entries, bound to a player that is added behind
the existing players with controller `CONTROLLER_REMOTE`; the entries of all other sockets
are as before; then one admin chat packet with the message `<peer address> joined` is written
to every socket of the new map, the new socket included, and nothing else is written.  With a
null pending socket the state is unchanged and nothing is sent. -/
theorem newConnection_accepts (s : Nat) (fresh : Curver) (w : World)
    (hnew : ∀ c ∈ w.clients, c.1 ≠ s) :
    (∃ w1, Server.newConnection (some s) fresh w = some w1 ∧
      w1.clients = w.clients ++ [(s, w.curvers.length)] ∧
      w1.curvers = w.curvers ++ [{ fresh with controller := Curver.CONTROLLER_REMOTE }] ∧
      Server.curverFromSocket s w1 = some w.curvers.length ∧
      (∀ t, t ≠ s → Server.curverFromSocket t w1 = Server.curverFromSocket t w) ∧
      w1.written = w.written ++ w1.clients.map (fun c =>
        (c.1, (chatNotice w.adminName (some (w.peerAddress s ++ Server.joinedText))).sendPacket)) ∧
      (s, (chatNotice w.adminName (some (w.peerAddress s ++ Server.joinedText))).sendPacket)
        ∈ w1.clients.map (fun c =>
          (c.1, (chatNotice w.adminName (some (w.peerAddress s ++ Server.joinedText))).sendPacket)) ∧
      w1.broadcasts = w.broadcasts
        ++ [chatNotice w.adminName (some (w.peerAddress s ++ Server.joinedText))] ∧
      w1.resetDue = w.resetDue ∧ w1.dataBroadcastIteration = w.dataBroadcastIteration) ∧
    Server.newConnection none fresh w = some w := by
  refine ⟨?_, rfl⟩
  refine ⟨afterAccept s fresh w, newConnection_eq s fresh w hnew, rfl, rfl, ?_, ?_, rfl, ?_, rfl,
    rfl, rfl⟩
  · simp only [Server.curverFromSocket, afterAccept, find_append_fresh s _ w.clients hnew,
      Option.map_some']
  · intro t ht
    simp only [Server.curverFromSocket, afterAccept, find_append_other s t _ w.clients ht]
  · simp [afterAccept]

/-- Witness for C11: the first connection, socket 7, on a server without clients. -/
theorem newConnection_accepts_witness :
    (∃ w1, Server.newConnection (some 7)
        { userName := none, color := ⟨0, 0, 0, 0, 0, 0⟩, rotation := 0, controller := 0,
          pos := ⟨0, 0⟩, changingSegment := false, roundScore := 0, totalScore := 0 }
        (World.init 2) = some w1 ∧
      w1.clients = (World.init 2).clients ++ [(7, (World.init 2).curvers.length)] ∧
      w1.curvers = (World.init 2).curvers
        ++ [{ userName := none, color := ⟨0, 0, 0, 0, 0, 0⟩, rotation := 0,
              controller := Curver.CONTROLLER_REMOTE, pos := ⟨0, 0⟩, changingSegment := false,
              roundScore := 0, totalScore := 0 }]) :=
  match (newConnection_accepts 7
      { userName := none, color := ⟨0, 0, 0, 0, 0, 0⟩, rotation := 0, controller := 0,
        pos := ⟨0, 0⟩, changingSegment := false, roundScore := 0, totalScore := 0 }
      (World.init 2) (by simp [World.init])).1 with
  | ⟨w1, h1, h2, h3, _⟩ => ⟨w1, h1, h2, h3⟩

theorem removePlayer_eq (s : Nat) (w : World) :
    Server.removePlayer s w
      = { w with
          chat := w.chat ++ [(w.adminName, some (w.peerAddress s ++ Server.leftText))],
          written := w.written ++ w.clients.map (fun c =>
            (c.1, (chatNotice w.adminName (some (w.peerAddress s ++ Server.leftText))).sendPacket)),
          broadcasts := w.broadcasts
            ++ [chatNotice w.adminName (some (w.peerAddress s ++ Server.leftText))] } := rfl

/-- C12, evaluated on the code. Session teardown: `socketDisconnect` and `socketError` leave
the session map as it is (they broadcast the departure notice and remove nothing), so a socket
that was bound stays bound; after socket 7 is accepted on a server without clients and then
disconnects, the map still holds the entry of socket 7 and `curverFromSocket` still returns
its player. -/
theorem teardown_keeps_session :
    (∀ (s : Nat) (w : World),
      (Server.socketDisconnect s w).clients = w.clients ∧
      (Server.socketError s w).clients = w.clients ∧
      (∀ t, Server.curverFromSocket t (Server.socketDisconnect s w)
        = Server.curverFromSocket t w) ∧
      (∀ t, Server.curverFromSocket t (Server.socketError s w)
        = Server.curverFromSocket t w)) ∧
    ((Server.newConnection (some 7)
        { userName := none, color := ⟨0, 0, 0, 0, 0, 0⟩, rotation := 0, controller := 0,
          pos := ⟨0, 0⟩, changingSegment := false, roundScore := 0, totalScore := 0 }
        (World.init 2)).map
      (fun w => ((Server.socketDisconnect 7 w).clients,
        Server.curverFromSocket 7 (Server.socketDisconnect 7 w),
        (Server.socketError 7 w).clients,
        Server.curverFromSocket 7 (Server.socketError 7 w))))
      = some ([(7, 0)], some 0, [(7, 0)], some 0) := by
  refine ⟨fun s w => ⟨rfl, rfl, fun _ => rfl, fun _ => rfl⟩, by decide⟩

/-! ## Dispatch of client packets -/

/-- C13. Rotation dispatch: `handlePacket` on a `ClientCurverRotation` packet from a socket
`s` bound to the player `c` (at index `i`) sets the rotation of that player to the rotation of
the packet and changes nothing else: the other fields of the player, every other player, the
session map, the pending-reset flag, the counter, and the blocks written to sockets (nothing
is written, nothing is broadcast, no chat line is added). -/
theorem rotation_dispatch (p : AbstractPacket) (b : ClientCurverRotation) (s i : Nat)
    (c : Curver) (w : World) (ht : p.type = ClientTypes.CurverRotation)
    (hb : p.body = Body.clientCurverRotation b)
    (hreg : Server.curverFromSocket s w = some i) (hc : w.curvers[i]? = some c) :
    Server.handlePacket p s w
      = some { w with curvers := w.curvers.set i { c with rotation := b.rotation } } ∧
    (w.curvers.set i { c with rotation := b.rotation })[i]?
      = some { c with rotation := b.rotation } ∧
    (∀ j, j ≠ i → (w.curvers.set i { c with rotation := b.rotation })[j]? = w.curvers[j]?) ∧
    (∀ w1, Server.handlePacket p s w = some w1 →
      w1.clients = w.clients ∧ w1.resetDue = w.resetDue ∧ w1.written = w.written ∧
      w1.broadcasts = w.broadcasts ∧ w1.chat = w.chat ∧
      w1.dataBroadcastIteration = w.dataBroadcastIteration ∧
      w1.curvers.length = w.curvers.length) := by
  have hlt : i < w.curvers.length := by
    rcases Nat.lt_or_ge i w.curvers.length with h | h
    · exact h
    · rw [List.getElem?_eq_none h] at hc
      exact absurd hc (by simp)
  have heq : Server.handlePacket p s w
      = some { w with curvers := w.curvers.set i { c with rotation := b.rotation } } := by
    simp only [Server.handlePacket, ht, hb, hreg, hc]
    rw [if_neg (by decide), if_neg (by decide), if_pos trivial]
  refine ⟨heq, ?_, ?_, ?_⟩
  · simp [hlt]
  · intro j hj
    exact List.getElem?_set_ne (Ne.symm hj)
  · intro w1 hw1
    rw [heq] at hw1
    simp only [Option.some.injEq] at hw1
    subst hw1
    exact ⟨rfl, rfl, rfl, rfl, rfl, rfl, by simp⟩

/-- Witness for C13: socket 7 bound to the only player; a rotation packet with rotation 2. -/
theorem rotation_dispatch_witness :
    Server.handlePacket
        { ClientCurverRotation.new with body := Body.clientCurverRotation { rotation := 2 } } 7
        { World.init 2 with
          clients := [(7, 0)],
          curvers := [{ userName := none, color := ⟨0, 0, 0, 0, 0, 0⟩, rotation := 0,
                        controller := 1, pos := ⟨0, 0⟩, changingSegment := false,
                        roundScore := 0, totalScore := 0 }] }
      = some { World.init 2 with
          clients := [(7, 0)],
          curvers := [{ userName := none, color := ⟨0, 0, 0, 0, 0, 0⟩, rotation := 2,
                        controller := 1, pos := ⟨0, 0⟩, changingSegment := false,
                        roundScore := 0, totalScore := 0 }] } :=
  (rotation_dispatch
    { ClientCurverRotation.new with body := Body.clientCurverRotation { rotation := 2 } }
    { rotation := 2 } 7 0
    { userName := none, color := ⟨0, 0, 0, 0, 0, 0⟩, rotation := 0, controller := 1,
      pos := ⟨0, 0⟩, changingSegment := false, roundScore := 0, totalScore := 0 }
    { World.init 2 with
      clients := [(7, 0)],
      curvers := [{ userName := none, color := ⟨0, 0, 0, 0, 0, 0⟩, rotation := 0,
                    controller := 1, pos := ⟨0, 0⟩, changingSegment := false,
                    roundScore := 0, totalScore := 0 }] }
    rfl rfl rfl rfl).1

theorem receive_chatNotice (u m : QString) (hu : QStringValid u) (hm : QStringValid m)
    (s : QDataStream) (rest : List Nat) (hs : s.status = Status.Ok) :
    AbstractPacket.receivePacket (s.withBuffer ((chatNotice u m).sendPacket ++ rest))
        InstanceType.Server
      = (some (chatNotice u m), s.withBuffer rest) := by
  have hlt : (chatNotice u m).type < 4 := by
    show (0 : Nat) < 4
    omega
  obtain ⟨hty, hst, hrs⟩ := header_decode (chatNotice u m) hlt
  have hrd := readU8_cons (s.withBuffer ((chatNotice u m).sendPacket ++ rest))
    (chatNotice u m).header ((chatNotice u m).serialize [] ++ rest) (by simpa using hs)
    (by simp [sendPacket_eq])
  have hc : AbstractPacket.construct InstanceType.Server (chatNotice u m).type
      = some ServerChatMsg.new := rfl
  simp only [AbstractPacket.receivePacket, hrd, hty, hst, hrs, hc, withBuffer_withBuffer]
  simp only [AbstractPacket.parse, AbstractPacket.serialize, ServerChatMsg.new, chatNotice]
  rw [ServerChatMsg_roundtrip { username := u, message := m } _ s rest hs ⟨hu, hm⟩]

/-- C14. Chat dispatch: `handlePacket` on a `ClientChatMsg` packet from a socket `s` bound to
the player `c` writes, for every entry of the session map, one block to the socket of the
entry, the socket `s` among them, and nothing else; the block is the `ServerChatMsg` packet
whose username is the `userName` of `c` and whose message is the message of the client packet,
and a client that receives the block reads exactly this packet from it (strings within the
limits of the wire format).  Players, session map and pending reset stay as they are. -/
theorem chat_dispatch (p : AbstractPacket) (b : ClientChatMsg) (s i : Nat) (c : Curver)
    (w : World) (ht : p.type = ClientTypes.Chat_Message) (hb : p.body = Body.clientChatMsg b)
    (hreg : Server.curverFromSocket s w = some i) (hc : w.curvers[i]? = some c) :
    (∃ w1, Server.handlePacket p s w = some w1 ∧
      w1.written = w.written
        ++ w.clients.map (fun k => (k.1, (chatNotice c.userName b.message).sendPacket)) ∧
      w1.broadcasts = w.broadcasts ++ [chatNotice c.userName b.message] ∧
      w1.chat = w.chat ++ [(c.userName, b.message)] ∧
      w1.clients = w.clients ∧ w1.curvers = w.curvers ∧ w1.resetDue = w.resetDue) ∧
    (s, (chatNotice c.userName b.message).sendPacket)
      ∈ w.clients.map (fun k => (k.1, (chatNotice c.userName b.message).sendPacket)) ∧
    (QStringValid c.userName → QStringValid b.message →
      AbstractPacket.receivePacket
          (QDataStream.ofDevice (chatNotice c.userName b.message).sendPacket) InstanceType.Server
        = (some (chatNotice c.userName b.message), QDataStream.ofDevice [])) := by
  refine ⟨⟨Server.broadcastChatMessage c.userName b.message w, ?_, rfl, rfl, rfl, rfl, rfl, rfl⟩,
    ?_, ?_⟩
  · simp only [Server.handlePacket, ht, hb, hreg, Option.bind, hc, if_true]
  · simp only [Server.curverFromSocket, Option.map_eq_some'] at hreg
    obtain ⟨k, hk, _⟩ := hreg
    have hmem := List.mem_of_find?_eq_some hk
    have hkey : k.1 = s := by
      have := List.find?_some hk
      simpa using this
    exact List.mem_map.mpr ⟨k, hmem, by rw [hkey]⟩
  · intro hu hm
    have h := receive_chatNotice c.userName b.message hu hm (QDataStream.ofDevice []) [] rfl
    rw [List.append_nil] at h
    exact h

/-- Witness for C14: two clients, sockets 7 and 9; socket 9 sends the message "hi". -/
theorem chat_dispatch_witness :
    (7, (chatNotice (some [66]) (some [104, 105])).sendPacket)
        ∈ [(7, 0), (9, 1)].map
          (fun k => (k.1, (chatNotice (some [66]) (some [104, 105])).sendPacket)) ∧
    (9, (chatNotice (some [66]) (some [104, 105])).sendPacket)
        ∈ ({ World.init 2 with
            clients := [(7, 0), (9, 1)],
            curvers :=
              [{ userName := some [65], color := ⟨0, 0, 0, 0, 0, 0⟩, rotation := 0,
                 controller := 1, pos := ⟨0, 0⟩, changingSegment := false,
                 roundScore := 0, totalScore := 0 },
               { userName := some [66], color := ⟨0, 0, 0, 0, 0, 0⟩, rotation := 0,
                 controller := 1, pos := ⟨0, 0⟩, changingSegment := false,
                 roundScore := 0, totalScore := 0 }] } : World).clients.map
          (fun k => (k.1, (chatNotice (some [66]) (some [104, 105])).sendPacket)) :=
  ⟨by decide,
   (chat_dispatch
      { ClientChatMsg.new with body := Body.clientChatMsg { message := some [104, 105] } }
      { message := some [104, 105] } 9 1
      { userName := some [66], color := ⟨0, 0, 0, 0, 0, 0⟩, rotation := 0, controller := 1,
        pos := ⟨0, 0⟩, changingSegment := false, roundScore := 0, totalScore := 0 }
      { World.init 2 with
        clients := [(7, 0), (9, 1)],
        curvers :=
          [{ userName := some [65], color := ⟨0, 0, 0, 0, 0, 0⟩, rotation := 0,
             controller := 1, pos := ⟨0, 0⟩, changingSegment := false,
             roundScore := 0, totalScore := 0 },
           { userName := some [66], color := ⟨0, 0, 0, 0, 0, 0⟩, rotation := 0,
             controller := 1, pos := ⟨0, 0⟩, changingSegment := false,
             roundScore := 0, totalScore := 0 }] }
      rfl rfl rfl rfl).2.1⟩

/-! ## Null safety of the packet dispatch -/

theorem parse_body_kind (r : AbstractPacket) (ins : QDataStream)
    (h : (∃ b, r.body = Body.clientChatMsg b) ∨ (∃ b, r.body = Body.clientPlayerModel b) ∨
      (∃ b, r.body = Body.clientCurverRotation b)) :
    (∃ b, (r.parse ins).1.body = Body.clientChatMsg b ∧ (∃ b0, r.body = Body.clientChatMsg b0)) ∨
    (∃ b, (r.parse ins).1.body = Body.clientPlayerModel b ∧
      (∃ b0, r.body = Body.clientPlayerModel b0)) ∨
    (∃ b, (r.parse ins).1.body = Body.clientCurverRotation b ∧
      (∃ b0, r.body = Body.clientCurverRotation b0)) := by
  rcases r with ⟨t, st, rs, body⟩
  rcases h with ⟨b, hb⟩ | ⟨b, hb⟩ | ⟨b, hb⟩ <;> simp only at hb <;> subst hb
  · exact Or.inl ⟨_, rfl, _, rfl⟩
  · exact Or.inr (Or.inl ⟨_, rfl, _, rfl⟩)
  · exact Or.inr (Or.inr ⟨_, rfl, _, rfl⟩)

theorem construct_client_shape (t : Nat) (r : AbstractPacket)
    (h : AbstractPacket.construct InstanceType.Client t = some r) : ClientShape r := by
  simp only [AbstractPacket.construct] at h
  split_ifs at h <;> cases h
  · exact Or.inl ⟨rfl, _, rfl⟩
  · exact Or.inr (Or.inl ⟨rfl, _, rfl⟩)
  · exact Or.inr (Or.inr ⟨rfl, _, rfl⟩)

theorem receivePacket_client_shape (ins : QDataStream) (p : AbstractPacket)
    (h : (AbstractPacket.receivePacket ins InstanceType.Client).1 = some p) : ClientShape p := by
  simp only [AbstractPacket.receivePacket] at h
  cases hc : AbstractPacket.construct InstanceType.Client
      (AbstractPacket.headerType ins.readU8.1) with
  | none => simp [hc] at h
  | some r =>
    simp only [hc, Option.some.injEq] at h
    subst h
    have hshape := construct_client_shape _ r hc
    rcases r with ⟨t, st, rs, body⟩
    rcases hshape with ⟨ht, b, hb⟩ | ⟨ht, b, hb⟩ | ⟨ht, b, hb⟩ <;>
      simp only at ht hb <;> subst ht hb
    · exact Or.inl ⟨rfl, _, rfl⟩
    · exact Or.inr (Or.inl ⟨rfl, _, rfl⟩)
    · exact Or.inr (Or.inr ⟨rfl, _, rfl⟩)

theorem rollback_depth (s : QDataStream) (h : s.transactionDepth = 1) :
    s.rollbackTransaction.transactionDepth = 0 := by
  rcases s with ⟨b, sv, st, d⟩
  simp only at h
  subst h
  cases st <;> cases sv <;> rfl

/-- The transaction around a null result never commits: `socketReadyRead` passes no null
packet to `handlePacket`. -/
theorem commit_null_fails (ins : QDataStream) (hd : ins.transactionDepth = 0)
    (hn : (AbstractPacket.receivePacket ins.startTransaction InstanceType.Client).1 = none) :
    (AbstractPacket.receivePacket ins.startTransaction
      InstanceType.Client).2.commitTransaction.1 = false := by
  have hsv : ins.startTransaction.saved.isSome = true := by
    simp [QDataStream.startTransaction, hd]
  have hdep : ins.startTransaction.transactionDepth = 1 := by
    simp [QDataStream.startTransaction, hd]
  obtain ⟨_, h2, _, _, _⟩ := stable_readU8 ins.startTransaction hsv
  simp only [AbstractPacket.receivePacket] at hn ⊢
  cases hc : AbstractPacket.construct InstanceType.Client
      (AbstractPacket.headerType ins.startTransaction.readU8.1) with
  | some r => simp [hc] at hn
  | none =>
    simp only [hc]
    have h0 := rollback_depth ins.startTransaction.readU8.2 (by rw [h2, hdep])
    simp [QDataStream.commitTransaction, h0]
theorem handlePacket_total (p : AbstractPacket) (s i : Nat) (w : World) (hp : ClientShape p)
    (hreg : Server.curverFromSocket s w = some i) (hi : i < w.curvers.length) :
    ∃ w1, Server.handlePacket p s w = some w1 ∧ w1.clients = w.clients ∧
      w1.curvers.length = w.curvers.length := by
  have hc : w.curvers[i]? = some w.curvers[i] := List.getElem?_eq_getElem hi
  rcases hp with ⟨ht, b, hb⟩ | ⟨ht, b, hb⟩ | ⟨ht, b, hb⟩
  · simp only [Server.handlePacket, ht, hb, hreg, Option.bind, hc, if_true]
    exact ⟨_, rfl, rfl, rfl⟩
  · simp only [Server.handlePacket, ht, hb, hreg, Option.bind, hc]
    rw [if_neg (by decide), if_pos trivial]
    exact ⟨_, rfl, rfl, by simp⟩
  · simp only [Server.handlePacket, ht, hb, hreg, hc]
    rw [if_neg (by decide), if_neg (by decide), if_pos trivial]
    exact ⟨_, rfl, rfl, by simp⟩

theorem readLoop_total (s i : Nat) (clients : List (Nat × Nat)) (n : Nat)
    (hfind : (clients.find? (fun c => c.1 == s)).map (fun c => c.2) = some i) (hi : i < n) :
    ∀ (fuel : Nat) (ins : QDataStream) (ill : Bool) (x : World), ins.transactionDepth = 0 →
      x.clients = clients → x.curvers.length = n →
      ∃ r, Server.readLoop (fun p y => Server.handlePacket p s y) fuel ins ill x = some r ∧
        r.2.clients = clients ∧ r.2.curvers.length = n := by
  intro fuel
  induction fuel with
  | zero =>
    intro ins ill x _ hc hn
    exact ⟨(ins, x), rfl, hc, hn⟩
  | succ fuel ih =>
    intro ins ill x hd hc hn
    rw [Server.readLoop]
    by_cases hav : ins.bytesAvailable ≠ 0 ∧ ill = false
    · rw [if_pos hav]
      have hne : ins.buffer ≠ [] := by
        intro h
        apply hav.1
        simp [QDataStream.bytesAvailable, h]
      obtain ⟨ok, c, hcm⟩ : ∃ ok c, (AbstractPacket.receivePacket ins.startTransaction
          InstanceType.Client).2.commitTransaction = (ok, c) := ⟨_, _, rfl⟩
      simp only [hcm]
      cases ok with
      | false =>
        simp only [Bool.false_eq_true, if_false, readLoop_stop]
        exact ⟨(c, x), rfl, hc, hn⟩
      | true =>
        obtain ⟨_, hcd⟩ := commit_consumes ins c hd hne hcm
        simp only [if_true]
        cases hpk : (AbstractPacket.receivePacket ins.startTransaction
            InstanceType.Client).1 with
        | none =>
          have hf := commit_null_fails ins hd hpk
          rw [hcm] at hf
          exact absurd hf (by simp)
        | some packet =>
          have hshape := receivePacket_client_shape _ packet hpk
          have hreg : Server.curverFromSocket s x = some i := by
            simp only [Server.curverFromSocket, hc]
            exact hfind
          obtain ⟨x1, hx1, hc1, hn1⟩ := handlePacket_total packet s i x hshape hreg
            (by rw [hn]; exact hi)
          simp only [hx1, Option.bind]
          exact ih c ill x1 hcd (hc1.trans hc) (hn1.trans hn)
    · rw [if_neg hav]
      exact ⟨(ins, x), rfl, hc, hn⟩

theorem socketReadyRead_total (s i : Nat) (w : World)
    (hreg : Server.curverFromSocket s w = some i) (hi : i < w.curvers.length) :
    ∃ w1, Server.socketReadyRead s w = some w1 ∧ w1.clients = w.clients ∧
      w1.curvers.length = w.curvers.length := by
  obtain ⟨r, hr, hc, hn⟩ := readLoop_total s i w.clients w.curvers.length hreg hi
    ((QDataStream.ofDevice (w.rx s)).bytesAvailable + 1) (QDataStream.ofDevice (w.rx s)) false w
    rfl rfl rfl
  refine ⟨{ r.2 with rx := fun t => if t = s then r.1.buffer else r.2.rx t }, ?_, hc, hn⟩
  simp only [Server.socketReadyRead, hr, Option.map_some']
theorem find_of_nodup (clients : List (Nat × Nat)) (s i : Nat)
    (hnd : (clients.map Prod.fst).Nodup) (hm : (s, i) ∈ clients) :
    (clients.find? (fun c => c.1 == s)).map (fun c => c.2) = some i := by
  induction clients with
  | nil => simp at hm
  | cons c rest ih =>
    simp only [List.map_cons, List.nodup_cons] at hnd
    simp only [List.find?_cons]
    rcases List.mem_cons.mp hm with h | h
    · subst h
      simp
    · have hne : c.1 ≠ s := by
        intro hcs
        apply hnd.1
        rw [hcs]
        exact List.mem_map.mpr ⟨(s, i), h, rfl⟩
      have hb : (c.1 == s) = false := by simpa using hne
      rw [hb]
      exact ih hnd.2 h

theorem sessionInv_of_same (w w1 : World) (hinv : SessionInv w) (hc : w1.clients = w.clients)
    (hn : w1.curvers.length = w.curvers.length) : SessionInv w1 := by
  unfold SessionInv
  rw [hc, hn]
  exact hinv

theorem event_step (e : Event) (w w1 : World) (hinv : SessionInv w) (ha : e.Admissible w)
    (he : e.apply w = some w1) :
    w1.clients = w.clients ++ e.accepts w ∧ SessionInv w1 := by
  cases e with
  | newConnection pending fresh =>
    cases pending with
    | none =>
      simp only [Event.apply, Server.newConnection, Option.some.injEq] at he
      subst he
      exact ⟨by simp [Event.accepts], hinv⟩
    | some s =>
      have hnew : ∀ c ∈ w.clients, c.1 ≠ s := ha
      simp only [Event.apply, newConnection_eq s fresh w hnew, Option.some.injEq] at he
      subst he
      refine ⟨rfl, ?_, ?_⟩
      · simp only [afterAccept, List.map_append, List.map_cons, List.map_nil]
        rw [List.nodup_append]
        refine ⟨hinv.1, List.nodup_singleton _, ?_⟩
        intro a h1 h2
        rw [List.mem_singleton] at h2
        subst h2
        obtain ⟨c, hc, hcs⟩ := List.mem_map.mp h1
        exact hnew c hc hcs
      · intro c hc
        simp only [afterAccept, List.mem_append, List.mem_singleton, List.length_append,
          List.length_singleton] at hc ⊢
        rcases hc with h | h
        · exact Nat.lt_succ_of_lt (hinv.2 c h)
        · subst h
          exact Nat.lt_succ_self _
  | socketReadyRead s =>
    obtain ⟨c, hc, hcs⟩ : ∃ c ∈ w.clients, c.1 = s := ha
    have hm : (s, c.2) ∈ w.clients := by
      rw [← hcs]
      exact hc
    obtain ⟨w2, h2, hcl, hn⟩ := socketReadyRead_total s c.2 w
      (find_of_nodup w.clients s c.2 hinv.1 hm) (hinv.2 c hc)
    simp only [Event.apply, h2, Option.some.injEq] at he
    subst he
    exact ⟨by simp [Event.accepts, hcl], sessionInv_of_same w _ hinv hcl hn⟩
  | socketError s =>
    simp only [Event.apply, Option.some.injEq] at he
    subst he
    exact ⟨by simp [Event.accepts, Server.socketError, removePlayer_eq],
      sessionInv_of_same w _ hinv rfl rfl⟩
  | socketDisconnect s =>
    simp only [Event.apply, Option.some.injEq] at he
    subst he
    exact ⟨by simp [Event.accepts, Server.socketDisconnect, removePlayer_eq],
      sessionInv_of_same w _ hinv rfl rfl⟩
  | broadcastCurverData =>
    have hN : 0 < w.networkCurverBlock := by
      rcases Nat.eq_zero_or_pos w.networkCurverBlock with h | h
      · simp [Event.apply, Server.broadcastCurverData, h] at he
      · exact h
    simp only [Event.apply, broadcastCurverData_eq w hN, Option.some.injEq] at he
    subst he
    split_ifs
    · exact ⟨by simp [Event.accepts, Server.broadcastPacket],
        sessionInv_of_same w _ hinv rfl rfl⟩
    · exact ⟨by simp [Event.accepts], sessionInv_of_same w _ hinv rfl rfl⟩
  | broadcastChatMessage u m =>
    simp only [Event.apply, Option.some.injEq] at he
    subst he
    exact ⟨by simp [Event.accepts, broadcastChatMessage_eq],
      sessionInv_of_same w _ hinv rfl rfl⟩
  | broadcastAdminChatMessage m =>
    simp only [Event.apply, Option.some.injEq] at he
    subst he
    exact ⟨by simp [Event.accepts, Server.broadcastAdminChatMessage, broadcastChatMessage_eq],
      sessionInv_of_same w _ hinv rfl rfl⟩
  | broadcastPlayerModel =>
    simp only [Event.apply, Option.some.injEq] at he
    subst he
    exact ⟨by simp [Event.accepts, Server.broadcastPlayerModel, Server.broadcastPacket],
      sessionInv_of_same w _ hinv rfl rfl⟩
  | broadcastItemData sp sq wh ps al ci =>
    simp only [Event.apply, Option.some.injEq] at he
    subst he
    exact ⟨by simp [Event.accepts, Server.broadcastItemData, Server.broadcastPacket],
      sessionInv_of_same w _ hinv rfl rfl⟩
  | resetRound =>
    simp only [Event.apply, Option.some.injEq] at he
    subst he
    exact ⟨by simp [Event.accepts, Server.resetRound], sessionInv_of_same w _ hinv rfl rfl⟩
  | bytesArrive s bytes =>
    simp only [Event.apply, Option.some.injEq] at he
    subst he
    exact ⟨by simp [Event.accepts], sessionInv_of_same w _ hinv rfl rfl⟩

theorem reachable_inv (acc : List (Nat × Nat)) (w : World) (hr : Reachable acc w) :
    w.clients = acc ∧ SessionInv w := by
  induction hr with
  | init w h =>
    refine ⟨h, ?_, ?_⟩
    · simp [h]
    · intro c hc
      rw [h] at hc
      simp at hc
  | step acc w w1 e _ ha he ih =>
    obtain ⟨h1, h2⟩ := event_step e w w1 ih.2 ha he
    exact ⟨by rw [h1, ih.1], h2⟩

/-- C19. Session-map invariant and null safety: in every server state `w` reached from a state
without clients through `newConnection`, `socketReadyRead`, `socketError`, `socketDisconnect`,
the broadcast operations, `resetRound` and the arrival of bytes, the session map is the list
`acc` of the sockets accepted on the way, each bound to the player created for it; for every
such socket `curverFromSocket` returns that player and the player is in the registry;
`handlePacket` has a defined result for every packet `receivePacket` can return, so the
dereferences of `curver` and `p` do not act on null; `socketReadyRead` has a defined result
whatever bytes are buffered, which it has only if no null packet reaches `handlePacket`; and a
transaction in which `receivePacket` returned null does not commit. -/
theorem session_null_safety (acc : List (Nat × Nat)) (w : World) (hr : Reachable acc w) :
    w.clients = acc ∧
    (∀ s i, (s, i) ∈ acc →
      Server.curverFromSocket s w = some i ∧ (∃ c, w.curvers[i]? = some c) ∧
      (∀ p, ClientShape p → ∃ w1, Server.handlePacket p s w = some w1) ∧
      (∃ w1, Server.socketReadyRead s w = some w1)) ∧
    (∀ ins p, (AbstractPacket.receivePacket ins InstanceType.Client).1 = some p →
      ClientShape p) ∧
    (∀ ins : QDataStream, ins.transactionDepth = 0 →
      (AbstractPacket.receivePacket ins.startTransaction InstanceType.Client).1 = none →
      (AbstractPacket.receivePacket ins.startTransaction
        InstanceType.Client).2.commitTransaction.1 = false) := by
  obtain ⟨hcl, hnd, hb⟩ := reachable_inv acc w hr
  refine ⟨hcl, ?_, receivePacket_client_shape, commit_null_fails⟩
  intro s i hm
  rw [← hcl] at hm
  have hreg : Server.curverFromSocket s w = some i := find_of_nodup w.clients s i hnd hm
  have hi : i < w.curvers.length := hb (s, i) hm
  refine ⟨hreg, ⟨w.curvers[i], List.getElem?_eq_getElem hi⟩, ?_, ?_⟩
  · intro p hp
    obtain ⟨w1, h1, _⟩ := handlePacket_total p s i w hp hreg hi
    exact ⟨w1, h1⟩
  · obtain ⟨w1, h1, _⟩ := socketReadyRead_total s i w hreg hi
    exact ⟨w1, h1⟩
/-- Witness for C19: the state after socket 7 was accepted on a server without clients is
reachable; there socket 7 is bound to player 0 and `socketReadyRead` on it has a defined
result. -/
theorem session_null_safety_witness :
    Reachable [(7, 0)] (afterAccept 7
      { userName := none, color := ⟨0, 0, 0, 0, 0, 0⟩, rotation := 0, controller := 0,
        pos := ⟨0, 0⟩, changingSegment := false, roundScore := 0, totalScore := 0 }
      (World.init 2)) ∧
    Server.curverFromSocket 7 (afterAccept 7
      { userName := none, color := ⟨0, 0, 0, 0, 0, 0⟩, rotation := 0, controller := 0,
        pos := ⟨0, 0⟩, changingSegment := false, roundScore := 0, totalScore := 0 }
      (World.init 2)) = some 0 ∧
    (∃ w1, Server.socketReadyRead 7 (afterAccept 7
      { userName := none, color := ⟨0, 0, 0, 0, 0, 0⟩, rotation := 0, controller := 0,
        pos := ⟨0, 0⟩, changingSegment := false, roundScore := 0, totalScore := 0 }
      (World.init 2)) = some w1) :=
  have hr : Reachable [(7, 0)] (afterAccept 7
      { userName := none, color := ⟨0, 0, 0, 0, 0, 0⟩, rotation := 0, controller := 0,
        pos := ⟨0, 0⟩, changingSegment := false, roundScore := 0, totalScore := 0 }
      (World.init 2)) :=
    Reachable.step [] (World.init 2) _
      (Event.newConnection (some 7)
        { userName := none, color := ⟨0, 0, 0, 0, 0, 0⟩, rotation := 0, controller := 0,
          pos := ⟨0, 0⟩, changingSegment := false, roundScore := 0, totalScore := 0 })
      (Reachable.init _ rfl) (by simp [Event.Admissible, World.init])
      (newConnection_eq 7 _ (World.init 2) (by simp [World.init]))
  ⟨hr, ((session_null_safety _ _ hr).2.1 7 0 (by simp)).1,
    ((session_null_safety _ _ hr).2.1 7 0 (by simp)).2.2.2⟩

/-! ## Index bounds of the clean-install animation -/

theorem accumulate_eq_sum (cnt : List Nat) (init : Nat) :
    Util.accumulate cnt init = init + cnt.sum := by
  induction cnt generalizing init with
  | nil => simp [Util.accumulate]
  | cons x rest ih =>
    have h := ih (init + x)
    simp only [Util.accumulate, List.foldl_cons, List.sum_cons] at h ⊢
    omega

theorem trigger_eq (newSegments : List Segment) (a : CleaninstallAnimation)
    (hne : newSegments ≠ []) :
    (CleaninstallAnimation.trigger newSegments a).1
      = { segments := a.segments ++ newSegments,
          sizeCache := (a.segments ++ newSegments).map (fun s => s.getSegmentSize),
          pointsDeleted := (a.segments ++ newSegments).map (fun _ => 0),
          totalSize := ((a.segments ++ newSegments).map (fun s => s.getSegmentSize)).sum,
          timerActive := true } := by
  have hlen : newSegments.length ≠ 0 := by
    intro h
    exact hne (List.length_eq_zero.mp h)
  simp only [CleaninstallAnimation.trigger, if_neg hlen, accumulate_eq_sum, Nat.zero_add]

theorem skipLoop_spec (remaining : List Nat) :
    ∀ (i q : Nat) (a : CleaninstallAnimation), i + remaining.length ≤ a.segments.length →
      i + remaining.length ≤ a.pointsDeleted.length →
      ∃ j r a1, CleaninstallAnimation.skipLoop remaining i q a = some (j, r, a1) ∧
        a1.segments.length = a.segments.length ∧
        a1.pointsDeleted.length = a.pointsDeleted.length ∧
        (q < remaining.sum → j < i + remaining.length) ∧
        (remaining.sum ≤ q → j = i + remaining.length) := by
  induction remaining with
  | nil =>
    intro i q a _ _
    exact ⟨i, q, a, rfl, rfl, rfl, by simp, by simp⟩
  | cons size rest ih =>
    intro i q a hs hp
    simp only [List.length_cons] at hs hp
    have hi1 : i < a.segments.length := by omega
    have hi2 : i < a.pointsDeleted.length := by omega
    by_cases hq : q ≥ size
    · obtain ⟨j, r, a1, h1, h2, h3, h4, h5⟩ := ih (i + 1) (q - size)
        { a with
          segments := a.segments.set i a.segments[i].clear,
          pointsDeleted := a.pointsDeleted.set i size }
        (by simp only [List.length_set]; omega) (by simp only [List.length_set]; omega)
      refine ⟨j, r, a1, ?_, ?_, ?_, ?_, ?_⟩
      · simp only [CleaninstallAnimation.skipLoop, if_pos hq, List.getElem?_eq_getElem hi1,
          List.getElem?_eq_getElem hi2]
        exact h1
      · simpa using h2
      · simpa using h3
      · intro h
        simp only [List.sum_cons, List.length_cons] at h ⊢
        have := h4 (by omega)
        omega
      · intro h
        simp only [List.sum_cons, List.length_cons] at h ⊢
        have := h5 (by omega)
        omega
    · refine ⟨i, q, a, ?_, rfl, rfl, ?_, ?_⟩
      · simp only [CleaninstallAnimation.skipLoop, if_neg hq]
      · intro _
        simp only [List.length_cons]
        omega
      · intro h
        simp only [List.sum_cons] at h
        omega

theorem floor_factor_lt (n : Nat) (f : ℚ) (h0 : 0 ≤ f) (h1 : f < 1) (hn : 0 < n) :
    Nat.floor ((n : ℚ) * f) < n := by
  have hpos : (0 : ℚ) < n := by exact_mod_cast hn
  rw [Nat.floor_lt (mul_nonneg (le_of_lt hpos) h0)]
  calc (n : ℚ) * f < n * 1 := (mul_lt_mul_left hpos).mpr h1
    _ = n := mul_one _

theorem progress_after_trigger (newSegments : List Segment) (a0 : CleaninstallAnimation)
    (f : ℚ) (hne : newSegments ≠ []) (h1 : f < 1) :
    ∃ j r a1,
      CleaninstallAnimation.skipLoop (CleaninstallAnimation.trigger newSegments a0).1.sizeCache 0
        (Nat.floor (((CleaninstallAnimation.trigger newSegments a0).1.totalSize : ℚ) * f))
        (CleaninstallAnimation.trigger newSegments a0).1 = some (j, r, a1) ∧
      a1.segments.length = (a0.segments ++ newSegments).length ∧
      a1.pointsDeleted.length = (a0.segments ++ newSegments).length ∧
      (Nat.floor (((CleaninstallAnimation.trigger newSegments a0).1.totalSize : ℚ) * f)
          < (CleaninstallAnimation.trigger newSegments a0).1.totalSize →
        j < (a0.segments ++ newSegments).length) ∧
      ((CleaninstallAnimation.trigger newSegments a0).1.totalSize = 0 →
        j = (a0.segments ++ newSegments).length) ∧
      (CleaninstallAnimation.progressFactor f (CleaninstallAnimation.trigger newSegments a0).1
        = match a1.segments[j]?, a1.pointsDeleted[j]? with
          | some seg, some deleted =>
            some { a1 with
              segments := a1.segments.set j (seg.popPoints (r - deleted)),
              pointsDeleted := a1.pointsDeleted.set j r }
          | _, _ => none) := by
  rw [trigger_eq newSegments a0 hne]
  obtain ⟨j, r, a1, h, hs, hp, hlt, hge⟩ := skipLoop_spec
    ((a0.segments ++ newSegments).map (fun s => s.getSegmentSize)) 0
    (Nat.floor (((((a0.segments ++ newSegments).map (fun s => s.getSegmentSize)).sum : Nat) : ℚ)
      * f))
    { segments := a0.segments ++ newSegments,
      sizeCache := (a0.segments ++ newSegments).map (fun s => s.getSegmentSize),
      pointsDeleted := (a0.segments ++ newSegments).map (fun _ => 0),
      totalSize := ((a0.segments ++ newSegments).map (fun s => s.getSegmentSize)).sum,
      timerActive := true }
    (by simp) (by simp)
  simp only [List.length_map, Nat.zero_add] at hs hp hlt hge
  refine ⟨j, r, a1, h, hs, hp, hlt, ?_, ?_⟩
  · intro hz
    apply hge
    simp only at hz
    rw [hz]
    simp
  · simp only [CleaninstallAnimation.progressFactor, if_pos h1, h]

/-- C21, evaluated on the code. Animation index bounds: after `trigger` on a non-empty list of
new segments (on top of any animation state) and for every factor `0 <= f < 1`, the segment
index `progress` reaches after the skip loop is smaller than the number of held segments, and
`progress` has a defined result, when the total size is positive; when every held segment has
size 0 the loop runs over all segments, the index equals the number of held segments, and the
accesses `segments[segmentIndex]` and `pointsDeleted[segmentIndex]` are out of range (no
defined result).  So it is for one segment of size 0 triggered on a new animation, with no
time elapsed: the index reached is 1 and one segment is held. -/
theorem progress_index_out_of_range :
    (∀ (newSegments : List Segment) (a0 : CleaninstallAnimation) (f : ℚ),
      newSegments ≠ [] → 0 ≤ f → f < 1 →
      0 < (CleaninstallAnimation.trigger newSegments a0).1.totalSize →
      ∃ j, CleaninstallAnimation.indexAfterSkip f
            (CleaninstallAnimation.trigger newSegments a0).1 = some j ∧
        j < (CleaninstallAnimation.trigger newSegments a0).1.segments.length ∧
        ∃ a2, CleaninstallAnimation.progressFactor f
            (CleaninstallAnimation.trigger newSegments a0).1 = some a2) ∧
    (∀ (newSegments : List Segment) (a0 : CleaninstallAnimation) (f : ℚ),
      newSegments ≠ [] → 0 ≤ f → f < 1 →
      (CleaninstallAnimation.trigger newSegments a0).1.totalSize = 0 →
      CleaninstallAnimation.indexAfterSkip f (CleaninstallAnimation.trigger newSegments a0).1
        = some (CleaninstallAnimation.trigger newSegments a0).1.segments.length ∧
      CleaninstallAnimation.progressFactor f (CleaninstallAnimation.trigger newSegments a0).1
        = none) ∧
    (CleaninstallAnimation.trigger [{ points := 0 }] CleaninstallAnimation.new).1
      = { segments := [{ points := 0 }], sizeCache := [0], pointsDeleted := [0],
          totalSize := 0, timerActive := true } ∧
    CleaninstallAnimation.indexAfterSkip 0
      (CleaninstallAnimation.trigger [{ points := 0 }] CleaninstallAnimation.new).1 = some 1 ∧
    CleaninstallAnimation.progress 0
      (CleaninstallAnimation.trigger [{ points := 0 }] CleaninstallAnimation.new).1 = none := by
  have hlen : ∀ (newSegments : List Segment) (a0 : CleaninstallAnimation), newSegments ≠ [] →
      (CleaninstallAnimation.trigger newSegments a0).1.segments.length
        = (a0.segments ++ newSegments).length := by
    intro newSegments a0 hne
    rw [trigger_eq newSegments a0 hne]
  have hzero : ∀ (newSegments : List Segment) (a0 : CleaninstallAnimation) (f : ℚ),
      newSegments ≠ [] → f < 1 →
      (CleaninstallAnimation.trigger newSegments a0).1.totalSize = 0 →
      CleaninstallAnimation.indexAfterSkip f (CleaninstallAnimation.trigger newSegments a0).1
        = some (CleaninstallAnimation.trigger newSegments a0).1.segments.length ∧
      CleaninstallAnimation.progressFactor f (CleaninstallAnimation.trigger newSegments a0).1
        = none := by
    intro newSegments a0 f hne h1 hz
    obtain ⟨j, r, a1, h, hs, hp, _, hj, hprog⟩ := progress_after_trigger newSegments a0 f hne h1
    have hj1 := hj hz
    refine ⟨?_, ?_⟩
    · simp only [CleaninstallAnimation.indexAfterSkip, h, Option.map_some', hlen _ _ hne, hj1]
    · rw [hprog]
      have hnone : a1.segments[j]? = none := by
        rw [List.getElem?_eq_none_iff]
        omega
      simp only [hnone]
  refine ⟨?_, fun newSegments a0 f hne _ h1 hz => hzero newSegments a0 f hne h1 hz, by decide,
    ?_, ?_⟩
  · intro newSegments a0 f hne h0 h1 hpos
    obtain ⟨j, r, a1, h, hs, hp, hj, _, hprog⟩ := progress_after_trigger newSegments a0 f hne h1
    have hj1 := hj (floor_factor_lt _ f h0 h1 hpos)
    refine ⟨j, ?_, ?_, ?_⟩
    · simp only [CleaninstallAnimation.indexAfterSkip, h, Option.map_some']
    · rw [hlen _ _ hne]
      exact hj1
    · rw [hprog]
      have hi1 : j < a1.segments.length := by omega
      have hi2 : j < a1.pointsDeleted.length := by omega
      simp only [List.getElem?_eq_getElem hi1, List.getElem?_eq_getElem hi2]
      exact ⟨_, rfl⟩
  · exact (hzero [{ points := 0 }] CleaninstallAnimation.new 0 (by simp) (by norm_num)
      (by decide)).1
  · have h := (hzero [{ points := 0 }] CleaninstallAnimation.new 0 (by simp) (by norm_num)
      (by decide)).2
    simpa [CleaninstallAnimation.progress] using h

end QuickCurver
